import Mathlib

/-!
# Hybrid A* lattice search of `node3d.cpp`

A shallow embedding of `src/src/node3d.cpp` (class `Node3D`): the motion tables, the
movement cost, the cost-to-go estimate, the goal test `operator==` and the search loop
`Node3D::aStar`, followed by the properties proved about them.

Conventions of the embedding.

* `int` values are `Int`.  `float` headings are rationals (`ℚ`), and the `float` subtraction of
  two headings in `operator==` rounds its result to the nearest `float` (`roundFloat`); the
  headings that the search computes itself are whole numbers.  `float` costs live in an
  ordered field `K` (the reals in the statements about exact arithmetic), and the library
  routine `sqrt` is a parameter `Ext.sqrt`.
* A `Node3D*` is `Option (Node3D K)`; nodes are never modified after they have been pushed, so a
  node carries its predecessor as a value.
* The caller-supplied arrays are functions on indices.  `open`, `closed`, `cost` and `costToGo`
  have `width * height * 8` entries and the occupancy data has `width * height` entries, the
  local table `dT` has 360; an access outside these extents is undefined behaviour and ends the
  run with `Outcome.undefined`.  The cache `costGoal`, whose extent the source does not fix, is
  taken to be defined wherever `costToGo` reads it.
* `std::priority_queue` is an abstract queue (`PriorityQueue`): `pop` hands out some element
  that `CompareNodes` orders before no other, one of least `getC`; which one among equals is
  up to the queue.
* The `while` loop runs on a fuel counter that is set from the size of the lattice.
-/

namespace PathPlanner

/-! ## Constants (lines 7-13) -/

/-- Number of possible directions (`Node3D::dir`). -/
def dir : Int := 8

/-- Possible movements in x (`Node3D::dx`). -/
def dx : List Int := [1, 1, 0, -1, -1, -1, 0, 1]

/-- Possible movements in y (`Node3D::dy`). -/
def dy : List Int := [0, 1, 1, 1, 0, -1, -1, -1]

/-- Heading labels of the eight directions (`Node3D::dt`). -/
def dt : List ℚ := [0, 45, 90, 135, 180, 225, 270, 315]

/-! ## Nodes -/

/-- A search node: position, heading, cost so far `g`, estimate `h`, predecessor pointer. -/
inductive Node3D (K : Type) where
  | mk (x y : Int) (t : ℚ) (g h : K) (pred : Option (Node3D K)) : Node3D K

namespace Node3D

variable {K : Type}

/-- Getter `getX`. -/
def getX : Node3D K → Int
  | mk x _ _ _ _ _ => x

/-- Getter `getY`. -/
def getY : Node3D K → Int
  | mk _ y _ _ _ _ => y

/-- Getter `getT`. -/
def getT : Node3D K → ℚ
  | mk _ _ t _ _ _ => t

/-- Getter `getG`. -/
def getG : Node3D K → K
  | mk _ _ _ g _ _ => g

/-- Getter `getH`. -/
def getH : Node3D K → K
  | mk _ _ _ _ h _ => h

/-- Getter `getPred`. -/
def getPred : Node3D K → Option (Node3D K)
  | mk _ _ _ _ _ p => p

/-- Modelled from the spec: `getC` of the missing header `node3d.h`, the priority key `g + h`
("`g+h` is the priority key"). -/
def getC [Add K] (n : Node3D K) : K := n.getG + n.getH

/-- Modelled from the spec: `setPred` of the missing header `node3d.h`, which stores the
back-reference to the predecessor. -/
def setPred : Node3D K → Option (Node3D K) → Node3D K
  | mk x y t g h _, p => mk x y t g h p

/-- Store a new `g`. -/
def withG : Node3D K → K → Node3D K
  | mk x y t _ h p, g => mk x y t g h p

/-- Store a new `h`. -/
def withH : Node3D K → K → Node3D K
  | mk x y t g _ p, h => mk x y t g h p

/-- The node followed by its predecessors, nearest first (walking `pred` until `nullptr`). -/
def chain : Node3D K → List (Node3D K)
  | mk x y t g h none => [mk x y t g h none]
  | mk x y t g h (some p) => mk x y t g h (some p) :: chain p

end Node3D

/-! ## External routines -/

/-- The numeric routines the source calls but does not define: `sqrt` of an `int` expression,
the Dubins curve length (`dubins_init` with `dubins_path_length`, turning radius 1.5) and the
2D grid search `Node2D::aStar`. -/
structure Ext (K : Type) where
  /-- The `sqrt` of the C library, applied to an `int`. -/
  sqrt : Int → K
  /-- Length of the Dubins path from `(x, y, t)` to `(x, y, t)` of the goal. -/
  dubinsPathLength : Int → Int → ℚ → Int → Int → ℚ → K
  /-- Cost found by the 2D search from `(x, y)` to the goal `(x, y)` on the grid data. -/
  aStar2D : Int → Int → Int → Int → (Int → Int) → K

/-- The occupancy grid message: `info.width` and the flattened `data` (nonzero is blocked). -/
structure OccupancyGrid where
  /-- Field `info.width`. -/
  infoWidth : Int
  /-- Field `data`. -/
  data : Int → Int

/-- The conversion `(int) t` of a `float` heading: truncation toward zero. -/
def toInt (q : ℚ) : Int := if 0 ≤ q then ⌊q⌋ else ⌈q⌉

/-! ## Movement cost (lines 18-31) -/

/-- The local flag `penalty` of `movementCost`. -/
def penalty : Bool := false

/-- The function `Node3D::movementCost`: Euclidean distance to the predecessor plus the heading
penalty, which the flag `penalty` switches off. -/
def Node3D.movementCost {K : Type} [LinearOrderedField K] (E : Ext K) (n pred : Node3D K) : K :=
  let tPenalty : K :=
    if penalty = true then
      (if |n.getT - pred.getT| > 180 then ((360 - |n.getT - pred.getT|) / 45 : ℚ)
       else (|n.getT - pred.getT| / 45 : ℚ))
    else 0
  let distance : K :=
    E.sqrt ((n.getX - pred.getX) * (n.getX - pred.getX)
      + (n.getY - pred.getY) * (n.getY - pred.getY))
  distance + tPenalty

/-! ## Cost to go (lines 36-68) -/

/-- The function `Node3D::costToGo` with the two local flags `dubins` and `twoD` as arguments.
Returns the estimate and the `costGoal` array after the call. -/
def Node3D.costToGoWith {K : Type} [LinearOrderedField K] (E : Ext K) (dubins twoD : Bool)
    (n goal : Node3D K) (oGrid : OccupancyGrid) (costGoal : Int → K) : K × (Int → K) :=
  let dubinsCost : K :=
    if dubins = true then
      E.dubinsPathLength n.getX n.getY n.getT goal.getX goal.getY goal.getT
    else 0
  let i : Int := n.getY * oGrid.infoWidth + n.getX
  let costGoal1 : Int → K :=
    if twoD = true ∧ costGoal i = 0 then
      Function.update costGoal i (E.aStar2D n.getX n.getY goal.getX goal.getY oGrid.data)
    else costGoal
  let euclideanCost : K :=
    E.sqrt ((n.getX - goal.getX) * (n.getX - goal.getX)
      + (n.getY - goal.getY) * (n.getY - goal.getY))
  (max euclideanCost (max dubinsCost (costGoal1 i)), costGoal1)

/-- The function `Node3D::costToGo` as compiled: both flags are the constant `false`. -/
def Node3D.costToGo {K : Type} [LinearOrderedField K] (E : Ext K)
    (n goal : Node3D K) (oGrid : OccupancyGrid) (costGoal : Int → K) : K × (Int → K) :=
  Node3D.costToGoWith E false false n goal oGrid costGoal

/-- Modelled from the spec: `updateG` of the missing header `node3d.h`.  A successor is built
with its predecessor's `g` and "candidate `g = parent.g + movementCost(parent)`", the start is
updated against itself ("movement cost from itself"): the movement cost is added to `g`. -/
def Node3D.updateG {K : Type} [LinearOrderedField K] (E : Ext K) (n pred : Node3D K) :
    Node3D K :=
  n.withG (n.getG + n.movementCost E pred)

/-- Modelled from the spec: `updateH` of the missing header `node3d.h`, "compute `h` via
CostToGo".  Returns the node and the `costGoal` array after the call. -/
def Node3D.updateH {K : Type} [LinearOrderedField K] (E : Ext K) (n goal : Node3D K)
    (oGrid : OccupancyGrid) (costGoal : Int → K) : Node3D K × (Int → K) :=
  (n.withH (n.costToGo E goal oGrid costGoal).1, (n.costToGo E goal oGrid costGoal).2)

/-- The length of the path that the predecessor chain of a node stands for: the sum of the
movement costs from every node of the chain to its predecessor. -/
def Node3D.pathLength {K : Type} [LinearOrderedField K] (E : Ext K) : Node3D K → K
  | Node3D.mk _ _ _ _ _ none => 0
  | Node3D.mk x y t g h (some p) =>
    (Node3D.mk x y t g h (some p)).movementCost E p + Node3D.pathLength E p

/-! ## Goal test (lines 80-84) -/

/-- Round to the nearest integer, a tie to the even one. -/
def roundEven (q : ℚ) : Int :=
  if q - ⌊q⌋ < 1 / 2 then ⌊q⌋
  else if 1 / 2 < q - ⌊q⌋ then ⌊q⌋ + 1
  else if ⌊q⌋ % 2 = 0 then ⌊q⌋ else ⌊q⌋ + 1

/-- The spacing of the `float` (binary32) values at the magnitude `q`: `2 ^ (e - 23)` for
`2 ^ e <= q < 2 ^ (e + 1)`, and `2 ^ -149` below the normal range. -/
def floatUlp (q : ℚ) : ℚ := (2 : ℚ) ^ (max (Int.log 2 q) (-126) - 23)

/-- The `float` nearest to the magnitude `q >= 0`, a tie to the one with even significand. -/
def roundFloatAbs (q : ℚ) : ℚ := (roundEven (q / floatUlp q) : ℚ) * floatUlp q

/-- The `float` nearest to `q`: the result of a `float` operation whose exact result is `q`
(overflow, which headings do not reach, left aside). -/
def roundFloat (q : ℚ) : ℚ := if q < 0 then -roundFloatAbs (-q) else roundFloatAbs q

/-- The comparison `operator==` on nodes: same cell and headings within 22.5 degrees.  The
difference of the two `float` magnitudes is a `float` subtraction, which rounds. -/
def Node3D.eq {K : Type} (lhs rhs : Node3D K) : Bool :=
  decide (lhs.getX = rhs.getX) && decide (lhs.getY = rhs.getY)
    && decide (|roundFloat (|lhs.getT| - |rhs.getT|)| ≤ (45 / 2 : ℚ))

/-! ## Motion primitives and theta mapping (lines 92-117) -/

/-- The table `dX[8][3]` filled by the first loop of `aStar`. -/
def dX : List (List Int) :=
  (List.range 8).map fun (i : Nat) => (List.range 3).map fun (j : Nat) =>
    if i + j < 8 then dx.getD (i + j) 0 else dx.getD (i + j - 8) 0

/-- The table `dY[8][3]` filled by the first loop of `aStar`. -/
def dY : List (List Int) :=
  (List.range 8).map fun (i : Nat) => (List.range 3).map fun (j : Nat) =>
    if i + j < 8 then dy.getD (i + j) 0 else dy.getD (i + j - 8) 0

/-- The table `dT[360]` filled by the second loop of `aStar`. -/
def dT : List Int :=
  (List.range 360).map fun (i : Nat) =>
    let factor : Int := (i : Int) / 45 - 1
    if factor < 0 then 7 else factor

/-- Read `dX[j][i]`. -/
def dXat (j : Int) (i : Fin 3) : Int := (dX.getD j.toNat []).getD i.val 0

/-- Read `dY[j][i]`. -/
def dYat (j : Int) (i : Fin 3) : Int := (dY.getD j.toNat []).getD i.val 0

/-- Read `dT[i]`; `none` outside the 360 entries. -/
def dTat (i : Int) : Option Int := if 0 ≤ i then dT.get? i.toNat else none

/-- The heading of successor `i` before wrapping (lines 172-174). -/
def tSuccRaw (t : Int) (i : Fin 3) : Int :=
  match i with
  | 0 => t - 45
  | 1 => t
  | 2 => t + 45

/-- The wrap of a successor heading into the table range (lines 176-177). -/
def wrap360 (tSucc : Int) : Int :=
  if tSucc > 359 then tSucc % 360
  else if tSucc < 0 then 360 + tSucc
  else tSucc

/-- The heading `tSucc` of successor `i` (lines 172-177). -/
def tSuccOf (t : Int) (i : Fin 3) : Int := wrap360 (tSuccRaw t i)

/-- The values `0, 1, 2` of the loop variable `i` of the successor loop (line 168). -/
def successorIndices : List (Fin 3) := [0, 1, 2]

/-! ## Priority queue -/

/-- The comparator `CompareNodes` (lines 73-78): `lhs` is ordered before `rhs` when its
total cost `getC` is the larger one. -/
def CompareNodes {K : Type} [LinearOrderedField K] (lhs rhs : Node3D K) : Bool :=
  decide (lhs.getC > rhs.getC)

/-- The open list `std::priority_queue<Node3D*, std::vector<Node3D*>, CompareNodes>`: a queue
whose `top` is an element that the comparator orders before no other element.  `toList` is
the content of the queue. -/
structure PriorityQueue (α : Type) (comp : α → α → Bool) where
  /-- The states of the queue. -/
  Q : Type
  /-- The empty queue. -/
  empty : Q
  /-- The call `push`. -/
  push : Q → α → Q
  /-- The calls `top` and `pop`; `none` when `empty()` holds. -/
  pop : Q → Option (α × Q)
  /-- The elements held by the queue. -/
  toList : Q → List α
  /-- The empty queue holds nothing. -/
  toList_empty : toList empty = []
  /-- After `push` the queue holds the element as well. -/
  toList_push : ∀ q a, (toList (push q a)).Perm (a :: toList q)
  /-- The call `pop` fails exactly on the empty queue. -/
  pop_eq_none : ∀ q, pop q = none ↔ toList q = []
  /-- The call `pop` takes one element out of the queue. -/
  pop_perm : ∀ q a r, pop q = some (a, r) → (toList q).Perm (a :: toList r)
  /-- The element taken out is ordered before no element of the queue. -/
  pop_top : ∀ q a r, pop q = some (a, r) → ∀ b ∈ toList q, comp a b = false

/-- Take the first element of least key out of a list. -/
def popMin {α K : Type} [LinearOrder K] (key : α → K) : List α → Option (α × List α)
  | [] => none
  | a :: l =>
    match popMin key l with
    | none => some (a, [])
    | some (b, r) => if key a ≤ key b then some (a, l) else some (b, a :: r)

/-- The queue kept as a plain list; `pop` takes the first element of least key. -/
def listQueue {α K : Type} [LinearOrder K] (key : α → K) :
    PriorityQueue α (fun a b => decide (key a > key b)) where
  Q := List α
  empty := []
  push q a := a :: q
  pop := popMin key
  toList q := q
  toList_empty := rfl
  toList_push _ _ := List.Perm.refl _
  pop_eq_none q := by
    cases q with
    | nil => simp [popMin]
    | cons a l =>
      simp only [popMin]
      cases popMin key l with
      | none => simp
      | some p => by_cases h : key a ≤ key p.1 <;> simp [h]
  pop_perm q := by
    induction q with
    | nil => intro a r h; simp [popMin] at h
    | cons c l ih =>
      intro a r h
      simp only [popMin] at h
      cases hl : popMin key l with
      | none =>
        have hnil : l = [] := by
          cases l with
          | nil => rfl
          | cons d m =>
            simp only [popMin] at hl
            cases hm : popMin key m with
            | none => simp [hm] at hl
            | some p => by_cases h2 : key d ≤ key p.1 <;> simp [hm, h2] at hl
        simp only [hl, Option.some.injEq, Prod.mk.injEq] at h
        obtain ⟨rfl, rfl⟩ := h
        simp [hnil]
      | some p =>
        obtain ⟨b, s⟩ := p
        simp only [hl] at h
        by_cases h2 : key c ≤ key b
        · simp only [h2, if_true, Option.some.injEq, Prod.mk.injEq] at h
          obtain ⟨rfl, rfl⟩ := h
          exact List.Perm.refl _
        · simp only [h2, if_false, Option.some.injEq, Prod.mk.injEq] at h
          obtain ⟨rfl, rfl⟩ := h
          exact ((ih b s hl).cons c).trans (List.Perm.swap b c s)
  pop_top q := by
    induction q with
    | nil => intro a r h; simp [popMin] at h
    | cons c l ih =>
      intro a r h
      simp only [popMin] at h
      cases hl : popMin key l with
      | none =>
        have hnil : l = [] := by
          cases l with
          | nil => rfl
          | cons d m =>
            simp only [popMin] at hl
            cases hm : popMin key m with
            | none => simp [hm] at hl
            | some p => by_cases h2 : key d ≤ key p.1 <;> simp [hm, h2] at hl
        simp only [hl, Option.some.injEq, Prod.mk.injEq] at h
        obtain ⟨rfl, rfl⟩ := h
        simp [hnil]
      | some p =>
        obtain ⟨b, s⟩ := p
        simp only [hl] at h
        have hb := ih b s hl
        by_cases h2 : key c ≤ key b
        · simp only [h2, if_true, Option.some.injEq, Prod.mk.injEq] at h
          obtain ⟨rfl, rfl⟩ := h
          intro d hd
          rcases List.mem_cons.1 hd with rfl | hd
          · simp
          · have h3 := hb d hd
            simp only [gt_iff_lt, decide_eq_false_iff_not, not_lt] at h3 ⊢
            exact le_trans h2 h3
        · simp only [h2, if_false, Option.some.injEq, Prod.mk.injEq] at h
          obtain ⟨rfl, rfl⟩ := h
          intro d hd
          rcases List.mem_cons.1 hd with rfl | hd
          · simp only [gt_iff_lt, decide_eq_false_iff_not, not_lt]
            exact le_of_lt (lt_of_not_le h2)
          · exact hb d hd

/-- The list queue for nodes, ordered by `CompareNodes`. -/
def nodeQueue {K : Type} [LinearOrderedField K] : PriorityQueue (Node3D K) CompareNodes :=
  listQueue Node3D.getC

/-! ## The search (lines 89-219) -/

/-- What a call of `aStar` ends in. -/
inductive Outcome (K : Type) where
  /-- The goal node was returned. -/
  | found (n : Node3D K) : Outcome K
  /-- The null pointer was returned: no path found. -/
  | null : Outcome K
  /-- An array was accessed outside its extent. -/
  | undefined : Outcome K
  /-- The loop was still running when the fuel ran out. -/
  | running : Outcome K

/-- The arrays passed to `aStar`. -/
structure Tables (K : Type) where
  /-- Array `open`. -/
  open_ : Int → Bool
  /-- Array `closed`. -/
  closed : Int → Bool
  /-- Array `cost`. -/
  cost : Int → K
  /-- Array `costToGo`. -/
  costToGo : Int → K
  /-- Array `costGoal`. -/
  costGoal : Int → K

/-- The variables of the loop of `aStar`: the arrays and the open list `O`. -/
structure SearchState (K Q : Type) extends Tables K where
  /-- The open list. -/
  O : Q

/-- The arguments of `aStar` that stay fixed during the run. -/
structure Problem (K : Type) where
  /-- The goal node. -/
  goal : Node3D K
  /-- The occupancy grid. -/
  oGrid : OccupancyGrid
  /-- Argument `width`. -/
  width : Int
  /-- Argument `height`. -/
  height : Int
  /-- Argument `depth`. -/
  depth : Int
  /-- Argument `length`. -/
  length : Int

/-- An index into `open`, `closed`, `cost` or `costToGo` lies inside the array. -/
def Problem.inTable {K : Type} (P : Problem K) (idx : Int) : Prop :=
  0 ≤ idx ∧ idx < P.width * P.height * 8

instance {K : Type} (P : Problem K) (idx : Int) : Decidable (P.inTable idx) :=
  inferInstanceAs (Decidable (0 ≤ idx ∧ idx < P.width * P.height * 8))

/-- An index into the occupancy data lies inside the array. -/
def Problem.inData {K : Type} (P : Problem K) (i : Int) : Prop :=
  0 ≤ i ∧ i < P.width * P.height

instance {K : Type} (P : Problem K) (i : Int) : Decidable (P.inData i) :=
  inferInstanceAs (Decidable (0 ≤ i ∧ i < P.width * P.height))

section Search

variable {K : Type} [LinearOrderedField K]

/-- The body of the `for` loop over the three successors (lines 168-210), for successor `i` of
the node `nPred` with integer heading `t` and motion primitive index `j`.  `none` stands for an
access outside an array. -/
def successor (E : Ext K) (PQ : PriorityQueue (Node3D K) CompareNodes) (P : Problem K)
    (nPred : Node3D K) (x y t j : Int) (st : SearchState K PQ.Q) (i : Fin 3) :
    Option (SearchState K PQ.Q) :=
  let xSucc := x + dXat j i
  let ySucc := y + dYat j i
  let tSucc := tSuccOf t i
  match dTat tSucc with
  | none => none
  | some bSucc =>
    let idxSucc := bSucc * P.width * P.height + ySucc * P.width + xSucc
    -- ensure successor is on grid
    if 0 ≤ xSucc ∧ xSucc < P.width ∧ 0 ≤ ySucc ∧ ySucc < P.height ∧ 0 ≤ bSucc
        ∧ bSucc < P.depth then
      if ¬ P.inData (ySucc * P.width + xSucc) then none
      -- ensure successor is not blocked by obstacle
      else if P.oGrid.data (ySucc * P.width + xSucc) = 0 then
        if ¬ P.inTable idxSucc then none
        -- ensure successor is not on closed list
        else if st.closed idxSucc = false then
          let nSucc : Node3D K := Node3D.mk xSucc ySucc tSucc nPred.getG 0 none
          -- calculate new g value
          let newG := nPred.getG + nSucc.movementCost E nPred
          -- if successor not on open list or g value lower than before put it on open list
          if st.open_ idxSucc = false ∨ newG < st.cost idxSucc then
            let nSucc1 := (nSucc.setPred (some nPred)).updateG E nPred
            let nSucc2 := (nSucc1.updateH E P.goal P.oGrid st.costGoal).1
            some
              { open_ := Function.update st.open_ idxSucc true
                closed := st.closed
                cost := Function.update st.cost idxSucc nSucc1.getG
                costToGo := Function.update st.costToGo idxSucc nSucc2.getH
                costGoal := (nSucc1.updateH E P.goal P.oGrid st.costGoal).2
                O := PQ.push st.O nSucc2 }
          else some st
        else some st
      else some st
    else some st

/-- The `for` loop over the three successors (line 168). -/
def expand (E : Ext K) (PQ : PriorityQueue (Node3D K) CompareNodes) (P : Problem K)
    (nPred : Node3D K) (x y t j : Int) (st : SearchState K PQ.Q) :
    Option (SearchState K PQ.Q) :=
  successorIndices.foldlM (successor E PQ P nPred x y t j) st

/-- What the successor loop does with a candidate once its position `(xSucc, ySucc)` and its
heading `tSucc` are computed (lines 179-206): the checks and the push.  `none` stands for an
access outside an array. -/
def relaxCandidate (E : Ext K) (PQ : PriorityQueue (Node3D K) CompareNodes) (P : Problem K)
    (nPred : Node3D K) (st : SearchState K PQ.Q) (xSucc ySucc tSucc : Int) :
    Option (SearchState K PQ.Q) :=
  match dTat tSucc with
  | none => none
  | some bSucc =>
    let idxSucc := bSucc * P.width * P.height + ySucc * P.width + xSucc
    if 0 ≤ xSucc ∧ xSucc < P.width ∧ 0 ≤ ySucc ∧ ySucc < P.height ∧ 0 ≤ bSucc
        ∧ bSucc < P.depth then
      if ¬ P.inData (ySucc * P.width + xSucc) then none
      else if P.oGrid.data (ySucc * P.width + xSucc) = 0 then
        if ¬ P.inTable idxSucc then none
        else if st.closed idxSucc = false then
          let nSucc : Node3D K := Node3D.mk xSucc ySucc tSucc nPred.getG 0 none
          let newG := nPred.getG + nSucc.movementCost E nPred
          if st.open_ idxSucc = false ∨ newG < st.cost idxSucc then
            let nSucc1 := (nSucc.setPred (some nPred)).updateG E nPred
            let nSucc2 := (nSucc1.updateH E P.goal P.oGrid st.costGoal).1
            some
              { open_ := Function.update st.open_ idxSucc true
                closed := st.closed
                cost := Function.update st.cost idxSucc nSucc1.getG
                costToGo := Function.update st.costToGo idxSucc nSucc2.getH
                costGoal := (nSucc1.updateH E P.goal P.oGrid st.costGoal).2
                O := PQ.push st.O nSucc2 }
          else some st
        else some st
      else some st
    else some st

/-- One pass through the body of the `while` loop: either the loop goes on with new variables
or the function returns. -/
inductive Step (K Q : Type) where
  /-- The loop goes on. -/
  | next (st : SearchState K Q) : Step K Q
  /-- The function is left. -/
  | done (r : Outcome K) : Step K Q

/-- The body of the `while` loop (lines 136-213), with the test of the loop. -/
def loopBody (E : Ext K) (PQ : PriorityQueue (Node3D K) CompareNodes) (P : Problem K)
    (st : SearchState K PQ.Q) : Step K PQ.Q :=
  match PQ.pop st.O with
  | none => Step.done Outcome.null
  | some (nPred, O1) =>
    let x := nPred.getX
    let y := nPred.getY
    let t := toInt nPred.getT
    match dTat t with
    | none => Step.done Outcome.undefined
    | some b =>
      let idx := b * P.width * P.height + y * P.width + x
      if ¬ P.inTable idx then Step.done Outcome.undefined
      -- lazy deletion of rewired node
      else if st.closed idx = true then Step.next { st with O := O1 }
      else
        -- remove node from open list, add node to closed list
        let st1 : SearchState K PQ.Q :=
          { st with
            O := O1
            open_ := Function.update st.open_ idx false
            closed := Function.update st.closed idx true }
        -- goal test
        if nPred.eq P.goal = true then Step.done (Outcome.found nPred)
        else
          match expand E PQ P nPred x y t b st1 with
          | none => Step.done Outcome.undefined
          | some st2 => Step.next st2

/-- The `while` loop, at most `fuel` passes. -/
def iterate (E : Ext K) (PQ : PriorityQueue (Node3D K) CompareNodes) (P : Problem K) :
    Nat → SearchState K PQ.Q → Outcome K
  | 0, _ => Outcome.running
  | fuel + 1, st =>
    match loopBody E PQ P st with
    | Step.done r => r
    | Step.next st1 => iterate E PQ P fuel st1

/-- The variables of the loop when it is entered (lines 126-133); `none` when the write to
`cost` falls outside the array. -/
def initial (E : Ext K) (PQ : PriorityQueue (Node3D K) CompareNodes) (P : Problem K)
    (start : Node3D K) (tb : Tables K) : Option (SearchState K PQ.Q) :=
  -- update g value
  let start1 := start.updateG E start
  -- update h value
  let start2 := (start1.updateH E P.goal P.oGrid tb.costGoal).1
  match dTat (toInt start2.getT) with
  | none => none
  | some b =>
    let idx := b * P.width * P.height + start2.getY * P.width + start2.getX
    if ¬ P.inTable idx then none
    else
      some
        { open_ := tb.open_
          closed := tb.closed
          cost := Function.update tb.cost idx start2.getG
          costToGo := tb.costToGo
          costGoal := (start1.updateH E P.goal P.oGrid tb.costGoal).2
          O := PQ.push PQ.empty start2 }

/-- Passes of the loop that the lattice allows: every pass either closes one of the
`width * height * 8` lattice indices, pushing at most three nodes, or drops a node. -/
def fuelFor (P : Problem K) : Nat := 3 * (P.width * P.height * 8).toNat + 2

/-- The function `Node3D::aStar`. -/
def aStar (E : Ext K) (PQ : PriorityQueue (Node3D K) CompareNodes) (P : Problem K)
    (start : Node3D K) (tb : Tables K) : Outcome K :=
  match initial E PQ P start tb with
  | none => Outcome.undefined
  | some st => iterate E PQ P (fuelFor P) st

end Search

/-! ## Poses, motion-primitive steps and walks

The notions the statements below are phrased in.  A walk is a sequence of successor choices
`i ∈ {0, 1, 2}`, each leading to the candidate that the successor loop computes for it and
required to land on an in-bounds cell with occupancy `0`. -/

/-- A pose-state `(x, y, heading)`. -/
structure Pose where
  /-- Cell column. -/
  x : Int
  /-- Cell row. -/
  y : Int
  /-- Heading in degrees. -/
  t : ℚ
  deriving DecidableEq

/-- The pose of a node. -/
def Node3D.pose {K : Type} (n : Node3D K) : Pose := ⟨n.getX, n.getY, n.getT⟩

/-- The node built at a pose, with no cost and no predecessor. -/
def Pose.node (K : Type) [Zero K] (p : Pose) : Node3D K := Node3D.mk p.x p.y p.t 0 0 none

/-- The candidate successor `i` of a pose, as lines 165-177 compute it from `x`, `y`,
`t = (int) getT()` and `j = dT[t]`; `none` when `t` lies outside `dT`. -/
def Pose.successor (p : Pose) (i : Fin 3) : Option Pose :=
  (dTat (toInt p.t)).map fun j =>
    ⟨p.x + dXat j i, p.y + dYat j i, ((tSuccOf (toInt p.t) i : Int) : ℚ)⟩

/-- The lattice index of a pose (lines 144 and 179); `none` when the heading lies outside
`dT`. -/
def Problem.index {K : Type} (P : Problem K) (p : Pose) : Option Int :=
  (dTat (toInt p.t)).map fun b => b * P.width * P.height + p.y * P.width + p.x

/-- The cell of a pose is inside the grid. -/
def Problem.inBounds {K : Type} (P : Problem K) (p : Pose) : Prop :=
  0 ≤ p.x ∧ p.x < P.width ∧ 0 ≤ p.y ∧ p.y < P.height

instance {K : Type} (P : Problem K) (p : Pose) : Decidable (P.inBounds p) :=
  inferInstanceAs (Decidable (0 ≤ p.x ∧ p.x < P.width ∧ 0 ≤ p.y ∧ p.y < P.height))

/-- The cell of a pose is inside the grid and its occupancy value is `0`. -/
def Problem.free {K : Type} (P : Problem K) (p : Pose) : Prop :=
  P.inBounds p ∧ P.oGrid.data (p.y * P.width + p.x) = 0

instance {K : Type} (P : Problem K) (p : Pose) : Decidable (P.free p) :=
  inferInstanceAs (Decidable (P.inBounds p ∧ P.oGrid.data (p.y * P.width + p.x) = 0))

/-- Follow a sequence of successor choices through free cells; `none` when a step leaves the
grid, meets an obstacle or reads outside `dT`. -/
def Problem.walk {K : Type} (P : Problem K) : Pose → List (Fin 3) → Option Pose
  | p, [] => some p
  | p, i :: l =>
    match p.successor i with
    | none => none
    | some q => if P.free q then P.walk q l else none

/-- The movement cost (`Node3D::movementCost`) of the step from pose `p` to pose `q`. -/
def stepCost {K : Type} [LinearOrderedField K] (E : Ext K) (p q : Pose) : K :=
  (q.node K).movementCost E (p.node K)

/-- The sum of the movement costs along a sequence of successor choices. -/
def Problem.walkCost {K : Type} [LinearOrderedField K] (E : Ext K) (P : Problem K) :
    Pose → List (Fin 3) → K
  | _, [] => 0
  | p, i :: l =>
    match p.successor i with
    | none => 0
    | some q => stepCost E p q + P.walkCost E q l

/-- The node `m` hangs on the start node `s`: walking the predecessor references from `m`
reaches `s`, every step of the way is a motion-primitive step of the predecessor onto a free
cell, and `g` grows by the movement cost of the step. -/
inductive Problem.Linked {K : Type} [LinearOrderedField K] (E : Ext K) (P : Problem K)
    (s : Node3D K) : Node3D K → Prop where
  | start : Problem.Linked E P s s
  | step (n m : Node3D K) (i : Fin 3) :
      Problem.Linked E P s n → m.getPred = some n → n.pose.successor i = some m.pose →
      P.free m.pose → m.getG = n.getG + m.movementCost E n → Problem.Linked E P s m

/-- The routine `sqrt` is the exact square root: non-negative, with square the argument. -/
def Ext.IsSqrt {K : Type} [LinearOrderedField K] (E : Ext K) : Prop :=
  ∀ n : Int, 0 ≤ n → 0 ≤ E.sqrt n ∧ E.sqrt n * E.sqrt n = (n : K)

/-- The start node as `aStar` pushes it: after `updateG` against itself and `updateH`. -/
def startNode {K : Type} [LinearOrderedField K] (E : Ext K) (P : Problem K)
    (start : Node3D K) (tb : Tables K) : Node3D K :=
  ((start.updateG E start).updateH E P.goal P.oGrid tb.costGoal).1

/-- Two poses are filed under the same lattice cell: same cell, same `(int)` heading. -/
def Pose.sameCell (p q : Pose) : Prop := p.x = q.x ∧ p.y = q.y ∧ toInt p.t = toInt q.t

/-- A pose that the run started at heading `(int) t = k0` can file: inside the grid, with
`(int)` heading inside `dT` and congruent to `k0` modulo 45. -/
def Problem.Filed {K : Type} (P : Problem K) (k0 : Int) (p : Pose) : Prop :=
  P.inBounds p ∧ 0 ≤ toInt p.t ∧ toInt p.t < 360 ∧ toInt p.t % 45 = k0 % 45

/-- A filed pose whose heading is a whole number of degrees. -/
def Problem.OnLattice {K : Type} (P : Problem K) (k0 : Int) (p : Pose) : Prop :=
  P.Filed k0 p ∧ p.t = ((toInt p.t : Int) : ℚ)

/-- The node that the successor loop pushes for the candidate pose `q` of `nPred`
(lines 189-200): `g` is the predecessor's `g` plus the movement cost, `h` the cost to go. -/
def child {K : Type} [LinearOrderedField K] (E : Ext K) (P : Problem K) (nPred : Node3D K)
    (q : Pose) (costGoal : Int → K) : Node3D K :=
  Node3D.mk q.x q.y q.t (nPred.getG + stepCost E nPred.pose q)
    ((q.node K).costToGo E P.goal P.oGrid costGoal).1 (some nPred)

/-- The loop variables after the node `m` with lattice index `idx` has been put on the open
list (lines 199-204). -/
def SearchState.accept {K : Type} [LinearOrderedField K]
    (PQ : PriorityQueue (Node3D K) CompareNodes) (st : SearchState K PQ.Q) (idx : Int)
    (m : Node3D K) : SearchState K PQ.Q :=
  { open_ := Function.update st.open_ idx true
    closed := st.closed
    cost := Function.update st.cost idx m.getG
    costToGo := Function.update st.costToGo idx m.getH
    costGoal := st.costGoal
    O := PQ.push st.O m }

/-! ## Invariants of the loop

The loop is followed with a record `CL` of the nodes that were taken from the open list and
closed, most recent first.  `k0` is the `(int)` heading of the start node `s`, and `cg` the
`costGoal` array of the call. -/

/-- What holds of every node pushed by the successor loop: it is filed on the lattice with a
whole-number heading, it hangs on the start node, and its `h` is its cost to go. -/
structure Problem.NodeOK {K : Type} [LinearOrderedField K] (E : Ext K) (P : Problem K)
    (k0 : Int) (s : Node3D K) (cg : Int → K) (m : Node3D K) : Prop where
  /-- The pose is on the lattice. -/
  lattice : P.OnLattice k0 m.pose
  /-- The node hangs on the start node. -/
  linked : P.Linked E s m
  /-- The estimate is the cost to go of the cell. -/
  h_eq : m.getH = ((m.pose.node K).costToGo E P.goal P.oGrid cg).1

/-- The invariant of the `while` loop, between two passes. -/
structure Problem.Inv {K : Type} [LinearOrderedField K] (E : Ext K)
    (PQ : PriorityQueue (Node3D K) CompareNodes) (P : Problem K) (k0 : Int) (s : Node3D K)
    (cg : Int → K) (st : SearchState K PQ.Q) (CL : List (Node3D K)) : Prop where
  /-- Every node on the open list was pushed by the successor loop. -/
  queue : ∀ m ∈ PQ.toList st.O, P.NodeOK E k0 s cg m
  /-- The closed lattice indices are those of the closed nodes. -/
  closed_iff : ∀ idx, st.closed idx = true ↔ ∃ n ∈ CL, P.index n.pose = some idx
  /-- A closed node is the start node or was pushed, and it failed the goal test. -/
  closedNodes : ∀ n ∈ CL, (n = s ∨ P.NodeOK E k0 s cg n) ∧ n.eq P.goal = false
  /-- The start node is closed. -/
  start_mem : s ∈ CL
  /-- An index that is open and not closed has a node on the open list, at most as costly as
  the recorded cost. -/
  open_queue : ∀ idx, st.open_ idx = true → st.closed idx = false →
    ∃ m ∈ PQ.toList st.O, P.index m.pose = some idx ∧ m.getG ≤ st.cost idx
  /-- The array `costGoal` is the one of the call. -/
  costGoal_eq : st.costGoal = cg

/-- Successor `i` of the closed node `n` is taken care of: if it lands on a free cell, its
lattice index is closed or the open list holds a node for it that is no more costly than the
step from `n`. -/
def Problem.Covered {K : Type} [LinearOrderedField K] (E : Ext K)
    (PQ : PriorityQueue (Node3D K) CompareNodes) (P : Problem K) (st : SearchState K PQ.Q)
    (n : Node3D K) (i : Fin 3) : Prop :=
  ∀ q, n.pose.successor i = some q → P.free q →
    (∃ idx, P.index q = some idx ∧ st.closed idx = true)
      ∨ (∃ m ∈ PQ.toList st.O, m.pose = q ∧ m.getG ≤ n.getG + stepCost E n.pose q)

/-- The node `n` is settled: no walk from the start to its lattice cell is cheaper than
its `g`. -/
def Problem.Settled {K : Type} [LinearOrderedField K] (E : Ext K) (P : Problem K)
    (s n : Node3D K) : Prop :=
  ∀ moves q, P.walk s.pose moves = some q → q.sameCell n.pose →
    n.getG ≤ s.getG + P.walkCost E s.pose moves

/-- The number of lattice indices inside the tables that are not closed. -/
def SearchState.unclosed {K Q : Type} (P : Problem K) (st : SearchState K Q) : Nat :=
  (List.range (P.width * P.height * 8).toNat).countP fun (k : Nat) => !st.closed (k : Int)

/-- The passes the loop can still make: three per index that is not closed, one per node on
the open list. -/
def SearchState.measure {K : Type} [LinearOrderedField K]
    (PQ : PriorityQueue (Node3D K) CompareNodes) (P : Problem K) (st : SearchState K PQ.Q) :
    Nat :=
  3 * st.unclosed P + (PQ.toList st.O).length

/-- The loop variables after a node whose lattice index `idx` was not closed has been taken
from the open list (lines 153-156). -/
def SearchState.close {K : Type} [LinearOrderedField K]
    (PQ : PriorityQueue (Node3D K) CompareNodes) (st : SearchState K PQ.Q) (O1 : PQ.Q)
    (idx : Int) : SearchState K PQ.Q :=
  { st with
    O := O1
    open_ := Function.update st.open_ idx false
    closed := Function.update st.closed idx true }

/-- The loop variables after a node whose lattice index was closed has been dropped
(lines 147-150). -/
def SearchState.drop {K : Type} [LinearOrderedField K]
    (PQ : PriorityQueue (Node3D K) CompareNodes) (st : SearchState K PQ.Q) (O1 : PQ.Q) :
    SearchState K PQ.Q :=
  { st with O := O1 }

/-- The Euclidean distance from a pose to the goal, the value `euclideanCost` of line 65. -/
def euclideanCost {K : Type} (E : Ext K) (goal : Node3D K) (p : Pose) : K :=
  E.sqrt ((p.x - goal.getX) * (p.x - goal.getX) + (p.y - goal.getY) * (p.y - goal.getY))

/-- The full invariant of the loop: for some record of the closed nodes, the invariant
holds, all successors of closed nodes are covered and, when `sqrt` is exact and the
`costGoal` array is zero, all closed nodes are settled. -/
def Problem.Good {K : Type} [LinearOrderedField K] (E : Ext K)
    (PQ : PriorityQueue (Node3D K) CompareNodes) (P : Problem K) (k0 : Int) (s : Node3D K)
    (cg : Int → K) (st : SearchState K PQ.Q) : Prop :=
  ∃ CL, P.Inv E PQ k0 s cg st CL ∧ (∀ n ∈ CL, ∀ i, P.Covered E PQ st n i)
    ∧ (E.IsSqrt → (∀ i, cg i = 0) → ∀ n ∈ CL, P.Settled E s n)

/-- What the loop establishes about the outcome of a run.  A returned node is the start node
or was pushed for another lattice index, it passes the goal test and, when `sqrt` is exact
and the `costGoal` array is zero, is at
most as costly as every walk to a pose that passes the goal test, unless that pose is filed
under the lattice cell of a node that was closed after failing the goal test.  When the null
pointer is returned, every pose reached by a walk is filed under the lattice cell of a node
that failed the goal test. -/
def Problem.Post {K : Type} [LinearOrderedField K] (E : Ext K) (P : Problem K) (k0 : Int)
    (s : Node3D K) (cg : Int → K) : Outcome K → Prop
  | Outcome.found n =>
    (n = s ∨ (P.NodeOK E k0 s cg n ∧ P.index n.pose ≠ P.index s.pose))
      ∧ n.eq P.goal = true
      ∧ (E.IsSqrt → (∀ i, cg i = 0) → ∀ moves q, P.walk s.pose moves = some q →
          (q.node K).eq P.goal = true →
          (∃ n1, (n1 = s ∨ P.NodeOK E k0 s cg n1) ∧ n1.eq P.goal = false
              ∧ n1.pose.sameCell q)
            ∨ n.getG ≤ s.getG + P.walkCost E s.pose moves)
  | Outcome.null =>
    ∀ moves q, P.walk s.pose moves = some q →
      ∃ n1, (n1 = s ∨ P.NodeOK E k0 s cg n1) ∧ n1.eq P.goal = false ∧ n1.pose.sameCell q
  | Outcome.undefined => False
  | Outcome.running => False

/-- Freshly allocated arrays: `open` and `closed` all false and `costGoal` all zero; `cost` and
`costToGo` hold whatever they are given. -/
def freshTables {K : Type} [Zero K] (cost costToGo : Int → K) : Tables K :=
  { open_ := fun _ => false
    closed := fun _ => false
    cost := cost
    costToGo := costToGo
    costGoal := fun _ => 0 }

/-- The obstacle-free `5 x 5` grid of the spec's example, with its goal node. -/
def openGrid {K : Type} (goal : Node3D K) (length : Int) : Problem K :=
  { goal := goal
    oGrid := ⟨5, fun _ => 0⟩
    width := 5
    height := 5
    depth := 8
    length := length }

/-- The obstacle-free `4 x 5` grid. -/
def lapGrid {K : Type} (goal : Node3D K) (length : Int) : Problem K :=
  { goal := goal
    oGrid := ⟨4, fun _ => 0⟩
    width := 4
    height := 5
    depth := 8
    length := length }

/-- For every lattice index of `lapGrid`, a lower bound on five times the cost of a walk from
`(3, 1, heading 45)` to that index, capped at 49 (a straight step counts 5, a diagonal 7). -/
def lapBound : List Int :=
  [49, 49, 49, 49, 49, 49, 49, 0, 49, 49, 49, 49, 49, 49, 49, 49, 49, 49, 49, 49,
   49, 49, 49, 49, 49, 49, 49, 49, 49, 49, 49, 5, 49, 49, 49, 10, 49, 49, 17, 15,
   49, 49, 49, 49, 49, 49, 49, 49, 49, 49, 49, 49, 49, 49, 12, 49, 24, 19, 17, 49,
   49, 49, 49, 49, 49, 49, 49, 49, 49, 49, 49, 49, 22, 17, 49, 49, 24, 22, 49, 49,
   49, 49, 49, 49, 49, 49, 49, 49, 24, 49, 49, 49, 29, 49, 49, 49, 49, 49, 49, 49,
   34, 46, 49, 49, 29, 49, 49, 49, 34, 49, 49, 49, 49, 49, 49, 49, 49, 49, 49, 49,
   49, 36, 48, 49, 49, 41, 49, 49, 49, 49, 49, 49, 49, 49, 49, 49, 49, 49, 49, 49,
   49, 49, 41, 46, 49, 49, 46, 49, 49, 49, 49, 49, 49, 49, 49, 49, 49, 49, 49, 49]

/-- The entry of `lapBound` for the cell `(x, y)` and the integer heading `t`. -/
def lapPhi (x y t : Int) : Int :=
  lapBound.getD ((if t / 45 - 1 < 0 then 7 else t / 45 - 1) * 20 + y * 4 + x).toNat 49

/-- The entries of `lapBound` respect successor `i` of the lattice pose `(x, y, 45 k)`: if
the successor is inside the grid, its entry exceeds the entry of the pose by at most the
count of the step. -/
def lapStepOK (x y k : Nat) (i : Fin 3) : Bool :=
  let t : Int := 45 * (k : Int)
  let j : Int := if t / 45 - 1 < 0 then 7 else t / 45 - 1
  let xs : Int := (x : Int) + dXat j i
  let ys : Int := (y : Int) + dYat j i
  if 0 ≤ xs ∧ xs < 4 ∧ 0 ≤ ys ∧ ys < 5 then
    decide (lapPhi xs ys (tSuccOf t i)
      ≤ lapPhi x y t + (if dXat j i * dYat j i = 0 then 5 else 7))
  else true

/-- The `3 x 3` grid whose only free cell is the centre `(1, 1)`. -/
def walledGrid {K : Type} (goal : Node3D K) (length : Int) : Problem K :=
  { goal := goal
    oGrid := ⟨3, fun i => if i = 4 then 0 else 1⟩
    width := 3
    height := 3
    depth := 8
    length := length }

/-- The directions of the spec, counter-clockwise from east. -/
def directionVectors : List (Int × Int) :=
  [(1, 0), (1, 1), (0, 1), (-1, 1), (-1, 0), (-1, -1), (0, -1), (1, -1)]

/-! ## The run, pass by pass -/

/-- The calls of the 2D search `Node2D::aStar` that one call of `costToGo` makes
(lines 58-62), each with its arguments `(x, y, goal.x, goal.y)`: one call when the flag `twoD`
is set and the entry of `costGoal` for the cell is `0`, none otherwise. -/
def Node3D.costToGoCalls {K : Type} [LinearOrderedField K] (twoD : Bool) (n goal : Node3D K)
    (oGrid : OccupancyGrid) (costGoal : Int → K) : List (Int × Int × Int × Int) :=
  if twoD = true ∧ costGoal (n.getY * oGrid.infoWidth + n.getX) = 0 then
    [(n.getX, n.getY, goal.getX, goal.getY)]
  else []

/-- The lattice index `bin * width * height + y * width + x` of lines 144 and 179. -/
def latticeIndex (width height bin x y : Int) : Int := bin * width * height + y * width + x

/-- Follow a sequence of successor choices, whatever the grid holds; `none` when a step reads
outside `dT`. -/
def Pose.follow : Pose → List (Fin 3) → Option Pose
  | p, [] => some p
  | p, i :: l =>
    match p.successor i with
    | none => none
    | some q => Pose.follow q l

/-- The sum of the movement costs along a sequence of successor choices, whatever the grid
holds. -/
def Pose.followCost {K : Type} [LinearOrderedField K] (E : Ext K) : Pose → List (Fin 3) → K
  | _, [] => 0
  | p, i :: l =>
    match p.successor i with
    | none => 0
    | some q => stepCost E p q + Pose.followCost E q l

/-- One turn of the successor loop for the popped node `n` (lines 168-210): the loop variables
are left as they are, or the child for a candidate pose on a free cell whose lattice index is
not closed is put on the open list. -/
def Problem.Relax {K : Type} [LinearOrderedField K] (E : Ext K)
    (PQ : PriorityQueue (Node3D K) CompareNodes) (P : Problem K) (n : Node3D K)
    (st st1 : SearchState K PQ.Q) : Prop :=
  st1 = st ∨ ∃ (i : Fin 3) (q : Pose) (idx : Int),
    n.pose.successor i = some q ∧ P.free q ∧ P.index q = some idx ∧ st.closed idx = false
      ∧ (st.open_ idx = false ∨ n.getG + stepCost E n.pose q < st.cost idx)
      ∧ st1 = st.accept PQ idx (child E P n q st.costGoal)

section Run

variable {K : Type} [LinearOrderedField K]

/-- The loop variables at the head of the `while` loop, pass after pass, for at most `fuel`
passes: the list ends with the variables of the pass that leaves the function. -/
def states (E : Ext K) (PQ : PriorityQueue (Node3D K) CompareNodes) (P : Problem K) :
    Nat → SearchState K PQ.Q → List (SearchState K PQ.Q)
  | 0, st => [st]
  | fuel + 1, st =>
    match loopBody E PQ P st with
    | Step.done _ => [st]
    | Step.next st1 => st :: states E PQ P fuel st1

/-- The lattice index that the pass from `st` closes (lines 151-156) before it tests the popped
node for the goal and generates its successors; `none` when the pass does not get there. -/
def closes (PQ : PriorityQueue (Node3D K) CompareNodes) (P : Problem K)
    (st : SearchState K PQ.Q) : Option Int :=
  match PQ.pop st.O with
  | none => none
  | some (nPred, _) =>
    match dTat (toInt nPred.getT) with
    | none => none
    | some b =>
      let idx := b * P.width * P.height + nPred.getY * P.width + nPred.getX
      if P.inTable idx ∧ st.closed idx = false then some idx else none

/-- The loop variables at the head of the loop during the call of `aStar`. -/
def aStarStates (E : Ext K) (PQ : PriorityQueue (Node3D K) CompareNodes) (P : Problem K)
    (start : Node3D K) (tb : Tables K) : List (SearchState K PQ.Q) :=
  match initial E PQ P start tb with
  | none => []
  | some st => states E PQ P (fuelFor P) st

end Run

/-- The queue `PQ` together with a record of every element that was pushed, most recent
first.  The record has no effect on what the queue does. -/
def PriorityQueue.logged {α : Type} {comp : α → α → Bool} (PQ : PriorityQueue α comp) :
    PriorityQueue α comp where
  Q := PQ.Q × List α
  empty := (PQ.empty, [])
  push q a := (PQ.push q.1 a, a :: q.2)
  pop q := (PQ.pop q.1).map fun p => (p.1, (p.2, q.2))
  toList q := PQ.toList q.1
  toList_empty := PQ.toList_empty
  toList_push q a := PQ.toList_push q.1 a
  pop_eq_none q := by
    rw [Option.map_eq_none']
    exact PQ.pop_eq_none q.1
  pop_perm q a r h := by
    cases hp : PQ.pop q.1 with
    | none => simp [hp] at h
    | some p =>
      simp only [hp, Option.map_some', Option.some.injEq, Prod.mk.injEq] at h
      obtain ⟨rfl, rfl⟩ := h
      exact PQ.pop_perm q.1 p.1 p.2 hp
  pop_top q a r h := by
    cases hp : PQ.pop q.1 with
    | none => simp [hp] at h
    | some p =>
      simp only [hp, Option.map_some', Option.some.injEq, Prod.mk.injEq] at h
      obtain ⟨rfl, rfl⟩ := h
      exact PQ.pop_top q.1 p.1 p.2 hp

/-- The elements pushed so far on a logged queue. -/
def PriorityQueue.pushed {α : Type} {comp : α → α → Bool} (PQ : PriorityQueue α comp)
    (q : PQ.logged.Q) : List α := q.2

/-- The loop variables of a run on the logged queue, without the record. -/
def SearchState.unlog {K : Type} [LinearOrderedField K]
    (PQ : PriorityQueue (Node3D K) CompareNodes) (st : SearchState K PQ.logged.Q) :
    SearchState K PQ.Q :=
  { open_ := st.open_
    closed := st.closed
    cost := st.cost
    costToGo := st.costToGo
    costGoal := st.costGoal
    O := st.O.1 }

/-- The invariant behind the `cost` table, for loop variables on a logged queue: an open index
is not closed; every node pushed so far whose lattice index is not closed is still on the
open list, its index is open and `cost` holds at most its `g`; and for every open index a
node with that index and `g` equal to `cost` was pushed. -/
structure Problem.Recorded {K : Type} [LinearOrderedField K]
    (PQ : PriorityQueue (Node3D K) CompareNodes) (P : Problem K)
    (st : SearchState K PQ.logged.Q) : Prop where
  /-- An open index is not closed. -/
  open_unclosed : ∀ idx, st.open_ idx = true → st.closed idx = false
  /-- A pushed node with an index that is not closed is on the open list; its index is open
  and `cost` is at most its `g`. -/
  pushed_open : ∀ m ∈ PQ.pushed st.O, ∀ idx, P.index m.pose = some idx →
    st.closed idx = false →
      st.open_ idx = true ∧ st.cost idx ≤ m.getG ∧ m ∈ PQ.logged.toList st.O
  /-- For an open index, a node with that index and `g` equal to `cost` was pushed. -/
  open_pushed : ∀ idx, st.open_ idx = true →
    ∃ m ∈ PQ.pushed st.O, P.index m.pose = some idx ∧ m.getG = st.cost idx

end PathPlanner

namespace PathPlanner

/-! ## Basic facts about nodes -/

section NodeFacts

variable {K : Type}

@[simp] theorem getX_mk (x y : Int) (t : ℚ) (g h : K) (p : Option (Node3D K)) :
    (Node3D.mk x y t g h p).getX = x := rfl

@[simp] theorem getY_mk (x y : Int) (t : ℚ) (g h : K) (p : Option (Node3D K)) :
    (Node3D.mk x y t g h p).getY = y := rfl

@[simp] theorem getT_mk (x y : Int) (t : ℚ) (g h : K) (p : Option (Node3D K)) :
    (Node3D.mk x y t g h p).getT = t := rfl

@[simp] theorem getG_mk (x y : Int) (t : ℚ) (g h : K) (p : Option (Node3D K)) :
    (Node3D.mk x y t g h p).getG = g := rfl

@[simp] theorem getH_mk (x y : Int) (t : ℚ) (g h : K) (p : Option (Node3D K)) :
    (Node3D.mk x y t g h p).getH = h := rfl

@[simp] theorem getPred_mk (x y : Int) (t : ℚ) (g h : K) (p : Option (Node3D K)) :
    (Node3D.mk x y t g h p).getPred = p := rfl

@[simp] theorem pose_mk (x y : Int) (t : ℚ) (g h : K) (p : Option (Node3D K)) :
    (Node3D.mk x y t g h p).pose = ⟨x, y, t⟩ := rfl

@[simp] theorem pose_x (n : Node3D K) : n.pose.x = n.getX := rfl

@[simp] theorem pose_y (n : Node3D K) : n.pose.y = n.getY := rfl

@[simp] theorem pose_t (n : Node3D K) : n.pose.t = n.getT := rfl

@[simp] theorem withG_mk (x y : Int) (t : ℚ) (g h : K) (p : Option (Node3D K)) (g1 : K) :
    (Node3D.mk x y t g h p).withG g1 = Node3D.mk x y t g1 h p := rfl

@[simp] theorem withH_mk (x y : Int) (t : ℚ) (g h : K) (p : Option (Node3D K)) (h1 : K) :
    (Node3D.mk x y t g h p).withH h1 = Node3D.mk x y t g h1 p := rfl

@[simp] theorem setPred_mk (x y : Int) (t : ℚ) (g h : K) (p q : Option (Node3D K)) :
    (Node3D.mk x y t g h p).setPred q = Node3D.mk x y t g h q := rfl

theorem node_eta (n : Node3D K) :
    n = Node3D.mk n.getX n.getY n.getT n.getG n.getH n.getPred := by
  cases n; rfl

@[simp] theorem pose_withG (n : Node3D K) (g : K) : (n.withG g).pose = n.pose := by
  cases n; rfl

@[simp] theorem pose_withH (n : Node3D K) (h : K) : (n.withH h).pose = n.pose := by
  cases n; rfl

@[simp] theorem getG_withG (n : Node3D K) (g : K) : (n.withG g).getG = g := by
  cases n; rfl

@[simp] theorem getG_withH (n : Node3D K) (h : K) : (n.withH h).getG = n.getG := by
  cases n; rfl

@[simp] theorem getH_withH (n : Node3D K) (h : K) : (n.withH h).getH = h := by
  cases n; rfl

@[simp] theorem getPred_withG (n : Node3D K) (g : K) : (n.withG g).getPred = n.getPred := by
  cases n; rfl

@[simp] theorem getPred_withH (n : Node3D K) (h : K) : (n.withH h).getPred = n.getPred := by
  cases n; rfl

@[simp] theorem getT_withG (n : Node3D K) (g : K) : (n.withG g).getT = n.getT := by
  cases n; rfl

@[simp] theorem getT_withH (n : Node3D K) (h : K) : (n.withH h).getT = n.getT := by
  cases n; rfl

@[simp] theorem getX_withG (n : Node3D K) (g : K) : (n.withG g).getX = n.getX := by
  cases n; rfl

@[simp] theorem getX_withH (n : Node3D K) (h : K) : (n.withH h).getX = n.getX := by
  cases n; rfl

@[simp] theorem getY_withG (n : Node3D K) (g : K) : (n.withG g).getY = n.getY := by
  cases n; rfl

@[simp] theorem getY_withH (n : Node3D K) (h : K) : (n.withH h).getY = n.getY := by
  cases n; rfl

/-- The nearest integer is the floor or the next integer. -/
theorem roundEven_bounds (x : ℚ) : ⌊x⌋ ≤ roundEven x ∧ roundEven x ≤ ⌊x⌋ + 1 := by
  unfold roundEven
  split_ifs <;> omega

/-- Rounding stays at or below an even integer exactly up to the half above it. -/
theorem roundEven_le_iff (x : ℚ) (n : Int) (hn : n % 2 = 0) :
    roundEven x ≤ n ↔ x ≤ (n : ℚ) + 1 / 2 := by
  have h1 := Int.floor_le x
  have h2 := Int.lt_floor_add_one x
  unfold roundEven
  constructor
  · intro h
    split_ifs at h with c1 c2 c3
    · have : ((⌊x⌋ : Int) : ℚ) ≤ n := by exact_mod_cast h
      linarith
    · have : ((⌊x⌋ : Int) : ℚ) + 1 ≤ n := by exact_mod_cast h
      linarith
    · have : ((⌊x⌋ : Int) : ℚ) ≤ n := by exact_mod_cast h
      have e : x - ⌊x⌋ = 1 / 2 := le_antisymm (not_lt.1 c2) (not_lt.1 c1)
      linarith
    · have : ((⌊x⌋ : Int) : ℚ) + 1 ≤ n := by exact_mod_cast h
      linarith
  · intro h
    split_ifs with c1 c2 c3
    · have : ⌊x⌋ < n + 1 := by
        rw [Int.floor_lt]; push_cast; linarith
      omega
    · have : ((⌊x⌋ : Int) : ℚ) < n := by linarith
      have h3 : ⌊x⌋ < n := by exact_mod_cast this
      omega
    · have : ⌊x⌋ < n + 1 := by
        rw [Int.floor_lt]; push_cast; linarith
      omega
    · have e : x - ⌊x⌋ = 1 / 2 := le_antisymm (not_lt.1 c2) (not_lt.1 c1)
      have : ((⌊x⌋ : Int) : ℚ) ≤ n := by linarith
      have h3 : ⌊x⌋ ≤ n := by exact_mod_cast this
      omega

/-- The spacing of the `float` values is positive. -/
theorem floatUlp_pos (q : ℚ) : 0 < floatUlp q := zpow_pos (by norm_num) _

/-- The `float` nearest to a magnitude is at most 22.5 exactly when the magnitude is at most
half a unit in the last place above 22.5. -/
theorem roundFloatAbs_le_iff (q : ℚ) (hq : 0 ≤ q) :
    (0 ≤ roundFloatAbs q) ∧ (roundFloatAbs q ≤ 45 / 2 ↔ q ≤ 45 / 2 + 1 / 2 ^ 20) := by
  have hu := floatUlp_pos q
  have hfl0 : 0 ≤ ⌊q / floatUlp q⌋ := Int.floor_nonneg.2 (div_nonneg hq (le_of_lt hu))
  have hr0 : (0 : ℚ) ≤ (roundEven (q / floatUlp q) : ℚ) := by
    have := (roundEven_bounds (q / floatUlp q)).1
    exact_mod_cast le_trans hfl0 this
  refine ⟨mul_nonneg hr0 (le_of_lt hu), ?_⟩
  rcases eq_or_lt_of_le hq with h0 | hpos
  · subst h0
    have : roundFloatAbs 0 = 0 := by simp [roundFloatAbs, roundEven]
    rw [this]
    norm_num
  by_cases h16 : q < 16
  · -- small magnitudes round to at most 16
    have hlog : Int.log 2 q < 4 := by
      rw [← Int.lt_zpow_iff_log_lt (by norm_num) hpos]
      norm_num
      exact h16
    have he : max (Int.log 2 q) (-126) ≤ 3 := by omega
    have hlt : q < (2 : ℚ) ^ (max (Int.log 2 q) (-126) + 1) := by
      have h1 := @Int.lt_zpow_succ_log_self ℚ _ _ 2 (by norm_num) q
      have h2 : ((2 : ℕ) : ℚ) ^ (Int.log 2 q + 1)
          ≤ (2 : ℚ) ^ (max (Int.log 2 q) (-126) + 1) := by
        rw [Nat.cast_ofNat]
        exact zpow_le_zpow_right₀ (by norm_num : (1 : ℚ) ≤ 2)
          (show Int.log 2 q + 1 ≤ max (Int.log 2 q) (-126) + 1 by omega)
      exact lt_of_lt_of_le h1 h2
    have hsplit : (2 : ℚ) ^ (max (Int.log 2 q) (-126) + 1)
        = 2 ^ (24 : ℤ) * floatUlp q := by
      unfold floatUlp
      rw [← zpow_add₀ (by norm_num : (2 : ℚ) ≠ 0)]
      congr 1
      ring
    have hdiv : q / floatUlp q < 2 ^ (24 : ℤ) := by
      rw [div_lt_iff₀ hu, ← hsplit]
      exact hlt
    have hfl : ⌊q / floatUlp q⌋ < 2 ^ 24 := by
      rw [Int.floor_lt]
      have : ((2 ^ 24 : Int) : ℚ) = 2 ^ (24 : ℤ) := by norm_num
      rw [this]
      exact hdiv
    have hre : roundEven (q / floatUlp q) ≤ 2 ^ 24 := by
      have := (roundEven_bounds (q / floatUlp q)).2
      omega
    have hR : roundFloatAbs q ≤ 16 := by
      unfold roundFloatAbs
      have h1 : (roundEven (q / floatUlp q) : ℚ) ≤ 2 ^ (24 : ℤ) := by
        have : ((2 ^ 24 : Int) : ℚ) = 2 ^ (24 : ℤ) := by norm_num
        rw [← this]
        exact_mod_cast hre
      have h2 : (roundEven (q / floatUlp q) : ℚ) * floatUlp q ≤ 2 ^ (24 : ℤ) * floatUlp q :=
        mul_le_mul_of_nonneg_right h1 (le_of_lt hu)
      rw [← hsplit] at h2
      have h3 : (2 : ℚ) ^ (max (Int.log 2 q) (-126) + 1) ≤ 2 ^ (4 : ℤ) :=
        zpow_le_zpow_right₀ (by norm_num) (by omega)
      have h4 : (16 : ℚ) = (2 : ℚ) ^ (4 : ℤ) := by norm_num
      rw [h4]
      exact le_trans h2 h3
    constructor
    · intro _; linarith
    · intro _; linarith
  · have h16' : 16 ≤ q := not_lt.1 h16
    by_cases h32 : q < 32
    · have hlog : Int.log 2 q = 4 := by
        have h1 : (4 : ℤ) ≤ Int.log 2 q := by
          rw [← Int.zpow_le_iff_le_log (by norm_num) hpos]
          norm_num
          exact h16'
        have h2 : Int.log 2 q < 5 := by
          rw [← Int.lt_zpow_iff_log_lt (by norm_num) hpos]
          norm_num
          exact h32
        omega
      have hulp : floatUlp q = 1 / 2 ^ 19 := by
        unfold floatUlp
        rw [hlog]
        norm_num
      unfold roundFloatAbs
      rw [hulp]
      have key := roundEven_le_iff (q / (1 / 2 ^ 19)) 11796480 (by decide)
      constructor
      · intro h
        have h1 : (roundEven (q / (1 / 2 ^ 19)) : ℚ) ≤ 11796480 := by
          have : (roundEven (q / (1 / 2 ^ 19)) : ℚ) * (1 / 2 ^ 19) ≤ 45 / 2 := h
          rw [mul_one_div, div_le_iff₀ (by norm_num)] at this
          norm_num at this ⊢
          exact this
        have h2 : roundEven (q / (1 / 2 ^ 19)) ≤ 11796480 := by exact_mod_cast h1
        have h3 := key.1 h2
        rw [div_le_iff₀ (by norm_num)] at h3
        norm_num at h3 ⊢
        linarith
      · intro h
        have h3 : q / (1 / 2 ^ 19) ≤ ((11796480 : Int) : ℚ) + 1 / 2 := by
          rw [div_le_iff₀ (by norm_num)]
          norm_num
          linarith
        have h2 := key.2 h3
        have h1 : (roundEven (q / (1 / 2 ^ 19)) : ℚ) ≤ 11796480 := by exact_mod_cast h2
        rw [mul_one_div, div_le_iff₀ (by norm_num)]
        norm_num
        linarith
    · have h32' : 32 ≤ q := not_lt.1 h32
      have hlog : (5 : ℤ) ≤ Int.log 2 q := by
        rw [← Int.zpow_le_iff_le_log (by norm_num) hpos]
        norm_num
        exact h32'
      have he : max (Int.log 2 q) (-126) = Int.log 2 q := by omega
      have hle := @Int.zpow_log_le_self ℚ _ _ 2 q (by norm_num) hpos
      have hsplit : ((2 : ℕ) : ℚ) ^ (Int.log 2 q) = 2 ^ (23 : ℤ) * floatUlp q := by
        unfold floatUlp
        rw [he, ← zpow_add₀ (by norm_num : (2 : ℚ) ≠ 0)]
        norm_num
      have hdiv : (2 : ℚ) ^ (23 : ℤ) ≤ q / floatUlp q := by
        rw [le_div_iff₀ hu, ← hsplit]
        exact hle
      have hfl : (2 : Int) ^ 23 ≤ ⌊q / floatUlp q⌋ := by
        rw [Int.le_floor]
        have : ((2 ^ 23 : Int) : ℚ) = 2 ^ (23 : ℤ) := by norm_num
        rw [this]
        exact hdiv
      have hre : (2 : Int) ^ 23 ≤ roundEven (q / floatUlp q) :=
        le_trans hfl (roundEven_bounds (q / floatUlp q)).1
      have hR : 32 ≤ roundFloatAbs q := by
        unfold roundFloatAbs
        have h1 : (2 : ℚ) ^ (23 : ℤ) ≤ (roundEven (q / floatUlp q) : ℚ) := by
          have : ((2 ^ 23 : Int) : ℚ) = 2 ^ (23 : ℤ) := by norm_num
          rw [← this]
          exact_mod_cast hre
        have h2 : 2 ^ (23 : ℤ) * floatUlp q ≤ (roundEven (q / floatUlp q) : ℚ) * floatUlp q :=
          mul_le_mul_of_nonneg_right h1 (le_of_lt hu)
        rw [← hsplit] at h2
        have h3 : (2 : ℚ) ^ (5 : ℤ) ≤ ((2 : ℕ) : ℚ) ^ (Int.log 2 q) := by
          have := zpow_le_zpow_right₀ (by norm_num : (1 : ℚ) ≤ 2) hlog
          simpa using this
        have h4 : (32 : ℚ) = (2 : ℚ) ^ (5 : ℤ) := by norm_num
        rw [h4]
        exact le_trans h3 h2
      constructor
      · intro h; linarith
      · intro h; norm_num at h; linarith

/-- The magnitude of the `float` nearest to `d` is at most 22.5 exactly when the magnitude of
`d` is at most half a unit in the last place above 22.5. -/
theorem abs_roundFloat_le_iff (d : ℚ) :
    |roundFloat d| ≤ 45 / 2 ↔ |d| ≤ 45 / 2 + 1 / 2 ^ 20 := by
  unfold roundFloat
  by_cases h : d < 0
  · rw [if_pos h, abs_neg, abs_of_neg h]
    obtain ⟨h1, h2⟩ := roundFloatAbs_le_iff (-d) (by linarith)
    rw [abs_of_nonneg h1]
    exact h2
  · rw [if_neg h, abs_of_nonneg (not_lt.1 h)]
    obtain ⟨h1, h2⟩ := roundFloatAbs_le_iff d (not_lt.1 h)
    rw [abs_of_nonneg h1]
    exact h2

/-- The goal test `operator==`: same cell, and magnitudes of the headings that differ by at
most half a unit in the last place above 22.5. -/
theorem eq_true_iff {K : Type} (lhs rhs : Node3D K) :
    lhs.eq rhs = true ↔ lhs.getX = rhs.getX ∧ lhs.getY = rhs.getY
      ∧ |(|lhs.getT| - |rhs.getT|)| ≤ 45 / 2 + 1 / 2 ^ 20 := by
  simp only [Node3D.eq, Bool.and_eq_true, decide_eq_true_eq, abs_roundFloat_le_iff, and_assoc]

theorem eq_of_pose (a b : Node3D K) (c : Node3D K) (h : a.pose = b.pose) :
    a.eq c = b.eq c := by
  have hx : a.getX = b.getX := congrArg Pose.x h
  have hy : a.getY = b.getY := congrArg Pose.y h
  have ht : a.getT = b.getT := congrArg Pose.t h
  simp [Node3D.eq, hx, hy, ht]

end NodeFacts

/-! ## The tables -/

theorem dTat_eq (i : Int) (h0 : 0 ≤ i) (h1 : i < 360) :
    dTat i = some (if i / 45 - 1 < 0 then 7 else i / 45 - 1) := by
  have hn : i.toNat < 360 := by omega
  have hi : ((i.toNat : Nat) : Int) = i := Int.toNat_of_nonneg h0
  simp only [dTat, h0, if_true, dT, List.get?_eq_getElem?, List.getElem?_map]
  rw [List.getElem?_range hn]
  simp [hi]

theorem dTat_some_iff (i b : Int) :
    dTat i = some b ↔ 0 ≤ i ∧ i < 360 ∧ b = (if i / 45 - 1 < 0 then 7 else i / 45 - 1) := by
  constructor
  · intro h
    by_cases h0 : 0 ≤ i
    · by_cases h1 : i < 360
      · rw [dTat_eq i h0 h1] at h
        exact ⟨h0, h1, (Option.some.inj h).symm⟩
      · have hn : 360 ≤ i.toNat := by omega
        have hlen : dT.length ≤ i.toNat := by simpa [dT] using hn
        simp [dTat, h0, List.get?_eq_getElem?, List.getElem?_eq_none hlen] at h
    · simp [dTat, h0] at h
  · rintro ⟨h0, h1, rfl⟩
    exact dTat_eq i h0 h1

theorem dTat_range (i b : Int) (h : dTat i = some b) : 0 ≤ b ∧ b < 8 := by
  obtain ⟨h0, h1, rfl⟩ := (dTat_some_iff i b).1 h
  split <;> omega

theorem dTat_inj (i k b : Int) (hi : dTat i = some b) (hk : dTat k = some b) :
    i / 45 = k / 45 := by
  obtain ⟨h0, h1, e1⟩ := (dTat_some_iff i b).1 hi
  obtain ⟨h2, h3, e2⟩ := (dTat_some_iff k b).1 hk
  rw [e1] at e2
  split_ifs at e2 <;> omega

theorem dXat_abs (j : Int) (h0 : 0 ≤ j) (h8 : j < 8) (i : Fin 3) :
    (dXat j i = -1 ∨ dXat j i = 0 ∨ dXat j i = 1)
      ∧ (dYat j i = -1 ∨ dYat j i = 0 ∨ dYat j i = 1)
      ∧ (dXat j i ≠ 0 ∨ dYat j i ≠ 0) := by
  have : j = 0 ∨ j = 1 ∨ j = 2 ∨ j = 3 ∨ j = 4 ∨ j = 5 ∨ j = 6 ∨ j = 7 := by omega
  rcases this with rfl | rfl | rfl | rfl | rfl | rfl | rfl | rfl <;> fin_cases i <;> decide

theorem tSuccOf_range (t : Int) (h0 : 0 ≤ t) (h360 : t < 360) (i : Fin 3) :
    0 ≤ tSuccOf t i ∧ tSuccOf t i < 360 ∧ tSuccOf t i % 45 = t % 45 := by
  fin_cases i <;> simp only [tSuccOf, tSuccRaw, wrap360] <;> split_ifs <;> omega

/-! ## Truncation of headings -/

theorem toInt_intCast (k : Int) : toInt (k : ℚ) = k := by
  unfold toInt
  split <;> simp

theorem toInt_range (q : ℚ) (h0 : 0 ≤ q) (h1 : q < 360) : 0 ≤ toInt q ∧ toInt q < 360 := by
  unfold toInt
  rw [if_pos h0]
  constructor
  · exact Int.floor_nonneg.2 h0
  · have : (⌊q⌋ : ℚ) < ((360 : Int) : ℚ) := lt_of_le_of_lt (Int.floor_le q) (by simpa using h1)
    exact_mod_cast this

end PathPlanner

namespace PathPlanner

/-! ## Lattice indices -/

theorem mixed_radix (A b c r s : Int) (hr : 0 ≤ r) (hrA : r < A) (hs : 0 ≤ s) (hsA : s < A)
    (h : b * A + r = c * A + s) : b = c ∧ r = s := by
  have hbc : b = c := by
    rcases lt_trichotomy b c with hlt | heq | hgt
    · exfalso
      have : (c - b) * A ≥ 1 * A := by
        apply mul_le_mul_of_nonneg_right _ (by omega)
        omega
      nlinarith
    · exact heq
    · exfalso
      have : (b - c) * A ≥ 1 * A := by
        apply mul_le_mul_of_nonneg_right _ (by omega)
        omega
      nlinarith
  subst hbc
  exact ⟨rfl, by omega⟩

theorem cell_index_range (W H x y : Int) (hx0 : 0 ≤ x) (hx : x < W) (hy0 : 0 ≤ y)
    (hy : y < H) : 0 ≤ y * W + x ∧ y * W + x < W * H := by
  have h1 : 0 ≤ y * W := mul_nonneg hy0 (by omega)
  have h2 : (y + 1) * W ≤ H * W := mul_le_mul_of_nonneg_right (by omega) (by omega)
  constructor
  · omega
  · nlinarith

section Index

variable {K : Type}

theorem inData_of_inBounds (P : Problem K) (p : Pose) (h : P.inBounds p) :
    P.inData (p.y * P.width + p.x) := by
  obtain ⟨hx0, hx, hy0, hy⟩ := h
  exact cell_index_range P.width P.height p.x p.y hx0 hx hy0 hy

theorem index_of_filed (P : Problem K) (k0 : Int) (p : Pose) (h : P.Filed k0 p) :
    ∃ b idx, dTat (toInt p.t) = some b ∧ 0 ≤ b ∧ b < 8 ∧ P.index p = some idx
      ∧ idx = b * P.width * P.height + p.y * P.width + p.x ∧ P.inTable idx := by
  obtain ⟨⟨hx0, hx, hy0, hy⟩, ht0, ht, _⟩ := h
  have hb := dTat_eq (toInt p.t) ht0 ht
  obtain ⟨hb0, hb8⟩ := dTat_range _ _ hb
  refine ⟨_, _, hb, hb0, hb8, by simp [Problem.index, hb], rfl, ?_⟩
  obtain ⟨hc0, hc⟩ := cell_index_range P.width P.height p.x p.y hx0 hx hy0 hy
  generalize (if toInt p.t / 45 - 1 < 0 then (7 : Int) else toInt p.t / 45 - 1) = b at hb0 hb8
  have hA : 0 ≤ P.width * P.height := by nlinarith
  have h1 : 0 ≤ b * (P.width * P.height) := mul_nonneg hb0 hA
  have h2 : (b + 1) * (P.width * P.height) ≤ 8 * (P.width * P.height) :=
    mul_le_mul_of_nonneg_right (by omega) hA
  unfold Problem.inTable
  constructor
  · nlinarith
  · nlinarith

theorem sameCell_of_index (P : Problem K) (k0 : Int) (p q : Pose) (hp : P.Filed k0 p)
    (hq : P.Filed k0 q) (h : P.index p = P.index q) : p.sameCell q := by
  obtain ⟨b, idx, hb, hb0, hb8, hi, he, _⟩ := index_of_filed P k0 p hp
  obtain ⟨c, idy, hc, hc0, hc8, hj, hf, _⟩ := index_of_filed P k0 q hq
  rw [hi, hj] at h
  have hidx : idx = idy := Option.some.inj h
  obtain ⟨⟨hx0, hx, hy0, hy⟩, ht0, ht, htm⟩ := hp
  obtain ⟨⟨hx0', hx', hy0', hy'⟩, ht0', ht', htm'⟩ := hq
  obtain ⟨hr0, hr⟩ := cell_index_range P.width P.height p.x p.y hx0 hx hy0 hy
  obtain ⟨hs0, hs⟩ := cell_index_range P.width P.height q.x q.y hx0' hx' hy0' hy'
  have hsum : b * (P.width * P.height) + (p.y * P.width + p.x)
      = c * (P.width * P.height) + (q.y * P.width + q.x) := by
    have : b * P.width * P.height + p.y * P.width + p.x
        = c * P.width * P.height + q.y * P.width + q.x := by rw [← he, ← hf, hidx]
    linarith
  obtain ⟨hbc, hcell⟩ := mixed_radix _ _ _ _ _ hr0 hr hs0 hs hsum
  obtain ⟨hyy, hxx⟩ := mixed_radix P.width p.y q.y p.x q.x hx0 hx hx0' hx' hcell
  subst hbc
  have hdiv := dTat_inj _ _ _ hb hc
  refine ⟨hxx, hyy, ?_⟩
  omega

theorem index_of_sameCell (P : Problem K) (p q : Pose) (h : p.sameCell q) :
    P.index p = P.index q := by
  obtain ⟨hx, hy, ht⟩ := h
  simp [Problem.index, hx, hy, ht]

theorem successor_of_sameCell (p q : Pose) (h : p.sameCell q) (i : Fin 3) :
    p.successor i = q.successor i := by
  obtain ⟨hx, hy, ht⟩ := h
  simp [Pose.successor, hx, hy, ht]

theorem sameCell_refl (p : Pose) : p.sameCell p := ⟨rfl, rfl, rfl⟩

theorem sameCell_symm (p q : Pose) (h : p.sameCell q) : q.sameCell p :=
  ⟨h.1.symm, h.2.1.symm, h.2.2.symm⟩

theorem sameCell_trans (p q r : Pose) (h : p.sameCell q) (h2 : q.sameCell r) : p.sameCell r :=
  ⟨h.1.trans h2.1, h.2.1.trans h2.2.1, h.2.2.trans h2.2.2⟩

theorem filed_of_sameCell (P : Problem K) (k0 : Int) (p q : Pose) (h : p.sameCell q)
    (hp : P.Filed k0 p) : P.Filed k0 q := by
  obtain ⟨hx, hy, ht⟩ := h
  obtain ⟨⟨hx0, hx1, hy0, hy1⟩, ht0, ht1, htm⟩ := hp
  refine ⟨⟨?_, ?_, ?_, ?_⟩, ?_, ?_, ?_⟩ <;> omega

theorem eq_of_sameCell (P : Problem K) (k0 : Int) (p q : Pose) (hp : P.OnLattice k0 p)
    (hq : P.OnLattice k0 q) (h : p.sameCell q) : p = q := by
  obtain ⟨hx, hy, ht⟩ := h
  cases p with
  | mk px py pt =>
    cases q with
    | mk qx qy qt =>
      have e1 : pt = ((toInt pt : Int) : ℚ) := hp.2
      have e2 : qt = ((toInt qt : Int) : ℚ) := hq.2
      simp only at hx hy ht
      have : pt = qt := by rw [e1, e2, ht]
      subst hx hy this
      rfl

theorem successor_of_filed (P : Problem K) (k0 : Int) (p : Pose) (hp : P.Filed k0 p)
    (i : Fin 3) :
    ∃ j, dTat (toInt p.t) = some j ∧ 0 ≤ j ∧ j < 8 ∧
      p.successor i = some ⟨p.x + dXat j i, p.y + dYat j i,
        ((tSuccOf (toInt p.t) i : Int) : ℚ)⟩ := by
  obtain ⟨_, ht0, ht, _⟩ := hp
  have hb := dTat_eq (toInt p.t) ht0 ht
  obtain ⟨hb0, hb8⟩ := dTat_range _ _ hb
  exact ⟨_, hb, hb0, hb8, by simp [Pose.successor, hb]⟩

theorem onLattice_of_successor (P : Problem K) (k0 : Int) (p q : Pose) (hp : P.Filed k0 p)
    (i : Fin 3) (h : p.successor i = some q) (hq : P.inBounds q) : P.OnLattice k0 q := by
  obtain ⟨j, _, _, _, hs⟩ := successor_of_filed P k0 p hp i
  rw [hs] at h
  have hq' := (Option.some.inj h).symm
  obtain ⟨_, ht0, ht, htm⟩ := hp
  obtain ⟨h0, h1, h2⟩ := tSuccOf_range (toInt p.t) ht0 ht i
  have hqt : q.t = ((tSuccOf (toInt p.t) i : Int) : ℚ) := by rw [hq']
  have hti : toInt q.t = tSuccOf (toInt p.t) i := by rw [hqt, toInt_intCast]
  refine ⟨⟨hq, ?_, ?_, ?_⟩, ?_⟩
  · omega
  · omega
  · omega
  · rw [hti, hqt]

end Index

end PathPlanner

namespace PathPlanner

section CodeFacts

variable {K : Type} [LinearOrderedField K]

theorem movementCost_eq (E : Ext K) (n pred : Node3D K) :
    n.movementCost E pred
      = E.sqrt ((n.getX - pred.getX) * (n.getX - pred.getX)
          + (n.getY - pred.getY) * (n.getY - pred.getY)) := by
  simp [Node3D.movementCost, penalty]

theorem stepCost_eq (E : Ext K) (p q : Pose) :
    stepCost E p q = E.sqrt ((q.x - p.x) * (q.x - p.x) + (q.y - p.y) * (q.y - p.y)) := by
  simp [stepCost, movementCost_eq, Pose.node]

theorem movementCost_eq_stepCost (E : Ext K) (n pred : Node3D K) :
    n.movementCost E pred = stepCost E pred.pose n.pose := by
  rw [movementCost_eq, stepCost_eq]; rfl

theorem stepCost_of_sameCell (E : Ext K) (p p1 q : Pose) (h : p.sameCell p1) :
    stepCost E p q = stepCost E p1 q := by
  rw [stepCost_eq, stepCost_eq, h.1, h.2.1]

theorem costToGo_snd (E : Ext K) (n goal : Node3D K) (oGrid : OccupancyGrid)
    (costGoal : Int → K) : (n.costToGo E goal oGrid costGoal).2 = costGoal := by
  simp [Node3D.costToGo, Node3D.costToGoWith]

theorem costToGo_fst (E : Ext K) (n goal : Node3D K) (oGrid : OccupancyGrid)
    (costGoal : Int → K) :
    (n.costToGo E goal oGrid costGoal).1
      = max (E.sqrt ((n.getX - goal.getX) * (n.getX - goal.getX)
          + (n.getY - goal.getY) * (n.getY - goal.getY)))
          (max 0 (costGoal (n.getY * oGrid.infoWidth + n.getX))) := by
  simp [Node3D.costToGo, Node3D.costToGoWith]

theorem costToGo_of_pose (E : Ext K) (n m goal : Node3D K) (oGrid : OccupancyGrid)
    (costGoal : Int → K) (hx : n.getX = m.getX) (hy : n.getY = m.getY) :
    (n.costToGo E goal oGrid costGoal).1 = (m.costToGo E goal oGrid costGoal).1 := by
  rw [costToGo_fst, costToGo_fst, hx, hy]

theorem updateH_snd (E : Ext K) (n goal : Node3D K) (oGrid : OccupancyGrid)
    (costGoal : Int → K) : (n.updateH E goal oGrid costGoal).2 = costGoal := by
  simp [Node3D.updateH, costToGo_snd]

theorem startNode_eq (E : Ext K) (P : Problem K) (start : Node3D K) (tb : Tables K) :
    startNode E P start tb
      = Node3D.mk start.getX start.getY start.getT (start.getG + E.sqrt 0)
          ((start.pose.node K).costToGo E P.goal P.oGrid tb.costGoal).1 start.getPred := by
  cases start with
  | mk x y t g h p =>
    simp only [startNode, Node3D.updateH, Node3D.updateG, withG_mk, withH_mk, getG_mk,
      movementCost_eq, getX_mk, getY_mk, getT_mk, getPred_mk, sub_self, mul_zero, add_zero,
      pose_mk, Pose.node]
    congr 1

@[simp] theorem startNode_pose (E : Ext K) (P : Problem K) (start : Node3D K) (tb : Tables K) :
    (startNode E P start tb).pose = start.pose := by
  rw [startNode_eq]; rfl

theorem successor_eq_gen (E : Ext K) (PQ : PriorityQueue (Node3D K) CompareNodes)
    (P : Problem K) (nPred : Node3D K) (j : Int) (st : SearchState K PQ.Q)
    (i : Fin 3) (hj : dTat (toInt nPred.getT) = some j) :
    ∃ q idx b, nPred.pose.successor i = some q ∧ dTat (toInt q.t) = some b
      ∧ P.index q = some idx
      ∧ successor E PQ P nPred nPred.getX nPred.getY (toInt nPred.getT) j st i
        = some (if P.free q ∧ b < P.depth ∧ st.closed idx = false
              ∧ (st.open_ idx = false ∨ nPred.getG + stepCost E nPred.pose q < st.cost idx)
            then st.accept PQ idx (child E P nPred q st.costGoal) else st) := by
  obtain ⟨ht0, ht, _⟩ := (dTat_some_iff _ _).1 hj
  have hs : nPred.pose.successor i = some ⟨nPred.getX + dXat j i, nPred.getY + dYat j i,
      ((tSuccOf (toInt nPred.getT) i : Int) : ℚ)⟩ := by
    simp [Pose.successor, hj]
  obtain ⟨hs0, hs1, _⟩ := tSuccOf_range (toInt nPred.getT) ht0 ht i
  have hb := dTat_eq _ hs0 hs1
  obtain ⟨hb0, hb8⟩ := dTat_range _ _ hb
  generalize hbdef : (if tSuccOf (toInt nPred.getT) i / 45 - 1 < 0 then (7 : Int)
    else tSuccOf (toInt nPred.getT) i / 45 - 1) = b at hb hb0 hb8
  refine ⟨_, b * P.width * P.height + (nPred.getY + dYat j i) * P.width
    + (nPred.getX + dXat j i), b, hs, ?_, ?_, ?_⟩
  · simp [toInt_intCast, hb]
  · simp [Problem.index, toInt_intCast, hb]
  · simp only [successor, hb, pose_x, pose_y, pose_t]
    by_cases hin : P.inBounds ⟨nPred.getX + dXat j i, nPred.getY + dYat j i,
        ((tSuccOf (toInt nPred.getT) i : Int) : ℚ)⟩
    · have hdata := inData_of_inBounds P _ hin
      have hfiled : P.Filed (tSuccOf (toInt nPred.getT) i)
          ⟨nPred.getX + dXat j i, nPred.getY + dYat j i,
            ((tSuccOf (toInt nPred.getT) i : Int) : ℚ)⟩ :=
        ⟨hin, by simp only [toInt_intCast]; omega, by simp only [toInt_intCast]; omega,
          by simp only [toInt_intCast]⟩
      obtain ⟨b2, idx2, hb2, _, _, _, hidx2, htab⟩ := index_of_filed P _ _ hfiled
      simp only [toInt_intCast, hb] at hb2
      have hbb : b = b2 := Option.some.inj hb2
      subst hbb
      subst hidx2
      have hin' := hin
      obtain ⟨hx0, hx1, hy0, hy1⟩ := hin'
      simp only at hx0 hx1 hy0 hy1 hdata htab
      by_cases hdep : b < P.depth
      · have hcond : (0 ≤ nPred.getX + dXat j i ∧ nPred.getX + dXat j i < P.width
            ∧ 0 ≤ nPred.getY + dYat j i ∧ nPred.getY + dYat j i < P.height ∧ 0 ≤ b
            ∧ b < P.depth) := ⟨hx0, hx1, hy0, hy1, hb0, hdep⟩
        rw [if_pos hcond, if_neg (not_not.2 hdata)]
        by_cases hocc : P.oGrid.data ((nPred.getY + dYat j i) * P.width
            + (nPred.getX + dXat j i)) = 0
        · rw [if_pos hocc, if_neg (not_not.2 htab)]
          have hfree : P.free ⟨nPred.getX + dXat j i, nPred.getY + dYat j i,
              ((tSuccOf (toInt nPred.getT) i : Int) : ℚ)⟩ := ⟨hin, hocc⟩
          by_cases hcl : st.closed (b * P.width * P.height + (nPred.getY + dYat j i) * P.width
              + (nPred.getX + dXat j i)) = false
          · rw [if_pos hcl]
            have hmc : (Node3D.mk (nPred.getX + dXat j i) (nPred.getY + dYat j i)
                ((tSuccOf (toInt nPred.getT) i : Int) : ℚ) nPred.getG 0 none).movementCost E
                  nPred
                = stepCost E nPred.pose ⟨nPred.getX + dXat j i, nPred.getY + dYat j i,
                  ((tSuccOf (toInt nPred.getT) i : Int) : ℚ)⟩ := by
              rw [movementCost_eq_stepCost]; rfl
            rw [hmc]
            by_cases hrel : st.open_ (b * P.width * P.height
                + (nPred.getY + dYat j i) * P.width + (nPred.getX + dXat j i)) = false
                ∨ nPred.getG + stepCost E nPred.pose ⟨nPred.getX + dXat j i,
                  nPred.getY + dYat j i, ((tSuccOf (toInt nPred.getT) i : Int) : ℚ)⟩
                  < st.cost (b * P.width * P.height + (nPred.getY + dYat j i) * P.width
                    + (nPred.getX + dXat j i))
            · rw [if_pos hrel, if_pos ⟨hfree, hdep, hcl, hrel⟩]
              simp only [SearchState.accept, child, Node3D.updateH, Node3D.updateG, setPred_mk,
                withG_mk, withH_mk, getG_mk, getH_mk, costToGo_snd, Option.some.injEq]
              have hmc2 : (Node3D.mk (nPred.getX + dXat j i) (nPred.getY + dYat j i)
                  ((tSuccOf (toInt nPred.getT) i : Int) : ℚ) nPred.getG 0
                    (some nPred)).movementCost E nPred
                  = stepCost E nPred.pose ⟨nPred.getX + dXat j i, nPred.getY + dYat j i,
                    ((tSuccOf (toInt nPred.getT) i : Int) : ℚ)⟩ := by
                rw [movementCost_eq_stepCost]; rfl
              rw [hmc2]
              have hh : ((Node3D.mk (nPred.getX + dXat j i) (nPred.getY + dYat j i)
                  ((tSuccOf (toInt nPred.getT) i : Int) : ℚ)
                  (nPred.getG + stepCost E nPred.pose ⟨nPred.getX + dXat j i,
                    nPred.getY + dYat j i, ((tSuccOf (toInt nPred.getT) i : Int) : ℚ)⟩) 0
                  (some nPred)).costToGo E P.goal P.oGrid st.costGoal).1
                  = (((⟨nPred.getX + dXat j i, nPred.getY + dYat j i,
                    ((tSuccOf (toInt nPred.getT) i : Int) : ℚ)⟩ : Pose).node K).costToGo E
                      P.goal P.oGrid st.costGoal).1 :=
                costToGo_of_pose E _ _ _ _ _ rfl rfl
              rw [hh]
            · rw [if_neg hrel, if_neg (fun h => hrel h.2.2.2)]
          · rw [if_neg hcl, if_neg (fun h => hcl h.2.2.1)]
        · rw [if_neg hocc, if_neg (fun h => hocc h.1.2)]
      · have hcond : ¬ (0 ≤ nPred.getX + dXat j i ∧ nPred.getX + dXat j i < P.width
            ∧ 0 ≤ nPred.getY + dYat j i ∧ nPred.getY + dYat j i < P.height ∧ 0 ≤ b
            ∧ b < P.depth) := fun h => hdep h.2.2.2.2.2
        rw [if_neg hcond, if_neg (fun h => hdep h.2.1)]
    · have hcond : ¬ (0 ≤ nPred.getX + dXat j i ∧ nPred.getX + dXat j i < P.width
          ∧ 0 ≤ nPred.getY + dYat j i ∧ nPred.getY + dYat j i < P.height ∧ 0 ≤ b
          ∧ b < P.depth) := fun h => hin ⟨h.1, h.2.1, h.2.2.1, h.2.2.2.1⟩
      rw [if_neg hcond, if_neg (fun h => hin h.1.1)]

theorem successor_eq (E : Ext K) (PQ : PriorityQueue (Node3D K) CompareNodes)
    (P : Problem K) (nPred : Node3D K) (j : Int) (st : SearchState K PQ.Q)
    (i : Fin 3) (hd : P.depth = 8) (hj : dTat (toInt nPred.getT) = some j) :
    ∃ q idx, nPred.pose.successor i = some q ∧ P.index q = some idx
      ∧ successor E PQ P nPred nPred.getX nPred.getY (toInt nPred.getT) j st i
        = some (if P.free q ∧ st.closed idx = false
              ∧ (st.open_ idx = false ∨ nPred.getG + stepCost E nPred.pose q < st.cost idx)
            then st.accept PQ idx (child E P nPred q st.costGoal) else st) := by
  obtain ⟨q, idx, b, hq, hb, hidx, heq⟩ := successor_eq_gen E PQ P nPred j st i hj
  refine ⟨q, idx, hq, hidx, ?_⟩
  rw [heq]
  have hb8 : b < P.depth := by
    rw [hd]
    exact (dTat_range _ _ hb).2
  by_cases h : P.free q ∧ st.closed idx = false
      ∧ (st.open_ idx = false ∨ nPred.getG + stepCost E nPred.pose q < st.cost idx)
  · rw [if_pos h, if_pos ⟨h.1, hb8, h.2⟩]
  · rw [if_neg h, if_neg (fun h1 => h ⟨h1.1, h1.2.2⟩)]

end CodeFacts

end PathPlanner

namespace PathPlanner

section Invariants

variable {K : Type} [LinearOrderedField K]

theorem mem_push {α : Type} {comp : α → α → Bool} (PQ : PriorityQueue α comp) (q : PQ.Q) (a b : α) :
    b ∈ PQ.toList (PQ.push q a) ↔ b = a ∨ b ∈ PQ.toList q := by
  rw [(PQ.toList_push q a).mem_iff, List.mem_cons]

theorem mem_pop {α : Type} {comp : α → α → Bool} (PQ : PriorityQueue α comp) (q r : PQ.Q) (a b : α)
    (h : PQ.pop q = some (a, r)) : b ∈ PQ.toList q ↔ b = a ∨ b ∈ PQ.toList r := by
  rw [(PQ.pop_perm q a r h).mem_iff, List.mem_cons]

theorem length_push {α : Type} {comp : α → α → Bool} (PQ : PriorityQueue α comp) (q : PQ.Q) (a : α) :
    (PQ.toList (PQ.push q a)).length = (PQ.toList q).length + 1 := by
  rw [(PQ.toList_push q a).length_eq, List.length_cons]

theorem length_pop {α : Type} {comp : α → α → Bool} (PQ : PriorityQueue α comp) (q r : PQ.Q) (a : α)
    (h : PQ.pop q = some (a, r)) : (PQ.toList q).length = (PQ.toList r).length + 1 := by
  rw [(PQ.pop_perm q a r h).length_eq, List.length_cons]

theorem child_pose (E : Ext K) (P : Problem K) (nPred : Node3D K) (q : Pose)
    (cg : Int → K) : (child E P nPred q cg).pose = q := rfl

theorem filed_of_closed (E : Ext K) (P : Problem K) (k0 : Int) (s : Node3D K) (cg : Int → K)
    (n : Node3D K) (hs : P.Filed k0 s.pose) (h : n = s ∨ P.NodeOK E k0 s cg n) :
    P.Filed k0 n.pose := by
  rcases h with rfl | h
  · exact hs
  · exact h.lattice.1

theorem linked_of_closed (E : Ext K) (P : Problem K) (k0 : Int) (s : Node3D K) (cg : Int → K)
    (n : Node3D K) (h : n = s ∨ P.NodeOK E k0 s cg n) : P.Linked E s n := by
  rcases h with rfl | h
  · exact Problem.Linked.start
  · exact h.linked

theorem child_ok (E : Ext K) (P : Problem K) (k0 : Int) (s : Node3D K) (cg : Int → K)
    (nPred : Node3D K) (q : Pose) (i : Fin 3) (hs : P.Filed k0 s.pose)
    (hn : nPred = s ∨ P.NodeOK E k0 s cg nPred) (hq : nPred.pose.successor i = some q)
    (hfree : P.free q) : P.NodeOK E k0 s cg (child E P nPred q cg) := by
  refine ⟨?_, ?_, rfl⟩
  · exact onLattice_of_successor P k0 nPred.pose q (filed_of_closed E P k0 s cg nPred hs hn) i
      hq hfree.1
  · refine Problem.Linked.step nPred _ i (linked_of_closed E P k0 s cg nPred hn) rfl hq hfree ?_
    rw [movementCost_eq_stepCost]
    rfl

/-- One pass of the successor loop keeps the invariant, covers successor `i` of the node
being expanded and leaves covered what was covered. -/
theorem successor_inv (E : Ext K) (PQ : PriorityQueue (Node3D K) CompareNodes)
    (P : Problem K) (k0 : Int) (s : Node3D K) (cg : Int → K) (st : SearchState K PQ.Q)
    (CL : List (Node3D K)) (nPred : Node3D K) (j : Int) (i : Fin 3) (hd : P.depth = 8)
    (hs : P.Filed k0 s.pose) (hinv : P.Inv E PQ k0 s cg st CL) (hn : nPred ∈ CL)
    (hj : dTat (toInt nPred.getT) = some j) :
    ∃ st1, successor E PQ P nPred nPred.getX nPred.getY (toInt nPred.getT) j st i = some st1
      ∧ P.Inv E PQ k0 s cg st1 CL ∧ P.Covered E PQ st1 nPred i
      ∧ (∀ n i1, P.Covered E PQ st n i1 → P.Covered E PQ st1 n i1)
      ∧ st1.closed = st.closed
      ∧ (PQ.toList st1.O).length ≤ (PQ.toList st.O).length + 1 := by
  have hnok := (hinv.closedNodes nPred hn).1
  have hfiled := filed_of_closed E P k0 s cg nPred hs hnok
  obtain ⟨q, idx, hq, hidx, heq⟩ := successor_eq E PQ P nPred j st i hd hj
  by_cases hacc : P.free q ∧ st.closed idx = false
      ∧ (st.open_ idx = false ∨ nPred.getG + stepCost E nPred.pose q < st.cost idx)
  · rw [if_pos hacc] at heq
    refine ⟨_, heq, ?_, ?_, ?_, rfl, ?_⟩
    · have hchild : P.NodeOK E k0 s cg (child E P nPred q st.costGoal) := by
        rw [hinv.costGoal_eq]
        exact child_ok E P k0 s cg nPred q i hs hnok hq hacc.1
      refine ⟨?_, hinv.closed_iff, hinv.closedNodes, hinv.start_mem, ?_, hinv.costGoal_eq⟩
      · intro m hm
        rcases (mem_push PQ st.O _ m).1 hm with rfl | hm
        · exact hchild
        · exact hinv.queue m hm
      · intro idx1 ho hc
        by_cases he : idx1 = idx
        · subst he
          refine ⟨child E P nPred q st.costGoal, (mem_push PQ st.O _ _).2 (Or.inl rfl), ?_, ?_⟩
          · rw [child_pose]; exact hidx
          · simp [SearchState.accept]
        · have ho1 : st.open_ idx1 = true := by
            simpa [SearchState.accept, Function.update_noteq he] using ho
          obtain ⟨m, hm, hmi, hmg⟩ := hinv.open_queue idx1 ho1 hc
          refine ⟨m, (mem_push PQ st.O _ m).2 (Or.inr hm), hmi, ?_⟩
          simpa [SearchState.accept, Function.update_noteq he] using hmg
    · intro q1 hq1 _
      rw [hq] at hq1
      have : q = q1 := Option.some.inj hq1
      subst this
      exact Or.inr ⟨child E P nPred q st.costGoal, (mem_push PQ st.O _ _).2 (Or.inl rfl), rfl,
        le_refl _⟩
    · intro n i1 hc q1 hq1 hf1
      rcases hc q1 hq1 hf1 with h | ⟨m, hm, h1, h2⟩
      · exact Or.inl h
      · exact Or.inr ⟨m, (mem_push PQ st.O _ m).2 (Or.inr hm), h1, h2⟩
    · simp only [SearchState.accept]
      rw [length_push]
  · rw [if_neg hacc] at heq
    refine ⟨_, heq, hinv, ?_, fun _ _ h => h, rfl, Nat.le_succ _⟩
    intro q1 hq1 hf1
    rw [hq] at hq1
    have : q = q1 := Option.some.inj hq1
    subst this
    by_cases hcl : st.closed idx = true
    · exact Or.inl ⟨idx, hidx, hcl⟩
    · have hcl' : st.closed idx = false := by simpa using hcl
      have hrest : ¬ (st.open_ idx = false
          ∨ nPred.getG + stepCost E nPred.pose q < st.cost idx) := fun h => hacc ⟨hf1, hcl', h⟩
      have ho : st.open_ idx = true := by
        by_contra h
        exact hrest (Or.inl (by simpa using h))
      have hcost : st.cost idx ≤ nPred.getG + stepCost E nPred.pose q :=
        not_lt.1 fun h => hrest (Or.inr h)
      obtain ⟨m, hm, hmi, hmg⟩ := hinv.open_queue idx ho hcl'
      have hmok := hinv.queue m hm
      have hql := onLattice_of_successor P k0 nPred.pose q hfiled i hq hf1.1
      have hsame : m.pose.sameCell q :=
        sameCell_of_index P k0 m.pose q hmok.lattice.1 hql.1 (by rw [hmi, hidx])
      exact Or.inr ⟨m, hm, eq_of_sameCell P k0 m.pose q hmok.lattice hql hsame,
        le_trans hmg hcost⟩

end Invariants

end PathPlanner

namespace PathPlanner

section Measure

variable {K : Type}

theorem countP_update (l : List Nat) (f : Int → Bool) (a : Nat) (hl : l.Nodup) (ha : a ∈ l)
    (hf : f a = false) :
    l.countP (fun (k : Nat) => !(Function.update f (a : Int) true) (k : Int)) + 1
      = l.countP (fun (k : Nat) => !f (k : Int)) := by
  induction l with
  | nil => simp at ha
  | cons b l ih =>
    rw [List.nodup_cons] at hl
    rw [List.countP_cons, List.countP_cons]
    by_cases hb : b = a
    · subst hb
      have hsame : l.countP (fun (k : Nat) => !(Function.update f (b : Int) true) (k : Int))
          = l.countP (fun (k : Nat) => !f (k : Int)) := by
        apply List.countP_congr
        intro k hk
        have hkb : (k : Int) ≠ (b : Int) := by
          intro h
          have : k = b := by exact_mod_cast h
          exact hl.1 (this ▸ hk)
        simp [Function.update_noteq hkb]
      rw [hsame]
      simp [hf]
    · have ha' : a ∈ l := by
        rcases List.mem_cons.1 ha with h | h
        · exact absurd h.symm hb
        · exact h
      have hne : (b : Int) ≠ (a : Int) := by
        intro h
        exact hb (by exact_mod_cast h)
      have := ih hl.2 ha'
      simp only [Function.update_noteq hne]
      omega

theorem unclosed_update (P : Problem K) (Q : Type) (st st1 : SearchState K Q) (idx : Int)
    (hidx : P.inTable idx) (hcl : st.closed idx = false)
    (h1 : st1.closed = Function.update st.closed idx true) :
    st1.unclosed P + 1 = st.unclosed P := by
  unfold SearchState.unclosed
  rw [h1]
  obtain ⟨h0, hN⟩ := hidx
  have hnat : ((idx.toNat : Nat) : Int) = idx := Int.toNat_of_nonneg h0
  have hmem : idx.toNat ∈ List.range (P.width * P.height * 8).toNat := by
    rw [List.mem_range]
    omega
  have := countP_update (List.range (P.width * P.height * 8).toNat) st.closed idx.toNat
    (List.nodup_range _) hmem (by rw [hnat]; exact hcl)
  rw [hnat] at this
  exact this

theorem unclosed_le (P : Problem K) (Q : Type) (st : SearchState K Q) :
    st.unclosed P ≤ (P.width * P.height * 8).toNat := by
  unfold SearchState.unclosed
  exact le_trans (List.countP_le_length _) (by simp)

end Measure

section Expand

variable {K : Type} [LinearOrderedField K]

theorem expand_eq (E : Ext K) (PQ : PriorityQueue (Node3D K) CompareNodes) (P : Problem K)
    (nPred : Node3D K) (x y t j : Int) (st : SearchState K PQ.Q) :
    expand E PQ P nPred x y t j st
      = (successor E PQ P nPred x y t j st 0).bind fun st0 =>
          (successor E PQ P nPred x y t j st0 1).bind fun st1 =>
            successor E PQ P nPred x y t j st1 2 := by
  simp only [expand, successorIndices, List.foldlM, Option.bind_eq_bind, Option.pure_def]
  cases successor E PQ P nPred x y t j st 0 with
  | none => rfl
  | some a =>
    simp only [Option.some_bind]
    cases successor E PQ P nPred x y t j a 1 with
    | none => rfl
    | some b =>
      simp only [Option.some_bind]
      cases successor E PQ P nPred x y t j b 2 <;> rfl

/-- The successor loop keeps the invariant and covers the three successors of the node
being expanded. -/
theorem expand_inv (E : Ext K) (PQ : PriorityQueue (Node3D K) CompareNodes)
    (P : Problem K) (k0 : Int) (s : Node3D K) (cg : Int → K) (st : SearchState K PQ.Q)
    (CL : List (Node3D K)) (nPred : Node3D K) (j : Int) (hd : P.depth = 8)
    (hs : P.Filed k0 s.pose) (hinv : P.Inv E PQ k0 s cg st CL) (hn : nPred ∈ CL)
    (hj : dTat (toInt nPred.getT) = some j) :
    ∃ st1, expand E PQ P nPred nPred.getX nPred.getY (toInt nPred.getT) j st = some st1
      ∧ P.Inv E PQ k0 s cg st1 CL ∧ (∀ i, P.Covered E PQ st1 nPred i)
      ∧ (∀ n i1, P.Covered E PQ st n i1 → P.Covered E PQ st1 n i1)
      ∧ st1.closed = st.closed
      ∧ (PQ.toList st1.O).length ≤ (PQ.toList st.O).length + 3 := by
  obtain ⟨a, ha, ia, ca, ma, cla, la⟩ :=
    successor_inv E PQ P k0 s cg st CL nPred j 0 hd hs hinv hn hj
  obtain ⟨b, hb, ib, cb, mb, clb, lb⟩ :=
    successor_inv E PQ P k0 s cg a CL nPred j 1 hd hs ia hn hj
  obtain ⟨c, hc, ic, cc, mc, clc, lc⟩ :=
    successor_inv E PQ P k0 s cg b CL nPred j 2 hd hs ib hn hj
  refine ⟨c, ?_, ic, ?_, fun n i1 h => mc n i1 (mb n i1 (ma n i1 h)), ?_, by omega⟩
  · rw [expand_eq, ha, Option.some_bind, hb, Option.some_bind, hc]
  · intro i
    fin_cases i
    · exact mc _ _ (mb _ _ ca)
    · exact mc _ _ cb
    · exact cc
  · rw [clc, clb, cla]

end Expand

end PathPlanner

namespace PathPlanner

/-! ## Walks -/

section Walks

set_option linter.unusedSectionVars false

variable {K : Type} [LinearOrderedField K]

theorem walk_cons (P : Problem K) (p q : Pose) (i : Fin 3) (l : List (Fin 3))
    (hq : p.successor i = some q) (hf : P.free q) : P.walk p (i :: l) = P.walk q l := by
  simp [Problem.walk, hq, hf]

theorem walk_cons_some (P : Problem K) (p r : Pose) (i : Fin 3) (l : List (Fin 3))
    (h : P.walk p (i :: l) = some r) :
    ∃ q, p.successor i = some q ∧ P.free q ∧ P.walk q l = some r := by
  simp only [Problem.walk] at h
  cases hq : p.successor i with
  | none => simp [hq] at h
  | some q =>
    simp only [hq] at h
    by_cases hf : P.free q
    · rw [if_pos hf] at h
      exact ⟨q, rfl, hf, h⟩
    · rw [if_neg hf] at h
      exact absurd h (by simp)

theorem walk_snoc (P : Problem K) (p q r : Pose) (l : List (Fin 3)) (i : Fin 3)
    (hq : P.walk p l = some q) (hr : q.successor i = some r) (hf : P.free r) :
    P.walk p (l ++ [i]) = some r := by
  induction l generalizing p with
  | nil =>
    simp only [Problem.walk, Option.some.injEq] at hq
    subst hq
    simp [Problem.walk, hr, hf]
  | cons a l ih =>
    obtain ⟨p1, h1, h2, h3⟩ := walk_cons_some P p q a l hq
    rw [List.cons_append, walk_cons P p p1 a _ h1 h2]
    exact ih p1 h3

theorem walk_snoc_some (P : Problem K) (p r : Pose) (l : List (Fin 3)) (i : Fin 3)
    (h : P.walk p (l ++ [i]) = some r) :
    ∃ q, P.walk p l = some q ∧ q.successor i = some r ∧ P.free r := by
  induction l generalizing p with
  | nil =>
    obtain ⟨q, h1, h2, h3⟩ := walk_cons_some P p r i [] h
    simp only [Problem.walk, Option.some.injEq] at h3
    subst h3
    exact ⟨p, rfl, h1, h2⟩
  | cons a l ih =>
    rw [List.cons_append] at h
    obtain ⟨p1, h1, h2, h3⟩ := walk_cons_some P p r a _ h
    obtain ⟨q, h4, h5, h6⟩ := ih p1 h3
    exact ⟨q, by rw [walk_cons P p p1 a l h1 h2]; exact h4, h5, h6⟩

theorem walkCost_snoc (E : Ext K) (P : Problem K) (p q r : Pose) (l : List (Fin 3))
    (i : Fin 3) (hq : P.walk p l = some q) (hr : q.successor i = some r) :
    P.walkCost E p (l ++ [i]) = P.walkCost E p l + stepCost E q r := by
  induction l generalizing p with
  | nil =>
    simp only [Problem.walk, Option.some.injEq] at hq
    subst hq
    simp [Problem.walkCost, hr]
  | cons a l ih =>
    obtain ⟨p1, h1, h2, h3⟩ := walk_cons_some P p q a l hq
    have e := ih p1 h3
    have e2 : P.walkCost E p (a :: l ++ [i])
        = stepCost E p p1 + P.walkCost E p1 (l ++ [i]) := by
      show P.walkCost E p (a :: (l ++ [i])) = _
      simp only [Problem.walkCost, h1]
    have e3 : P.walkCost E p (a :: l) = stepCost E p p1 + P.walkCost E p1 l := by
      simp only [Problem.walkCost, h1]
    rw [e2, e3, e, add_assoc]

theorem walk_of_sameCell (P : Problem K) (p p1 r : Pose) (l : List (Fin 3))
    (hs : p.sameCell p1) (h : P.walk p l = some r) :
    (l = [] ∧ r = p) ∨ (l ≠ [] ∧ P.walk p1 l = some r) := by
  cases l with
  | nil =>
    simp only [Problem.walk, Option.some.injEq] at h
    exact Or.inl ⟨rfl, h.symm⟩
  | cons a l =>
    right
    refine ⟨by simp, ?_⟩
    obtain ⟨q, h1, h2, h3⟩ := walk_cons_some P p r a l h
    rw [successor_of_sameCell p p1 hs a] at h1
    rw [walk_cons P p1 q a l h1 h2]
    exact h3

theorem walkCost_of_sameCell (E : Ext K) (P : Problem K) (p p1 : Pose) (l : List (Fin 3))
    (hs : p.sameCell p1) : P.walkCost E p l = P.walkCost E p1 l := by
  cases l with
  | nil => rfl
  | cons a l =>
    simp only [Problem.walkCost]
    rw [successor_of_sameCell p p1 hs a]
    cases p1.successor a with
    | none => rfl
    | some q => simp only [stepCost_of_sameCell E p p1 q hs]

theorem walk_filed (P : Problem K) (k0 : Int) (p r : Pose) (l : List (Fin 3))
    (hp : P.Filed k0 p) (h : P.walk p l = some r) :
    (l = [] ∧ r = p) ∨ (P.OnLattice k0 r ∧ P.free r) := by
  induction l using List.reverseRecOn generalizing r with
  | nil =>
    simp only [Problem.walk, Option.some.injEq] at h
    exact Or.inl ⟨rfl, h.symm⟩
  | append_singleton l a ih =>
    right
    obtain ⟨q, h1, h2, h3⟩ := walk_snoc_some P p r l a h
    have hq : P.Filed k0 q := by
      rcases ih q h1 with ⟨_, rfl⟩ | ⟨hl, _⟩
      · exact hp
      · exact hl.1
    exact ⟨onLattice_of_successor P k0 q r hq a h2 h3.1, h3⟩

/-! ## The Euclidean estimate -/

theorem sqrt_zero (E : Ext K) (hE : E.IsSqrt) : E.sqrt 0 = 0 := by
  obtain ⟨h0, h1⟩ := hE 0 (le_refl _)
  have : E.sqrt 0 * E.sqrt 0 = 0 := by simpa using h1
  exact mul_self_eq_zero.1 this

theorem sumsq_nonneg (a b : Int) : 0 ≤ a * a + b * b :=
  add_nonneg (mul_self_nonneg a) (mul_self_nonneg b)

theorem sqrt_triangle (E : Ext K) (hE : E.IsSqrt) (a b c d : Int) :
    E.sqrt ((a + c) * (a + c) + (b + d) * (b + d))
      ≤ E.sqrt (a * a + b * b) + E.sqrt (c * c + d * d) := by
  obtain ⟨hx0, hx⟩ := hE ((a + c) * (a + c) + (b + d) * (b + d)) (sumsq_nonneg _ _)
  obtain ⟨hy0, hy⟩ := hE (a * a + b * b) (sumsq_nonneg _ _)
  obtain ⟨hz0, hz⟩ := hE (c * c + d * d) (sumsq_nonneg _ _)
  push_cast at hx hy hz
  by_contra hlt
  have hlt := not_le.1 hlt
  generalize E.sqrt ((a + c) * (a + c) + (b + d) * (b + d)) = x at hx0 hx hlt
  generalize E.sqrt (a * a + b * b) = y at hy0 hy hlt
  generalize E.sqrt (c * c + d * d) = z at hz0 hz hlt
  have hyz : 0 ≤ y * z := mul_nonneg hy0 hz0
  have h1 : (y + z) * (y + z) < x * x := mul_self_lt_mul_self (add_nonneg hy0 hz0) hlt
  have h2 : y * z < (a : K) * c + b * d := by
    have e1 : (y + z) * (y + z) = y * y + z * z + 2 * (y * z) := by ring
    have e2 : ((a : K) + c) * (a + c) + (b + d) * (b + d)
        = (a * a + b * b) + (c * c + d * d) + 2 * (a * c + b * d) := by ring
    rw [e1, hx, e2, hy, hz] at h1
    linarith
  have h3 : (y * z) * (y * z) < ((a : K) * c + b * d) * ((a : K) * c + b * d) :=
    mul_self_lt_mul_self hyz h2
  have h4 : (y * z) * (y * z) = ((a : K) * a + b * b) * ((c : K) * c + d * d) := by
    rw [← hy, ← hz]; ring
  have h5 : ((a : K) * a + b * b) * ((c : K) * c + d * d)
      = ((a : K) * c + b * d) * ((a : K) * c + b * d)
        + ((a : K) * d - b * c) * ((a : K) * d - b * c) := by ring
  have h6 : 0 ≤ ((a : K) * d - b * c) * ((a : K) * d - b * c) := mul_self_nonneg _
  rw [h4, h5] at h3
  linarith

theorem stepCost_nonneg (E : Ext K) (hE : E.IsSqrt) (p q : Pose) : 0 ≤ stepCost E p q := by
  rw [stepCost_eq]
  exact (hE _ (sumsq_nonneg _ _)).1

theorem walkCost_nonneg (E : Ext K) (hE : E.IsSqrt) (P : Problem K) (p : Pose)
    (l : List (Fin 3)) : 0 ≤ P.walkCost E p l := by
  induction l generalizing p with
  | nil => exact le_refl _
  | cons a l ih =>
    simp only [Problem.walkCost]
    cases p.successor a with
    | none => exact le_refl _
    | some q => exact add_nonneg (stepCost_nonneg E hE p q) (ih q)

theorem euclideanCost_nonneg (E : Ext K) (hE : E.IsSqrt) (goal : Node3D K) (p : Pose) :
    0 ≤ euclideanCost E goal p :=
  (hE _ (sumsq_nonneg _ _)).1

/-- The Euclidean estimate is consistent with the movement cost. -/
theorem euclideanCost_step (E : Ext K) (hE : E.IsSqrt) (goal : Node3D K) (p q : Pose) :
    euclideanCost E goal p ≤ stepCost E p q + euclideanCost E goal q := by
  rw [stepCost_eq]
  unfold euclideanCost
  have := sqrt_triangle E hE (p.x - q.x) (p.y - q.y) (q.x - goal.getX) (q.y - goal.getY)
  have e1 : p.x - q.x + (q.x - goal.getX) = p.x - goal.getX := by ring
  have e2 : p.y - q.y + (q.y - goal.getY) = p.y - goal.getY := by ring
  have e3 : (p.x - q.x) * (p.x - q.x) + (p.y - q.y) * (p.y - q.y)
      = (q.x - p.x) * (q.x - p.x) + (q.y - p.y) * (q.y - p.y) := by ring
  rw [e1, e2, e3] at this
  exact this

theorem euclideanCost_of_sameCell (E : Ext K) (goal : Node3D K) (p q : Pose)
    (h : p.sameCell q) : euclideanCost E goal p = euclideanCost E goal q := by
  unfold euclideanCost
  rw [h.1, h.2.1]

theorem costToGo_eq_euclideanCost (E : Ext K) (hE : E.IsSqrt) (P : Problem K) (p : Pose)
    (cg : Int → K) (hcg : ∀ i, cg i = 0) :
    ((p.node K).costToGo E P.goal P.oGrid cg).1 = euclideanCost E P.goal p := by
  rw [costToGo_fst, hcg, max_self]
  exact max_eq_left (euclideanCost_nonneg E hE P.goal p)

end Walks

end PathPlanner

namespace PathPlanner

/-! ## One pass of the loop -/

section LoopBody

set_option linter.unusedSectionVars false

variable {K : Type} [LinearOrderedField K]

theorem loopBody_empty (E : Ext K) (PQ : PriorityQueue (Node3D K) CompareNodes)
    (P : Problem K) (st : SearchState K PQ.Q) (hpop : PQ.pop st.O = none) :
    loopBody E PQ P st = Step.done Outcome.null := by
  simp [loopBody, hpop]

theorem loopBody_badHeading (E : Ext K) (PQ : PriorityQueue (Node3D K) CompareNodes)
    (P : Problem K) (st : SearchState K PQ.Q) (nPred : Node3D K) (O1 : PQ.Q)
    (hpop : PQ.pop st.O = some (nPred, O1)) (hb : dTat (toInt nPred.getT) = none) :
    loopBody E PQ P st = Step.done Outcome.undefined := by
  simp [loopBody, hpop, hb]

theorem index_eq_some (P : Problem K) (n : Node3D K) (b : Int)
    (hb : dTat (toInt n.getT) = some b) :
    P.index n.pose = some (b * P.width * P.height + n.getY * P.width + n.getX) := by
  simp [Problem.index, hb]

theorem loopBody_badIndex (E : Ext K) (PQ : PriorityQueue (Node3D K) CompareNodes)
    (P : Problem K) (st : SearchState K PQ.Q) (nPred : Node3D K) (O1 : PQ.Q) (b : Int)
    (hpop : PQ.pop st.O = some (nPred, O1)) (hb : dTat (toInt nPred.getT) = some b)
    (hidx : ¬ P.inTable (b * P.width * P.height + nPred.getY * P.width + nPred.getX)) :
    loopBody E PQ P st = Step.done Outcome.undefined := by
  simp [loopBody, hpop, hb, hidx]

theorem loopBody_drop (E : Ext K) (PQ : PriorityQueue (Node3D K) CompareNodes)
    (P : Problem K) (st : SearchState K PQ.Q) (nPred : Node3D K) (O1 : PQ.Q) (b : Int)
    (hpop : PQ.pop st.O = some (nPred, O1)) (hb : dTat (toInt nPred.getT) = some b)
    (hidx : P.inTable (b * P.width * P.height + nPred.getY * P.width + nPred.getX))
    (hcl : st.closed (b * P.width * P.height + nPred.getY * P.width + nPred.getX) = true) :
    loopBody E PQ P st = Step.next (st.drop PQ O1) := by
  simp [loopBody, hpop, hb, hidx, hcl, SearchState.drop]

theorem loopBody_found (E : Ext K) (PQ : PriorityQueue (Node3D K) CompareNodes)
    (P : Problem K) (st : SearchState K PQ.Q) (nPred : Node3D K) (O1 : PQ.Q) (b : Int)
    (hpop : PQ.pop st.O = some (nPred, O1)) (hb : dTat (toInt nPred.getT) = some b)
    (hidx : P.inTable (b * P.width * P.height + nPred.getY * P.width + nPred.getX))
    (hcl : st.closed (b * P.width * P.height + nPred.getY * P.width + nPred.getX) = false)
    (hgoal : nPred.eq P.goal = true) :
    loopBody E PQ P st = Step.done (Outcome.found nPred) := by
  simp [loopBody, hpop, hb, hidx, hcl, hgoal]

theorem loopBody_expand (E : Ext K) (PQ : PriorityQueue (Node3D K) CompareNodes)
    (P : Problem K) (st : SearchState K PQ.Q) (nPred : Node3D K) (O1 : PQ.Q) (b : Int)
    (hpop : PQ.pop st.O = some (nPred, O1)) (hb : dTat (toInt nPred.getT) = some b)
    (hidx : P.inTable (b * P.width * P.height + nPred.getY * P.width + nPred.getX))
    (hcl : st.closed (b * P.width * P.height + nPred.getY * P.width + nPred.getX) = false)
    (hgoal : nPred.eq P.goal = false) (st3 : SearchState K PQ.Q)
    (hex : expand E PQ P nPred nPred.getX nPred.getY (toInt nPred.getT) b
      (st.close PQ O1 (b * P.width * P.height + nPred.getY * P.width + nPred.getX))
        = some st3) :
    loopBody E PQ P st = Step.next st3 := by
  simp only [SearchState.close] at hex
  simp [loopBody, hpop, hb, hidx, hcl, hgoal, hex]

/-- Dropping a node whose lattice index is closed keeps the invariant. -/
theorem drop_inv (E : Ext K) (PQ : PriorityQueue (Node3D K) CompareNodes)
    (P : Problem K) (k0 : Int) (s : Node3D K) (cg : Int → K) (st : SearchState K PQ.Q)
    (CL : List (Node3D K)) (nPred : Node3D K) (O1 : PQ.Q) (idx : Int)
    (hinv : P.Inv E PQ k0 s cg st CL) (hcov : ∀ n ∈ CL, ∀ i, P.Covered E PQ st n i)
    (hpop : PQ.pop st.O = some (nPred, O1)) (hidx : P.index nPred.pose = some idx)
    (hcl : st.closed idx = true) :
    P.Inv E PQ k0 s cg (st.drop PQ O1) CL
      ∧ ∀ n ∈ CL, ∀ i, P.Covered E PQ (st.drop PQ O1) n i := by
  have hsub : ∀ m, m ∈ PQ.toList O1 → m ∈ PQ.toList st.O := fun m hm =>
    (mem_pop PQ st.O O1 nPred m hpop).2 (Or.inr hm)
  constructor
  · refine ⟨fun m hm => hinv.queue m (hsub m hm), hinv.closed_iff, hinv.closedNodes,
      hinv.start_mem, ?_, hinv.costGoal_eq⟩
    intro idx1 ho hc
    obtain ⟨m, hm, hmi, hmg⟩ := hinv.open_queue idx1 ho hc
    rcases (mem_pop PQ st.O O1 nPred m hpop).1 hm with rfl | hm1
    · exfalso
      rw [hidx] at hmi
      have : idx = idx1 := Option.some.inj hmi
      subst this
      have hc' : st.closed idx = false := hc
      rw [hcl] at hc'
      exact Bool.noConfusion hc'
    · exact ⟨m, hm1, hmi, hmg⟩
  · intro n hn i q hq hf
    rcases hcov n hn i q hq hf with h | ⟨m, hm, h1, h2⟩
    · exact Or.inl h
    · rcases (mem_pop PQ st.O O1 nPred m hpop).1 hm with rfl | hm1
      · left
        exact ⟨idx, by rw [← h1]; exact hidx, hcl⟩
      · exact Or.inr ⟨m, hm1, h1, h2⟩

/-- Closing the node taken from the open list keeps the invariant, with the node added to
the record of closed nodes. -/
theorem close_inv (E : Ext K) (PQ : PriorityQueue (Node3D K) CompareNodes)
    (P : Problem K) (k0 : Int) (s : Node3D K) (cg : Int → K) (st : SearchState K PQ.Q)
    (CL : List (Node3D K)) (nPred : Node3D K) (O1 : PQ.Q) (idx : Int)
    (hinv : P.Inv E PQ k0 s cg st CL) (hcov : ∀ n ∈ CL, ∀ i, P.Covered E PQ st n i)
    (hpop : PQ.pop st.O = some (nPred, O1)) (hidx : P.index nPred.pose = some idx)
    (hgoal : nPred.eq P.goal = false) :
    P.Inv E PQ k0 s cg (st.close PQ O1 idx) (nPred :: CL)
      ∧ ∀ n ∈ CL, ∀ i, P.Covered E PQ (st.close PQ O1 idx) n i := by
  have hmem : nPred ∈ PQ.toList st.O := (mem_pop PQ st.O O1 nPred nPred hpop).2 (Or.inl rfl)
  have hclosed : ∀ idx1, (st.close PQ O1 idx).closed idx1 = true
      ↔ (idx1 = idx ∨ st.closed idx1 = true) := by
    intro idx1
    by_cases he : idx1 = idx
    · subst he
      simp [SearchState.close]
    · simp [SearchState.close, Function.update_noteq he, he]
  constructor
  · refine ⟨fun m hm => hinv.queue m ((mem_pop PQ st.O O1 nPred m hpop).2 (Or.inr hm)), ?_, ?_,
      List.mem_cons_of_mem _ hinv.start_mem, ?_, hinv.costGoal_eq⟩
    · intro idx1
      rw [hclosed, hinv.closed_iff]
      constructor
      · rintro (rfl | ⟨n, hn, h⟩)
        · exact ⟨nPred, List.mem_cons_self _ _, hidx⟩
        · exact ⟨n, List.mem_cons_of_mem _ hn, h⟩
      · rintro ⟨n, hn, h⟩
        rcases List.mem_cons.1 hn with rfl | hn
        · left
          rw [hidx] at h
          exact (Option.some.inj h).symm
        · exact Or.inr ⟨n, hn, h⟩
    · intro n hn
      rcases List.mem_cons.1 hn with rfl | hn
      · exact ⟨Or.inr (hinv.queue _ hmem), hgoal⟩
      · exact hinv.closedNodes n hn
    · intro idx1 ho hc
      have hne : idx1 ≠ idx := by
        intro he
        subst he
        have := (hclosed idx1).2 (Or.inl rfl)
        rw [this] at hc
        exact Bool.noConfusion hc
      have ho1 : st.open_ idx1 = true := by
        simpa [SearchState.close, Function.update_noteq hne] using ho
      have hc1 : st.closed idx1 = false := by
        simpa [SearchState.close, Function.update_noteq hne] using hc
      obtain ⟨m, hm, hmi, hmg⟩ := hinv.open_queue idx1 ho1 hc1
      rcases (mem_pop PQ st.O O1 nPred m hpop).1 hm with rfl | hm1
      · exfalso
        rw [hidx] at hmi
        exact hne (Option.some.inj hmi).symm
      · exact ⟨m, hm1, hmi, by simpa [SearchState.close] using hmg⟩
  · intro n hn i q hq hf
    rcases hcov n hn i q hq hf with ⟨idx1, h1, h2⟩ | ⟨m, hm, h1, h2⟩
    · exact Or.inl ⟨idx1, h1, (hclosed idx1).2 (Or.inr h2)⟩
    · rcases (mem_pop PQ st.O O1 nPred m hpop).1 hm with rfl | hm1
      · left
        exact ⟨idx, by rw [← h1]; exact hidx, (hclosed idx).2 (Or.inl rfl)⟩
      · exact Or.inr ⟨m, hm1, h1, h2⟩

end LoopBody

end PathPlanner

namespace PathPlanner

/-! ## The frontier of the search -/

section Frontier

variable {K : Type} [LinearOrderedField K]

theorem filed_of_walk (P : Problem K) (k0 : Int) (p r : Pose) (l : List (Fin 3))
    (hp : P.Filed k0 p) (h : P.walk p l = some r) : P.Filed k0 r := by
  rcases walk_filed P k0 p r l hp h with ⟨_, rfl⟩ | ⟨hl, _⟩
  · exact hp
  · exact hl.1

theorem closed_of_mem (E : Ext K) (PQ : PriorityQueue (Node3D K) CompareNodes)
    (P : Problem K) (k0 : Int) (s : Node3D K) (cg : Int → K) (st : SearchState K PQ.Q)
    (CL : List (Node3D K)) (hs : P.Filed k0 s.pose) (hinv : P.Inv E PQ k0 s cg st CL)
    (n : Node3D K) (hn : n ∈ CL) :
    ∃ idx, P.index n.pose = some idx ∧ P.inTable idx ∧ st.closed idx = true := by
  have hf := filed_of_closed E P k0 s cg n hs (hinv.closedNodes n hn).1
  obtain ⟨b, idx, _, _, _, hi, _, ht⟩ := index_of_filed P k0 n.pose hf
  exact ⟨idx, hi, ht, (hinv.closed_iff idx).2 ⟨n, hn, hi⟩⟩

theorem mem_of_closed (E : Ext K) (PQ : PriorityQueue (Node3D K) CompareNodes)
    (P : Problem K) (k0 : Int) (s : Node3D K) (cg : Int → K) (st : SearchState K PQ.Q)
    (CL : List (Node3D K)) (hs : P.Filed k0 s.pose) (hinv : P.Inv E PQ k0 s cg st CL)
    (q : Pose) (hq : P.Filed k0 q) (idx : Int) (hi : P.index q = some idx)
    (hc : st.closed idx = true) :
    ∃ n ∈ CL, n.pose.sameCell q := by
  obtain ⟨n, hn, hni⟩ := (hinv.closed_iff idx).1 hc
  have hf := filed_of_closed E P k0 s cg n hs (hinv.closedNodes n hn).1
  exact ⟨n, hn, sameCell_of_index P k0 n.pose q hf hq (by rw [hni, hi])⟩

/-- Once the open list is empty, every pose that a walk from the start reaches shares its
lattice cell with a closed node. -/
theorem closed_of_walk (E : Ext K) (PQ : PriorityQueue (Node3D K) CompareNodes)
    (P : Problem K) (k0 : Int) (s : Node3D K) (cg : Int → K) (st : SearchState K PQ.Q)
    (CL : List (Node3D K)) (hs : P.Filed k0 s.pose) (hinv : P.Inv E PQ k0 s cg st CL)
    (hcov : ∀ n ∈ CL, ∀ i, P.Covered E PQ st n i) (hO : PQ.toList st.O = [])
    (moves : List (Fin 3)) (q : Pose) (hw : P.walk s.pose moves = some q) :
    ∃ n ∈ CL, n.pose.sameCell q := by
  induction moves using List.reverseRecOn generalizing q with
  | nil =>
    simp only [Problem.walk, Option.some.injEq] at hw
    subst hw
    exact ⟨s, hinv.start_mem, sameCell_refl _⟩
  | append_singleton l a ih =>
    obtain ⟨p, h1, h2, h3⟩ := walk_snoc_some P s.pose q l a hw
    obtain ⟨n, hn, hnp⟩ := ih p h1
    have hq : P.Filed k0 q := filed_of_walk P k0 s.pose q _ hs hw
    rw [← successor_of_sameCell n.pose p hnp a] at h2
    rcases hcov n hn a q h2 h3 with ⟨idx, hi, hc⟩ | ⟨m, hm, _, _⟩
    · exact mem_of_closed E PQ P k0 s cg st CL hs hinv q hq idx hi hc
    · rw [hO] at hm
      exact absurd hm (List.not_mem_nil _)

/-- The frontier lemma: a walk from the start to a pose whose lattice index is not closed
passes a node of the open list whose `g` plus Euclidean estimate is at most the cost of
the walk plus the estimate of its end. -/
theorem frontier (E : Ext K) (PQ : PriorityQueue (Node3D K) CompareNodes)
    (P : Problem K) (k0 : Int) (s : Node3D K) (cg : Int → K) (st : SearchState K PQ.Q)
    (CL : List (Node3D K)) (hE : E.IsSqrt) (hs : P.Filed k0 s.pose)
    (hinv : P.Inv E PQ k0 s cg st CL) (hcov : ∀ n ∈ CL, ∀ i, P.Covered E PQ st n i)
    (hset : ∀ n ∈ CL, P.Settled E s n) (moves : List (Fin 3)) (q : Pose)
    (hw : P.walk s.pose moves = some q) (idx : Int) (hi : P.index q = some idx)
    (hc : st.closed idx = false) :
    ∃ m ∈ PQ.toList st.O, m.getG + euclideanCost E P.goal m.pose
      ≤ s.getG + P.walkCost E s.pose moves + euclideanCost E P.goal q := by
  induction moves using List.reverseRecOn generalizing q idx with
  | nil =>
    exfalso
    simp only [Problem.walk, Option.some.injEq] at hw
    subst hw
    obtain ⟨idx1, h1, _, h2⟩ := closed_of_mem E PQ P k0 s cg st CL hs hinv s hinv.start_mem
    rw [hi] at h1
    have : idx = idx1 := Option.some.inj h1
    subst this
    rw [h2] at hc
    exact Bool.noConfusion hc
  | append_singleton l a ih =>
    obtain ⟨p, h1, h2, h3⟩ := walk_snoc_some P s.pose q l a hw
    have hp : P.Filed k0 p := filed_of_walk P k0 s.pose p _ hs h1
    obtain ⟨_, idxp, _, _, _, hip, _, _⟩ := index_of_filed P k0 p hp
    rw [walkCost_snoc E P s.pose p q l a h1 h2]
    by_cases hcp : st.closed idxp = true
    · obtain ⟨n, hn, hnp⟩ := mem_of_closed E PQ P k0 s cg st CL hs hinv p hp idxp hip hcp
      have h2' := h2
      rw [← successor_of_sameCell n.pose p hnp a] at h2'
      rcases hcov n hn a q h2' h3 with ⟨idx1, hi1, hc1⟩ | ⟨m, hm, hmq, hmg⟩
      · exfalso
        rw [hi] at hi1
        have : idx = idx1 := Option.some.inj hi1
        subst this
        rw [hc1] at hc
        exact Bool.noConfusion hc
      · refine ⟨m, hm, ?_⟩
        have hsettled := hset n hn l p h1 (sameCell_symm _ _ hnp)
        rw [stepCost_of_sameCell E n.pose p q hnp] at hmg
        rw [hmq]
        linarith
    · have hcp' : st.closed idxp = false := by simpa using hcp
      obtain ⟨m, hm, hmg⟩ := ih p h1 idxp hip hcp'
      refine ⟨m, hm, ?_⟩
      have := euclideanCost_step E hE P.goal p q
      linarith

theorem getC_eq (E : Ext K) (hE : E.IsSqrt) (P : Problem K) (k0 : Int) (s : Node3D K)
    (cg : Int → K) (hcg : ∀ i, cg i = 0) (m : Node3D K) (hm : P.NodeOK E k0 s cg m) :
    m.getC = m.getG + euclideanCost E P.goal m.pose := by
  unfold Node3D.getC
  rw [hm.h_eq, costToGo_eq_euclideanCost E hE P m.pose cg hcg]

/-- The node of least `g + h` on the open list whose lattice index is not closed is
settled. -/
theorem settled_of_min (E : Ext K) (PQ : PriorityQueue (Node3D K) CompareNodes)
    (P : Problem K) (k0 : Int) (s : Node3D K) (cg : Int → K) (st : SearchState K PQ.Q)
    (CL : List (Node3D K)) (hE : E.IsSqrt) (hcg : ∀ i, cg i = 0) (hs : P.Filed k0 s.pose)
    (hinv : P.Inv E PQ k0 s cg st CL) (hcov : ∀ n ∈ CL, ∀ i, P.Covered E PQ st n i)
    (hset : ∀ n ∈ CL, P.Settled E s n) (n : Node3D K) (hn : n ∈ PQ.toList st.O)
    (hmin : ∀ b ∈ PQ.toList st.O, n.getC ≤ b.getC) (idx : Int)
    (hi : P.index n.pose = some idx) (hc : st.closed idx = false) :
    P.Settled E s n := by
  intro moves q hw hq
  have hiq : P.index q = some idx := by rw [index_of_sameCell P q n.pose hq]; exact hi
  obtain ⟨m, hm, hmg⟩ := frontier E PQ P k0 s cg st CL hE hs hinv hcov hset moves q hw idx hiq hc
  have h1 := hmin m hm
  rw [getC_eq E hE P k0 s cg hcg n (hinv.queue n hn),
    getC_eq E hE P k0 s cg hcg m (hinv.queue m hm)] at h1
  rw [euclideanCost_of_sameCell E P.goal q n.pose hq] at hmg
  linarith

theorem euclideanCost_goal (E : Ext K) (hE : E.IsSqrt) (goal : Node3D K) (q : Pose)
    (h : (q.node K).eq goal = true) : euclideanCost E goal q = 0 := by
  simp only [Node3D.eq, Pose.node, getX_mk, getY_mk, getT_mk, Bool.and_eq_true,
    decide_eq_true_eq] at h
  unfold euclideanCost
  rw [h.1.1, h.1.2]
  simp [sqrt_zero E hE]

/-- The node that passes the goal test when it is taken from the open list is at most as
costly as any walk to a pose that passes the goal test and whose lattice index is not
closed. -/
theorem goal_optimal (E : Ext K) (PQ : PriorityQueue (Node3D K) CompareNodes)
    (P : Problem K) (k0 : Int) (s : Node3D K) (cg : Int → K) (st : SearchState K PQ.Q)
    (CL : List (Node3D K)) (hE : E.IsSqrt) (hcg : ∀ i, cg i = 0) (hs : P.Filed k0 s.pose)
    (hinv : P.Inv E PQ k0 s cg st CL) (hcov : ∀ n ∈ CL, ∀ i, P.Covered E PQ st n i)
    (hset : ∀ n ∈ CL, P.Settled E s n) (n : Node3D K) (hn : n ∈ PQ.toList st.O)
    (hmin : ∀ b ∈ PQ.toList st.O, n.getC ≤ b.getC) (moves : List (Fin 3)) (q : Pose)
    (hw : P.walk s.pose moves = some q) (hq : (q.node K).eq P.goal = true) :
    (∃ n1 ∈ CL, n1.pose.sameCell q) ∨ n.getG ≤ s.getG + P.walkCost E s.pose moves := by
  have hfq : P.Filed k0 q := filed_of_walk P k0 s.pose q _ hs hw
  obtain ⟨_, idx, _, _, _, hi, _, _⟩ := index_of_filed P k0 q hfq
  by_cases hc : st.closed idx = true
  · exact Or.inl (mem_of_closed E PQ P k0 s cg st CL hs hinv q hfq idx hi hc)
  · right
    have hc' : st.closed idx = false := by simpa using hc
    obtain ⟨m, hm, hmg⟩ :=
      frontier E PQ P k0 s cg st CL hE hs hinv hcov hset moves q hw idx hi hc'
    have h1 := hmin m hm
    rw [getC_eq E hE P k0 s cg hcg n (hinv.queue n hn),
      getC_eq E hE P k0 s cg hcg m (hinv.queue m hm)] at h1
    rw [euclideanCost_goal E hE P.goal q hq] at hmg
    have := euclideanCost_nonneg E hE P.goal n.pose
    linarith

end Frontier

end PathPlanner

namespace PathPlanner

/-! ## The loop -/

/-- The number of unclosed lattice indices depends on the table `closed` only. -/
theorem unclosed_congr {K : Type} (P : Problem K) (Q : Type) (st st1 : SearchState K Q)
    (h : st1.closed = st.closed) : st1.unclosed P = st.unclosed P := by
  unfold SearchState.unclosed
  rw [h]

section Loop

variable {K : Type} [LinearOrderedField K]

/-- One pass of the loop from a state that satisfies the invariant: the function returns
with an outcome that meets the postcondition, or the loop goes on in a state that satisfies
the invariant and has a smaller measure. -/
theorem pass_good (E : Ext K) (PQ : PriorityQueue (Node3D K) CompareNodes)
    (P : Problem K) (k0 : Int) (s : Node3D K) (cg : Int → K) (st : SearchState K PQ.Q)
    (hd : P.depth = 8) (hs : P.Filed k0 s.pose) (hgood : P.Good E PQ k0 s cg st) :
    (∃ r, loopBody E PQ P st = Step.done r ∧ P.Post E k0 s cg r)
      ∨ (∃ st1, loopBody E PQ P st = Step.next st1 ∧ P.Good E PQ k0 s cg st1
          ∧ st1.measure PQ P < st.measure PQ P) := by
  obtain ⟨CL, hinv, hcov, hset⟩ := hgood
  cases hpop : PQ.pop st.O with
  | none =>
    left
    refine ⟨Outcome.null, loopBody_empty E PQ P st hpop, ?_⟩
    intro moves q hw
    have hO := (PQ.pop_eq_none st.O).1 hpop
    obtain ⟨n, hn, hnq⟩ := closed_of_walk E PQ P k0 s cg st CL hs hinv hcov hO moves q hw
    exact ⟨n, (hinv.closedNodes n hn).1, (hinv.closedNodes n hn).2, hnq⟩
  | some pr =>
    obtain ⟨n, O1⟩ := pr
    have hmem : n ∈ PQ.toList st.O := (mem_pop PQ st.O O1 n n hpop).2 (Or.inl rfl)
    have hok := hinv.queue n hmem
    obtain ⟨b, idx, hb, _, _, hi, hidx, htab⟩ := index_of_filed P k0 n.pose hok.lattice.1
    simp only [pose_t, pose_x, pose_y] at hb hidx
    subst hidx
    have hlen := length_pop PQ st.O O1 n hpop
    by_cases hcl : st.closed (b * P.width * P.height + n.getY * P.width + n.getX) = true
    · right
      obtain ⟨h1, h2⟩ := drop_inv E PQ P k0 s cg st CL n O1 _ hinv hcov hpop hi hcl
      refine ⟨st.drop PQ O1, loopBody_drop E PQ P st n O1 b hpop hb htab hcl,
        ⟨CL, h1, h2, hset⟩, ?_⟩
      have hu : (st.drop PQ O1).unclosed P = st.unclosed P :=
        unclosed_congr P PQ.Q st (st.drop PQ O1) rfl
      have hO : (st.drop PQ O1).O = O1 := rfl
      unfold SearchState.measure
      rw [hu, hO]
      omega
    · have hcl' : st.closed (b * P.width * P.height + n.getY * P.width + n.getX) = false := by
        simpa using hcl
      have hmin : ∀ b ∈ PQ.toList st.O, n.getC ≤ b.getC := by
        intro b hb
        have h3 := PQ.pop_top st.O n O1 hpop b hb
        simpa [CompareNodes] using h3
      by_cases hgoal : n.eq P.goal = true
      · left
        have hne : P.index n.pose ≠ P.index s.pose := by
          intro he
          obtain ⟨idx1, h1, _, h2⟩ :=
            closed_of_mem E PQ P k0 s cg st CL hs hinv s hinv.start_mem
          rw [← he, hi] at h1
          rw [← Option.some.inj h1, hcl'] at h2
          exact Bool.noConfusion h2
        refine ⟨Outcome.found n, loopBody_found E PQ P st n O1 b hpop hb htab hcl' hgoal,
          Or.inr ⟨hok, hne⟩, hgoal, ?_⟩
        intro hE hcg moves q hw hq
        rcases goal_optimal E PQ P k0 s cg st CL hE hcg hs hinv hcov (hset hE hcg) n hmem hmin
          moves q hw hq with ⟨n1, hn1, hs1⟩ | h
        · exact Or.inl ⟨n1, (hinv.closedNodes n1 hn1).1, (hinv.closedNodes n1 hn1).2, hs1⟩
        · exact Or.inr h
      · right
        have hgoal' : n.eq P.goal = false := by simpa using hgoal
        obtain ⟨h1, h2⟩ := close_inv E PQ P k0 s cg st CL n O1 _ hinv hcov hpop hi hgoal'
        obtain ⟨st3, hex, h3, h4, h5, h6, h7⟩ :=
          expand_inv E PQ P k0 s cg _ (n :: CL) n b hd hs h1 (List.mem_cons_self _ _) hb
        refine ⟨st3, loopBody_expand E PQ P st n O1 b hpop hb htab hcl' hgoal' st3 hex,
          ⟨n :: CL, h3, ?_, ?_⟩, ?_⟩
        · intro n1 hn1 i
          rcases List.mem_cons.1 hn1 with rfl | hn1
          · exact h4 i
          · exact h5 n1 i (h2 n1 hn1 i)
        · intro hE hcg n1 hn1
          rcases List.mem_cons.1 hn1 with rfl | hn1
          · exact settled_of_min E PQ P k0 s cg st CL hE hcg hs hinv hcov (hset hE hcg) n1 hmem
              hmin _ hi hcl'
          · exact hset hE hcg n1 hn1
        · have hu1 := unclosed_update P PQ.Q st (st.close PQ O1
            (b * P.width * P.height + n.getY * P.width + n.getX)) _ htab hcl' rfl
          have hu2 := unclosed_congr P PQ.Q _ st3 h6
          have hO : (st.close PQ O1 (b * P.width * P.height + n.getY * P.width + n.getX)).O
              = O1 := rfl
          rw [hO] at h7
          unfold SearchState.measure
          omega

/-- The loop, run from a state that satisfies the invariant with more fuel than its
measure, returns with an outcome that meets the postcondition. -/
theorem iterate_post (E : Ext K) (PQ : PriorityQueue (Node3D K) CompareNodes)
    (P : Problem K) (k0 : Int) (s : Node3D K) (cg : Int → K) (hd : P.depth = 8)
    (hs : P.Filed k0 s.pose) (fuel : Nat) (st : SearchState K PQ.Q)
    (hgood : P.Good E PQ k0 s cg st) (hfuel : st.measure PQ P < fuel) :
    P.Post E k0 s cg (iterate E PQ P fuel st) := by
  induction fuel generalizing st with
  | zero => exact absurd hfuel (Nat.not_lt_zero _)
  | succ fuel ih =>
    rcases pass_good E PQ P k0 s cg st hd hs hgood with ⟨r, hr, hpost⟩ | ⟨st1, hst, hg, hm⟩
    · simp only [iterate, hr]
      exact hpost
    · simp only [iterate, hst]
      exact ih st1 hg (by omega)

end Loop

end PathPlanner

namespace PathPlanner

/-! ## The whole run -/

section Run

set_option linter.unusedSectionVars false

variable {K : Type} [LinearOrderedField K]

theorem pop_push_empty {α : Type} {comp : α → α → Bool} (PQ : PriorityQueue α comp) (a : α) :
    ∃ r, PQ.pop (PQ.push PQ.empty a) = some (a, r) ∧ PQ.toList r = [] := by
  have h1 : PQ.toList (PQ.push PQ.empty a) = [a] := by
    have := PQ.toList_push PQ.empty a
    rw [PQ.toList_empty] at this
    exact List.perm_singleton.1 this
  cases hpop : PQ.pop (PQ.push PQ.empty a) with
  | none =>
    have := (PQ.pop_eq_none _).1 hpop
    rw [h1] at this
    exact absurd this (by simp)
  | some pr =>
    obtain ⟨b, r⟩ := pr
    have hperm := PQ.pop_perm _ b r hpop
    rw [h1] at hperm
    have hlen := hperm.length_eq
    simp only [List.length_cons, List.length_nil] at hlen
    have hr : PQ.toList r = [] := List.length_eq_zero.1 (by omega)
    rw [hr] at hperm
    have hab : [a] = [b] := List.perm_singleton.1 hperm.symm ▸ rfl
    have : a = b := by simpa using hab
    subst this
    exact ⟨r, rfl, hr⟩

theorem iterate_next (E : Ext K) (PQ : PriorityQueue (Node3D K) CompareNodes)
    (P : Problem K) (fuel : Nat) (st st1 : SearchState K PQ.Q)
    (h : loopBody E PQ P st = Step.next st1) :
    iterate E PQ P (fuel + 1) st = iterate E PQ P fuel st1 := by
  simp only [iterate, h]

theorem iterate_done (E : Ext K) (PQ : PriorityQueue (Node3D K) CompareNodes)
    (P : Problem K) (fuel : Nat) (st : SearchState K PQ.Q) (r : Outcome K)
    (h : loopBody E PQ P st = Step.done r) : iterate E PQ P (fuel + 1) st = r := by
  simp only [iterate, h]

theorem filed_start (P : Problem K) (start : Node3D K) (hb : P.inBounds start.pose)
    (ht : 0 ≤ start.getT ∧ start.getT < 360) : P.Filed (toInt start.getT) start.pose := by
  obtain ⟨h0, h1⟩ := toInt_range start.getT ht.1 ht.2
  exact ⟨hb, h0, h1, rfl⟩

theorem initial_eq (E : Ext K) (PQ : PriorityQueue (Node3D K) CompareNodes) (P : Problem K)
    (start : Node3D K) (tb : Tables K) (b : Int) (hb : dTat (toInt start.getT) = some b)
    (hidx : P.inTable (b * P.width * P.height + start.getY * P.width + start.getX)) :
    initial E PQ P start tb
      = some
          { open_ := tb.open_
            closed := tb.closed
            cost := Function.update tb.cost
              (b * P.width * P.height + start.getY * P.width + start.getX)
              (startNode E P start tb).getG
            costToGo := tb.costToGo
            costGoal := tb.costGoal
            O := PQ.push PQ.empty (startNode E P start tb) } := by
  have hp : (startNode E P start tb).pose = start.pose := startNode_pose E P start tb
  have hT : (startNode E P start tb).getT = start.getT := congrArg Pose.t hp
  have hX : (startNode E P start tb).getX = start.getX := congrArg Pose.x hp
  have hY : (startNode E P start tb).getY = start.getY := congrArg Pose.y hp
  have hdef : ((start.updateG E start).updateH E P.goal P.oGrid tb.costGoal).1
      = startNode E P start tb := rfl
  unfold initial
  simp only [hdef, hT, hX, hY, hb, hidx, not_true_eq_false, if_false, updateH_snd]

theorem initial_none (E : Ext K) (PQ : PriorityQueue (Node3D K) CompareNodes)
    (P : Problem K) (start : Node3D K) (tb : Tables K)
    (h : dTat (toInt start.getT) = none ∨ ∃ b, dTat (toInt start.getT) = some b
      ∧ ¬ P.inTable (b * P.width * P.height + start.getY * P.width + start.getX)) :
    initial E PQ P start tb = none := by
  have hp : (startNode E P start tb).pose = start.pose := startNode_pose E P start tb
  have hT : (startNode E P start tb).getT = start.getT := congrArg Pose.t hp
  have hX : (startNode E P start tb).getX = start.getX := congrArg Pose.x hp
  have hY : (startNode E P start tb).getY = start.getY := congrArg Pose.y hp
  have hdef : ((start.updateG E start).updateH E P.goal P.oGrid tb.costGoal).1
      = startNode E P start tb := rfl
  unfold initial
  rcases h with h | ⟨b, hb, hidx⟩
  · simp only [hdef, hT, h]
  · simp only [hdef, hT, hX, hY, hb, hidx, not_false_eq_true, if_true]

/-- The run of `aStar` on a start inside the grid with heading in `[0, 360)`, `depth = 8` and
`open` and `closed` all false meets the postcondition. -/
theorem aStar_post (E : Ext K) (PQ : PriorityQueue (Node3D K) CompareNodes) (P : Problem K)
    (start : Node3D K) (tb : Tables K) (hd : P.depth = 8) (hb : P.inBounds start.pose)
    (ht : 0 ≤ start.getT ∧ start.getT < 360) (hopen : ∀ i, tb.open_ i = false)
    (hclosed : ∀ i, tb.closed i = false) :
    P.Post E (toInt start.getT) (startNode E P start tb) tb.costGoal
      (aStar E PQ P start tb) := by
  have hs0 := filed_start P start hb ht
  have hp : (startNode E P start tb).pose = start.pose := startNode_pose E P start tb
  have hs : P.Filed (toInt start.getT) (startNode E P start tb).pose := by rw [hp]; exact hs0
  obtain ⟨b, idx, hbt, _, _, hi, hidx, htab⟩ := index_of_filed P _ start.pose hs0
  simp only [pose_t, pose_x, pose_y] at hbt hidx
  subst hidx
  have hT : (startNode E P start tb).getT = start.getT := congrArg Pose.t hp
  have hX : (startNode E P start tb).getX = start.getX := congrArg Pose.x hp
  have hY : (startNode E P start tb).getY = start.getY := congrArg Pose.y hp
  unfold aStar
  rw [initial_eq E PQ P start tb b hbt htab]
  simp only
  generalize hst : ({ open_ := tb.open_
                      closed := tb.closed
                      cost := Function.update tb.cost
                        (b * P.width * P.height + start.getY * P.width + start.getX)
                        (startNode E P start tb).getG
                      costToGo := tb.costToGo
                      costGoal := tb.costGoal
                      O := PQ.push PQ.empty (startNode E P start tb) } :
                      SearchState K PQ.Q) = st0
  have hO : st0.O = PQ.push PQ.empty (startNode E P start tb) := by rw [← hst]
  have hcl0 : st0.closed = tb.closed := by rw [← hst]
  have hop0 : st0.open_ = tb.open_ := by rw [← hst]
  have hcg0 : st0.costGoal = tb.costGoal := by rw [← hst]
  obtain ⟨r, hpop, hr⟩ := pop_push_empty PQ (startNode E P start tb)
  rw [← hO] at hpop
  have hbs : dTat (toInt (startNode E P start tb).getT) = some b := by rw [hT]; exact hbt
  have htab' : P.inTable (b * P.width * P.height + (startNode E P start tb).getY * P.width
      + (startNode E P start tb).getX) := by rw [hX, hY]; exact htab
  have hcl : st0.closed (b * P.width * P.height + (startNode E P start tb).getY * P.width
      + (startNode E P start tb).getX) = false := by rw [hcl0]; exact hclosed _
  have his : P.index (startNode E P start tb).pose
      = some (b * P.width * P.height + (startNode E P start tb).getY * P.width
        + (startNode E P start tb).getX) := index_eq_some P _ b hbs
  show P.Post E (toInt start.getT) (startNode E P start tb) tb.costGoal
    (iterate E PQ P (3 * (P.width * P.height * 8).toNat + 1 + 1) st0)
  by_cases hgoal : (startNode E P start tb).eq P.goal = true
  · rw [iterate_done E PQ P _ st0 _ (loopBody_found E PQ P st0 _ r b hpop hbs htab' hcl hgoal)]
    refine ⟨Or.inl rfl, hgoal, ?_⟩
    intro hE _ moves q _ _
    right
    have := walkCost_nonneg E hE P (startNode E P start tb).pose moves
    linarith
  · have hgoal' : (startNode E P start tb).eq P.goal = false := by simpa using hgoal
    have hinv : P.Inv E PQ (toInt start.getT) (startNode E P start tb) tb.costGoal
        (st0.close PQ r (b * P.width * P.height + (startNode E P start tb).getY * P.width
          + (startNode E P start tb).getX)) [startNode E P start tb] := by
      refine ⟨?_, ?_, ?_, List.mem_singleton_self _, ?_, hcg0⟩
      · intro m hm
        have : (st0.close PQ r (b * P.width * P.height
            + (startNode E P start tb).getY * P.width + (startNode E P start tb).getX)).O
            = r := rfl
        rw [this, hr] at hm
        exact absurd hm (List.not_mem_nil _)
      · intro idx1
        simp only [SearchState.close, hcl0, List.mem_singleton, exists_eq_left, his,
          Option.some.injEq]
        by_cases he : idx1 = b * P.width * P.height + (startNode E P start tb).getY * P.width
            + (startNode E P start tb).getX
        · subst he
          simp
        · rw [Function.update_noteq he, hclosed]
          simp only [Bool.false_eq_true, false_iff]
          exact fun h => he h.symm
      · intro n hn
        rw [List.mem_singleton] at hn
        subst hn
        exact ⟨Or.inl rfl, hgoal'⟩
      · intro idx1 ho _
        exfalso
        simp only [SearchState.close, hop0] at ho
        by_cases he : idx1 = b * P.width * P.height + (startNode E P start tb).getY * P.width
            + (startNode E P start tb).getX
        · subst he
          simp at ho
        · rw [Function.update_noteq he, hopen] at ho
          exact Bool.noConfusion ho
    obtain ⟨st1, hex, h3, h4, _, h6, h7⟩ :=
      expand_inv E PQ P (toInt start.getT) (startNode E P start tb) tb.costGoal _
        [startNode E P start tb] (startNode E P start tb) b hd hs hinv
        (List.mem_singleton_self _) hbs
    rw [iterate_next E PQ P _ st0 st1
      (loopBody_expand E PQ P st0 _ r b hpop hbs htab' hcl hgoal' st1 hex)]
    refine iterate_post E PQ P (toInt start.getT) (startNode E P start tb) tb.costGoal hd hs _
      st1 ⟨[startNode E P start tb], h3, ?_, ?_⟩ ?_
    · intro n hn i
      rw [List.mem_singleton] at hn
      subst hn
      exact h4 i
    · intro hE _ n hn
      rw [List.mem_singleton] at hn
      subst hn
      intro moves q _ _
      have := walkCost_nonneg E hE P (startNode E P start tb).pose moves
      linarith
    · have hu1 := unclosed_update P PQ.Q st0 (st0.close PQ r
        (b * P.width * P.height + (startNode E P start tb).getY * P.width
          + (startNode E P start tb).getX)) _ htab' hcl rfl
      have hu2 := unclosed_congr P PQ.Q _ st1 h6
      have hu3 := unclosed_le P PQ.Q st0
      have hO1 : (st0.close PQ r (b * P.width * P.height
          + (startNode E P start tb).getY * P.width + (startNode E P start tb).getX)).O
          = r := rfl
      rw [hO1, hr] at h7
      simp only [List.length_nil] at h7
      unfold SearchState.measure
      omega

end Run

end PathPlanner

namespace PathPlanner

/-! ## Consequences for runs from a whole-number heading -/

section Whole

set_option linter.unusedSectionVars false

variable {K : Type} [LinearOrderedField K]

theorem walk_of_linked (E : Ext K) (P : Problem K) (s n : Node3D K)
    (h : P.Linked E s n) :
    ∃ moves, P.walk s.pose moves = some n.pose
      ∧ n.getG = s.getG + P.walkCost E s.pose moves := by
  induction h with
  | start => exact ⟨[], rfl, by simp [Problem.walkCost]⟩
  | step n m i _ _ hsucc hfree hg ih =>
    obtain ⟨moves, hw, hc⟩ := ih
    refine ⟨moves ++ [i], walk_snoc P s.pose n.pose m.pose moves i hw hsucc hfree, ?_⟩
    rw [walkCost_snoc E P s.pose n.pose m.pose moves i hw hsucc, hg, hc,
      movementCost_eq_stepCost, add_assoc]

theorem node_pose (p : Pose) : (p.node K).pose = p := rfl

theorem onLattice_start (P : Problem K) (start : Node3D K) (k : Int)
    (hb : P.inBounds start.pose) (hk : start.getT = (k : ℚ)) (hk0 : 0 ≤ k) (hk1 : k < 360) :
    P.OnLattice (toInt start.getT) start.pose := by
  have hti : toInt start.getT = k := by rw [hk, toInt_intCast]
  refine ⟨⟨hb, ?_, ?_, rfl⟩, ?_⟩
  · rw [pose_t, hti]; exact hk0
  · rw [pose_t, hti]; exact hk1
  · rw [pose_t, hti]; exact hk

theorem heading_range (k : Int) (hk0 : 0 ≤ k) (hk1 : k < 360) :
    0 ≤ (k : ℚ) ∧ (k : ℚ) < 360 := by
  constructor
  · exact_mod_cast hk0
  · exact_mod_cast hk1

/-- From a start with whole-number heading, a node that is the start node or was pushed and
shares the lattice cell of a pose reached by a walk is at that pose. -/
theorem pose_eq_of_sameCell (E : Ext K) (P : Problem K) (start : Node3D K) (tb : Tables K)
    (k : Int) (hb : P.inBounds start.pose) (hk : start.getT = (k : ℚ)) (hk0 : 0 ≤ k)
    (hk1 : k < 360) (n1 : Node3D K)
    (hn1 : n1 = startNode E P start tb
      ∨ P.NodeOK E (toInt start.getT) (startNode E P start tb) tb.costGoal n1)
    (moves : List (Fin 3)) (q : Pose) (hw : P.walk start.pose moves = some q)
    (hs : n1.pose.sameCell q) : n1.pose = q := by
  have hl := onLattice_start P start k hb hk hk0 hk1
  have hq : P.OnLattice (toInt start.getT) q := by
    rcases walk_filed P _ start.pose q moves hl.1 hw with ⟨_, rfl⟩ | ⟨h, _⟩
    · exact hl
    · exact h
  have hn : P.OnLattice (toInt start.getT) n1.pose := by
    rcases hn1 with rfl | h
    · rw [startNode_pose]; exact hl
    · exact h.lattice
  exact eq_of_sameCell P _ n1.pose q hn hq hs

/-- Completeness, the core: from a start inside the grid with a whole-number heading in
`[0, 360)`, with `depth = 8` and `open` and `closed` all false, the null pointer is returned
exactly when no walk reaches a pose that passes the goal test; otherwise a node is
returned. -/
theorem aStar_outcome (E : Ext K) (PQ : PriorityQueue (Node3D K) CompareNodes)
    (P : Problem K) (start : Node3D K) (tb : Tables K) (k : Int) (hd : P.depth = 8)
    (hb : P.inBounds start.pose) (hk : start.getT = (k : ℚ)) (hk0 : 0 ≤ k) (hk1 : k < 360)
    (hopen : ∀ i, tb.open_ i = false) (hclosed : ∀ i, tb.closed i = false) :
    (aStar E PQ P start tb = Outcome.null
        ∧ ∀ moves q, P.walk start.pose moves = some q → (q.node K).eq P.goal = false)
      ∨ (∃ n moves, aStar E PQ P start tb = Outcome.found n
          ∧ P.walk start.pose moves = some n.pose ∧ n.eq P.goal = true) := by
  have ht : 0 ≤ start.getT ∧ start.getT < 360 := by
    rw [hk]; exact heading_range k hk0 hk1
  have hpost := aStar_post E PQ P start tb hd hb ht hopen hclosed
  cases hr : aStar E PQ P start tb with
  | null =>
    left
    refine ⟨rfl, ?_⟩
    rw [hr] at hpost
    intro moves q hw
    have hw' : P.walk (startNode E P start tb).pose moves = some q := by
      rw [startNode_pose]; exact hw
    obtain ⟨n1, hn1, hfail, hsame⟩ := hpost moves q hw'
    have hpq := pose_eq_of_sameCell E P start tb k hb hk hk0 hk1 n1 hn1 moves q hw hsame
    rw [← hfail]
    exact eq_of_pose (q.node K) n1 P.goal (by rw [node_pose, hpq])
  | found n =>
    right
    rw [hr] at hpost
    obtain ⟨hn, hgoal, _⟩ := hpost
    have hlinked : P.Linked E (startNode E P start tb) n := by
      rcases hn with rfl | h
      · exact Problem.Linked.start
      · exact h.1.linked
    obtain ⟨moves, hw, _⟩ := walk_of_linked E P _ n hlinked
    rw [startNode_pose] at hw
    exact ⟨n, moves, rfl, hw, hgoal⟩
  | undefined =>
    rw [hr] at hpost
    exact absurd hpost (by simp [Problem.Post])
  | running =>
    rw [hr] at hpost
    exact absurd hpost (by simp [Problem.Post])

/-- Optimality, the core: under the conditions of `aStar_outcome`, exact `sqrt` and a zero
`costGoal` array, the `g` of the returned node is at most the `g` of the start node plus the
cost of any walk to a pose that passes the goal test. -/
theorem aStar_least (E : Ext K) (PQ : PriorityQueue (Node3D K) CompareNodes)
    (P : Problem K) (start : Node3D K) (tb : Tables K) (k : Int) (hE : E.IsSqrt)
    (hd : P.depth = 8) (hb : P.inBounds start.pose) (hk : start.getT = (k : ℚ))
    (hk0 : 0 ≤ k) (hk1 : k < 360) (hopen : ∀ i, tb.open_ i = false)
    (hclosed : ∀ i, tb.closed i = false) (hcg : ∀ i, tb.costGoal i = 0) (n : Node3D K)
    (hres : aStar E PQ P start tb = Outcome.found n) (moves : List (Fin 3)) (q : Pose)
    (hw : P.walk start.pose moves = some q) (hq : (q.node K).eq P.goal = true) :
    n.getG ≤ start.getG + P.walkCost E start.pose moves := by
  have ht : 0 ≤ start.getT ∧ start.getT < 360 := by
    rw [hk]; exact heading_range k hk0 hk1
  have hpost := aStar_post E PQ P start tb hd hb ht hopen hclosed
  rw [hres] at hpost
  obtain ⟨_, _, hopt⟩ := hpost
  have hw' : P.walk (startNode E P start tb).pose moves = some q := by
    rw [startNode_pose]; exact hw
  have hsg : (startNode E P start tb).getG = start.getG := by
    rw [startNode_eq, getG_mk, sqrt_zero E hE, add_zero]
  rcases hopt hE hcg moves q hw' hq with ⟨n1, hn1, hfail, hsame⟩ | h
  · exfalso
    have hpq := pose_eq_of_sameCell E P start tb k hb hk hk0 hk1 n1 hn1 moves q hw hsame
    have : (q.node K).eq P.goal = n1.eq P.goal :=
      eq_of_pose (q.node K) n1 P.goal (by rw [node_pose, hpq])
    rw [this, hfail] at hq
    exact Bool.noConfusion hq
  · rw [startNode_pose, hsg] at h
    exact h

end Whole

end PathPlanner

namespace PathPlanner

/-! ## Soundness of the returned node, for every input -/

section Sound

set_option linter.unusedSectionVars false

variable {K : Type} [LinearOrderedField K]

theorem successor_linked (E : Ext K) (PQ : PriorityQueue (Node3D K) CompareNodes)
    (P : Problem K) (s nPred : Node3D K) (j : Int) (st st1 : SearchState K PQ.Q) (i : Fin 3)
    (hj : dTat (toInt nPred.getT) = some j) (hn : P.Linked E s nPred)
    (hst : ∀ m ∈ PQ.toList st.O, P.Linked E s m)
    (h : successor E PQ P nPred nPred.getX nPred.getY (toInt nPred.getT) j st i = some st1) :
    ∀ m ∈ PQ.toList st1.O, P.Linked E s m := by
  obtain ⟨q, idx, b, hq, _, _, heq⟩ := successor_eq_gen E PQ P nPred j st i hj
  rw [heq] at h
  have h1 := Option.some.inj h
  by_cases hacc : P.free q ∧ b < P.depth ∧ st.closed idx = false
      ∧ (st.open_ idx = false ∨ nPred.getG + stepCost E nPred.pose q < st.cost idx)
  · rw [if_pos hacc] at h1
    subst h1
    intro m hm
    rcases (mem_push PQ st.O _ m).1 hm with rfl | hm
    · refine Problem.Linked.step nPred _ i hn rfl hq hacc.1 ?_
      rw [movementCost_eq_stepCost]
      rfl
    · exact hst m hm
  · rw [if_neg hacc] at h1
    subst h1
    exact hst

theorem expand_linked (E : Ext K) (PQ : PriorityQueue (Node3D K) CompareNodes)
    (P : Problem K) (s nPred : Node3D K) (j : Int) (st st1 : SearchState K PQ.Q)
    (hj : dTat (toInt nPred.getT) = some j) (hn : P.Linked E s nPred)
    (hst : ∀ m ∈ PQ.toList st.O, P.Linked E s m)
    (h : expand E PQ P nPred nPred.getX nPred.getY (toInt nPred.getT) j st = some st1) :
    ∀ m ∈ PQ.toList st1.O, P.Linked E s m := by
  rw [expand_eq] at h
  cases ha : successor E PQ P nPred nPred.getX nPred.getY (toInt nPred.getT) j st 0 with
  | none => rw [ha] at h; exact absurd h (by simp)
  | some a =>
    rw [ha, Option.some_bind] at h
    cases hb : successor E PQ P nPred nPred.getX nPred.getY (toInt nPred.getT) j a 1 with
    | none => rw [hb] at h; exact absurd h (by simp)
    | some b =>
      rw [hb, Option.some_bind] at h
      have h0 := successor_linked E PQ P s nPred j st a 0 hj hn hst ha
      have h1 := successor_linked E PQ P s nPred j a b 1 hj hn h0 hb
      exact successor_linked E PQ P s nPred j b st1 2 hj hn h1 h

/-- One pass of the loop, from any state whose open list holds only nodes that hang on the
start node: a returned node hangs on the start node and passes the goal test, and the open
list of the next state holds only nodes that hang on the start node. -/
theorem pass_linked (E : Ext K) (PQ : PriorityQueue (Node3D K) CompareNodes)
    (P : Problem K) (s : Node3D K) (st : SearchState K PQ.Q)
    (hst : ∀ m ∈ PQ.toList st.O, P.Linked E s m) :
    (∀ n, loopBody E PQ P st = Step.done (Outcome.found n) →
        P.Linked E s n ∧ n.eq P.goal = true)
      ∧ (∀ st1, loopBody E PQ P st = Step.next st1 →
        ∀ m ∈ PQ.toList st1.O, P.Linked E s m) := by
  cases hpop : PQ.pop st.O with
  | none =>
    rw [loopBody_empty E PQ P st hpop]
    exact ⟨fun n h => by simp at h, fun st1 h => by simp at h⟩
  | some pr =>
    obtain ⟨n, O1⟩ := pr
    have hmem : n ∈ PQ.toList st.O := (mem_pop PQ st.O O1 n n hpop).2 (Or.inl rfl)
    have hsub : ∀ m ∈ PQ.toList O1, P.Linked E s m := fun m hm =>
      hst m ((mem_pop PQ st.O O1 n m hpop).2 (Or.inr hm))
    cases hb : dTat (toInt n.getT) with
    | none =>
      rw [loopBody_badHeading E PQ P st n O1 hpop hb]
      exact ⟨fun n h => by simp at h, fun st1 h => by simp at h⟩
    | some b =>
      by_cases htab : P.inTable (b * P.width * P.height + n.getY * P.width + n.getX)
      · by_cases hcl : st.closed (b * P.width * P.height + n.getY * P.width + n.getX) = true
        · rw [loopBody_drop E PQ P st n O1 b hpop hb htab hcl]
          refine ⟨fun n h => by simp at h, fun st1 h => ?_⟩
          have : st.drop PQ O1 = st1 := by simpa using h
          subst this
          exact hsub
        · have hcl' : st.closed (b * P.width * P.height + n.getY * P.width + n.getX)
              = false := by simpa using hcl
          by_cases hgoal : n.eq P.goal = true
          · rw [loopBody_found E PQ P st n O1 b hpop hb htab hcl' hgoal]
            refine ⟨fun n1 h => ?_, fun st1 h => by simp at h⟩
            have : n = n1 := by simpa using h
            subst this
            exact ⟨hst n hmem, hgoal⟩
          · have hgoal' : n.eq P.goal = false := by simpa using hgoal
            cases hex : expand E PQ P n n.getX n.getY (toInt n.getT) b
                (st.close PQ O1 (b * P.width * P.height + n.getY * P.width + n.getX)) with
            | none =>
              have : loopBody E PQ P st = Step.done Outcome.undefined := by
                simp only [SearchState.close] at hex
                simp [loopBody, hpop, hb, htab, hcl', hgoal', hex]
              rw [this]
              exact ⟨fun n h => by simp at h, fun st1 h => by simp at h⟩
            | some st3 =>
              rw [loopBody_expand E PQ P st n O1 b hpop hb htab hcl' hgoal' st3 hex]
              refine ⟨fun n h => by simp at h, fun st1 h => ?_⟩
              have : st3 = st1 := by simpa using h
              subst this
              exact expand_linked E PQ P s n b _ st3 hb (hst n hmem) hsub hex
      · rw [loopBody_badIndex E PQ P st n O1 b hpop hb htab]
        exact ⟨fun n h => by simp at h, fun st1 h => by simp at h⟩

theorem iterate_linked (E : Ext K) (PQ : PriorityQueue (Node3D K) CompareNodes)
    (P : Problem K) (s : Node3D K) (fuel : Nat) (st : SearchState K PQ.Q)
    (hst : ∀ m ∈ PQ.toList st.O, P.Linked E s m) (n : Node3D K)
    (h : iterate E PQ P fuel st = Outcome.found n) :
    P.Linked E s n ∧ n.eq P.goal = true := by
  induction fuel generalizing st with
  | zero => simp [iterate] at h
  | succ fuel ih =>
    obtain ⟨h1, h2⟩ := pass_linked E PQ P s st hst
    cases hl : loopBody E PQ P st with
    | done r =>
      rw [iterate_done E PQ P fuel st r hl] at h
      subst h
      exact h1 n hl
    | next st1 =>
      rw [iterate_next E PQ P fuel st st1 hl] at h
      exact ih st1 (h2 st1 hl) h

/-- Whatever the input, a node returned by `aStar` hangs on the start node as pushed and
passes the goal test. -/
theorem aStar_linked (E : Ext K) (PQ : PriorityQueue (Node3D K) CompareNodes)
    (P : Problem K) (start : Node3D K) (tb : Tables K) (n : Node3D K)
    (h : aStar E PQ P start tb = Outcome.found n) :
    P.Linked E (startNode E P start tb) n ∧ n.eq P.goal = true := by
  unfold aStar at h
  cases hb : dTat (toInt start.getT) with
  | none =>
    rw [initial_none E PQ P start tb (Or.inl hb)] at h
    simp at h
  | some b =>
    by_cases htab : P.inTable (b * P.width * P.height + start.getY * P.width + start.getX)
    · rw [initial_eq E PQ P start tb b hb htab] at h
      simp only at h
      refine iterate_linked E PQ P _ _ _ ?_ n h
      intro m hm
      have : m = startNode E P start tb := by
        have h1 := (mem_push PQ PQ.empty (startNode E P start tb) m).1 hm
        rw [PQ.toList_empty] at h1
        simpa using h1
      subst this
      exact Problem.Linked.start
    · rw [initial_none E PQ P start tb (Or.inr ⟨b, hb, htab⟩)] at h
      simp at h

end Sound

end PathPlanner

namespace PathPlanner

/-! ## Runs that end after the first node -/

section Short

set_option linter.unusedSectionVars false

variable {K : Type} [LinearOrderedField K]

/-- If the start passes the goal test and its lattice index is not closed, the start node is
returned. -/
theorem aStar_of_start_goal (E : Ext K) (PQ : PriorityQueue (Node3D K) CompareNodes)
    (P : Problem K) (start : Node3D K) (tb : Tables K) (hb : P.inBounds start.pose)
    (ht : 0 ≤ start.getT ∧ start.getT < 360) (hclosed : ∀ i, tb.closed i = false)
    (hgoal : start.eq P.goal = true) :
    aStar E PQ P start tb = Outcome.found (startNode E P start tb) := by
  have hs0 := filed_start P start hb ht
  have hp : (startNode E P start tb).pose = start.pose := startNode_pose E P start tb
  obtain ⟨b, idx, hbt, _, _, _, hidx, htab⟩ := index_of_filed P _ start.pose hs0
  simp only [pose_t, pose_x, pose_y] at hbt hidx
  subst hidx
  have hT : (startNode E P start tb).getT = start.getT := congrArg Pose.t hp
  have hX : (startNode E P start tb).getX = start.getX := congrArg Pose.x hp
  have hY : (startNode E P start tb).getY = start.getY := congrArg Pose.y hp
  unfold aStar
  rw [initial_eq E PQ P start tb b hbt htab]
  simp only
  obtain ⟨r, hpop, _⟩ := pop_push_empty PQ (startNode E P start tb)
  show iterate E PQ P (3 * (P.width * P.height * 8).toNat + 1 + 1) _ = _
  refine iterate_done E PQ P _ _ _ (loopBody_found E PQ P _ _ r b hpop ?_ ?_ ?_ ?_)
  · rw [hT]; exact hbt
  · rw [hX, hY]; exact htab
  · exact hclosed _
  · rw [eq_of_pose _ start P.goal hp]; exact hgoal

theorem successor_blocked (E : Ext K) (PQ : PriorityQueue (Node3D K) CompareNodes)
    (P : Problem K) (nPred : Node3D K) (j : Int) (st : SearchState K PQ.Q) (i : Fin 3)
    (hj : dTat (toInt nPred.getT) = some j)
    (hadj : ∀ x y : Int, 0 ≤ x ∧ x < P.width ∧ 0 ≤ y ∧ y < P.height →
      (x ≠ nPred.getX ∨ y ≠ nPred.getY) → |x - nPred.getX| ≤ 1 → |y - nPred.getY| ≤ 1 →
      P.oGrid.data (y * P.width + x) ≠ 0) :
    successor E PQ P nPred nPred.getX nPred.getY (toInt nPred.getT) j st i = some st := by
  obtain ⟨q, idx, b, hq, _, _, heq⟩ := successor_eq_gen E PQ P nPred j st i hj
  rw [heq, if_neg]
  rintro ⟨⟨hin, hocc⟩, _⟩
  obtain ⟨hj0, hj8⟩ := dTat_range _ _ hj
  have hq' : q = ⟨nPred.getX + dXat j i, nPred.getY + dYat j i,
      ((tSuccOf (toInt nPred.getT) i : Int) : ℚ)⟩ := by
    have : nPred.pose.successor i = some ⟨nPred.getX + dXat j i, nPred.getY + dYat j i,
        ((tSuccOf (toInt nPred.getT) i : Int) : ℚ)⟩ := by
      simp [Pose.successor, hj]
    rw [hq] at this
    exact Option.some.inj this
  subst hq'
  obtain ⟨hx, hy, hne⟩ := dXat_abs j hj0 hj8 i
  refine hadj _ _ hin ?_ ?_ ?_ hocc
  · rcases hne with h | h
    · left; simp only; omega
    · right; simp only; omega
  · simp only [add_sub_cancel_left]
    rcases hx with h | h | h <;> rw [h] <;> decide
  · simp only [add_sub_cancel_left]
    rcases hy with h | h | h <;> rw [h] <;> decide

/-- If the start fails the goal test and every in-bounds cell next to the start cell is
occupied, the null pointer is returned, whatever the arrays hold. -/
theorem aStar_of_blocked (E : Ext K) (PQ : PriorityQueue (Node3D K) CompareNodes)
    (P : Problem K) (start : Node3D K) (tb : Tables K) (hb : P.inBounds start.pose)
    (ht : 0 ≤ start.getT ∧ start.getT < 360) (hgoal : start.eq P.goal = false)
    (hadj : ∀ x y : Int, 0 ≤ x ∧ x < P.width ∧ 0 ≤ y ∧ y < P.height →
      (x ≠ start.getX ∨ y ≠ start.getY) → |x - start.getX| ≤ 1 → |y - start.getY| ≤ 1 →
      P.oGrid.data (y * P.width + x) ≠ 0) :
    aStar E PQ P start tb = Outcome.null := by
  have hs0 := filed_start P start hb ht
  have hp : (startNode E P start tb).pose = start.pose := startNode_pose E P start tb
  obtain ⟨b, idx, hbt, _, _, _, hidx, htab⟩ := index_of_filed P _ start.pose hs0
  simp only [pose_t, pose_x, pose_y] at hbt hidx
  subst hidx
  have hT : (startNode E P start tb).getT = start.getT := congrArg Pose.t hp
  have hX : (startNode E P start tb).getX = start.getX := congrArg Pose.x hp
  have hY : (startNode E P start tb).getY = start.getY := congrArg Pose.y hp
  have hbs : dTat (toInt (startNode E P start tb).getT) = some b := by rw [hT]; exact hbt
  have htab' : P.inTable (b * P.width * P.height + (startNode E P start tb).getY * P.width
      + (startNode E P start tb).getX) := by rw [hX, hY]; exact htab
  have hgoal' : (startNode E P start tb).eq P.goal = false := by
    rw [eq_of_pose _ start P.goal hp]; exact hgoal
  have hadj' : ∀ x y : Int, 0 ≤ x ∧ x < P.width ∧ 0 ≤ y ∧ y < P.height →
      (x ≠ (startNode E P start tb).getX ∨ y ≠ (startNode E P start tb).getY) →
      |x - (startNode E P start tb).getX| ≤ 1 → |y - (startNode E P start tb).getY| ≤ 1 →
      P.oGrid.data (y * P.width + x) ≠ 0 := by
    rw [hX, hY]; exact hadj
  unfold aStar
  rw [initial_eq E PQ P start tb b hbt htab]
  simp only
  generalize hst : ({ open_ := tb.open_
                      closed := tb.closed
                      cost := Function.update tb.cost
                        (b * P.width * P.height + start.getY * P.width + start.getX)
                        (startNode E P start tb).getG
                      costToGo := tb.costToGo
                      costGoal := tb.costGoal
                      O := PQ.push PQ.empty (startNode E P start tb) } :
                      SearchState K PQ.Q) = st0
  have hO : st0.O = PQ.push PQ.empty (startNode E P start tb) := by rw [← hst]
  obtain ⟨r, hpop, hr⟩ := pop_push_empty PQ (startNode E P start tb)
  rw [← hO] at hpop
  have hrpop : PQ.pop r = none := (PQ.pop_eq_none r).2 hr
  show iterate E PQ P (3 * (P.width * P.height * 8).toNat + 1 + 1) st0 = _
  by_cases hcl : st0.closed (b * P.width * P.height
      + (startNode E P start tb).getY * P.width + (startNode E P start tb).getX) = true
  · rw [iterate_next E PQ P _ st0 _ (loopBody_drop E PQ P st0 _ r b hpop hbs htab' hcl)]
    exact iterate_done E PQ P _ _ _ (loopBody_empty E PQ P _ hrpop)
  · have hcl' : st0.closed (b * P.width * P.height
        + (startNode E P start tb).getY * P.width + (startNode E P start tb).getX)
        = false := by simpa using hcl
    have hex : expand E PQ P (startNode E P start tb) (startNode E P start tb).getX
        (startNode E P start tb).getY (toInt (startNode E P start tb).getT) b
        (st0.close PQ r (b * P.width * P.height + (startNode E P start tb).getY * P.width
          + (startNode E P start tb).getX))
        = some (st0.close PQ r (b * P.width * P.height
          + (startNode E P start tb).getY * P.width + (startNode E P start tb).getX)) := by
      rw [expand_eq, successor_blocked E PQ P _ b _ 0 hbs hadj', Option.some_bind,
        successor_blocked E PQ P _ b _ 1 hbs hadj', Option.some_bind,
        successor_blocked E PQ P _ b _ 2 hbs hadj']
    rw [iterate_next E PQ P _ st0 _
      (loopBody_expand E PQ P st0 _ r b hpop hbs htab' hcl' hgoal' _ hex)]
    exact iterate_done E PQ P _ _ _ (loopBody_empty E PQ P _ hrpop)

end Short

end PathPlanner

namespace PathPlanner

/-! ## Straight runs -/

section Straight

set_option linter.unusedSectionVars false

variable {K : Type} [LinearOrderedField K]

theorem sqrt_one (E : Ext K) (hE : E.IsSqrt) : E.sqrt 1 = 1 := by
  obtain ⟨h0, h1⟩ := hE 1 (by decide)
  have h2 : E.sqrt 1 * E.sqrt 1 = 1 := by simpa using h1
  have h3 : (E.sqrt 1 - 1) * (E.sqrt 1 + 1) = 0 := by linear_combination h2
  rcases mul_eq_zero.1 h3 with h | h
  · linarith
  · linarith

theorem one_le_sqrt (E : Ext K) (hE : E.IsSqrt) (n : Int) (hn : 1 ≤ n) : 1 ≤ E.sqrt n := by
  obtain ⟨h0, h1⟩ := hE n (by omega)
  by_contra h
  have hlt : E.sqrt n < 1 := not_le.1 h
  have : E.sqrt n * E.sqrt n < 1 * 1 := mul_self_lt_mul_self h0 hlt
  rw [h1] at this
  have hn' : (1 : K) ≤ (n : K) := by exact_mod_cast hn
  linarith

theorem chain_of_pred (n m : Node3D K) (h : m.getPred = some n) : m.chain = m :: n.chain := by
  cases m with
  | mk x y t g h1 p =>
    simp only [getPred_mk] at h
    subst h
    rfl

theorem chain_of_none (m : Node3D K) (h : m.getPred = none) : m.chain = [m] := by
  cases m with
  | mk x y t g h1 p =>
    simp only [getPred_mk] at h
    subst h
    rfl

theorem step_bounds (E : Ext K) (hE : E.IsSqrt) (P : Problem K) (k0 : Int) (p q : Pose)
    (i : Fin 3) (hp : P.Filed k0 p) (h : p.successor i = some q) :
    q.x ≤ p.x + 1 ∧ 1 ≤ stepCost E p q := by
  obtain ⟨j, _, hj0, hj8, hs⟩ := successor_of_filed P k0 p hp i
  rw [hs] at h
  have hq := (Option.some.inj h).symm
  subst hq
  obtain ⟨hx, hy, hne⟩ := dXat_abs j hj0 hj8 i
  constructor
  · simp only
    omega
  · rw [stepCost_eq]
    apply one_le_sqrt E hE
    simp only [add_sub_cancel_left]
    rcases hx with h1 | h1 | h1 <;> rcases hy with h2 | h2 | h2 <;> rw [h1, h2] <;>
      first
        | decide
        | (exfalso; rcases hne with h3 | h3 <;> [exact h3 h1; exact h3 h2])

/-- Along the predecessor chain of a node, `x` grows by at most one per step and `g` by at
least one; when `x` has grown as much as `g`, it has grown at every step. -/
theorem chain_straight (E : Ext K) (hE : E.IsSqrt) (P : Problem K) (k0 : Int)
    (s m : Node3D K) (hs : P.Filed k0 s.pose) (hsp : s.getPred = none)
    (h : P.Linked E s m) :
    P.Filed k0 m.pose ∧ ((m.getX - s.getX : Int) : K) ≤ m.getG - s.getG
      ∧ (((m.getX - s.getX : Int) : K) = m.getG - s.getG →
          (m.chain.map Node3D.getX).Pairwise (fun a b => b < a)
            ∧ (∀ c ∈ m.chain, c.getX ≤ m.getX) ∧ ∀ c ∈ m.chain, P.Filed k0 c.pose) := by
  induction h with
  | start =>
    refine ⟨hs, by simp, fun _ => ?_⟩
    rw [chain_of_none s hsp]
    refine ⟨by simp, ?_, ?_⟩
    · intro c hc
      rw [List.mem_singleton] at hc
      subst hc
      exact le_refl _
    · intro c hc
      rw [List.mem_singleton] at hc
      subst hc
      exact hs
  | step n m i _ hpred hsucc hfree hg ih =>
    obtain ⟨hfn, hle, heq⟩ := ih
    have hfm : P.Filed k0 m.pose := (onLattice_of_successor P k0 n.pose m.pose hfn i hsucc
      hfree.1).1
    obtain ⟨hx, hc⟩ := step_bounds E hE P k0 n.pose m.pose i hfn hsucc
    simp only [pose_x] at hx
    rw [movementCost_eq_stepCost] at hg
    have hxK : ((m.getX - s.getX : Int) : K) ≤ ((n.getX - s.getX : Int) : K) + 1 := by
      have : m.getX - s.getX ≤ (n.getX - s.getX) + 1 := by omega
      exact_mod_cast this
    refine ⟨hfm, by rw [hg]; linarith, ?_⟩
    intro hequal
    have hneq : ((n.getX - s.getX : Int) : K) = n.getG - s.getG := by
      rw [hg] at hequal
      linarith
    have hxeq : m.getX = n.getX + 1 := by
      have h1 : ((m.getX - s.getX : Int) : K) = ((n.getX - s.getX : Int) : K) + 1 := by
        rw [hg] at hequal
        linarith
      have h2 : m.getX - s.getX = (n.getX - s.getX) + 1 := by exact_mod_cast h1
      omega
    obtain ⟨hpw, hmax, hfil⟩ := heq hneq
    rw [chain_of_pred n m hpred]
    refine ⟨?_, ?_, ?_⟩
    · rw [List.map_cons, List.pairwise_cons]
      refine ⟨?_, hpw⟩
      intro a ha
      obtain ⟨c, hc1, hc2⟩ := List.mem_map.1 ha
      have := hmax c hc1
      omega
    · intro c hc1
      rcases List.mem_cons.1 hc1 with rfl | hc1
      · exact le_refl _
      · have := hmax c hc1
        omega
    · intro c hc1
      rcases List.mem_cons.1 hc1 with rfl | hc1
      · exact hfm
      · exact hfil c hc1

theorem index_nodup_of_straight (P : Problem K) (k0 : Int) (l : List (Node3D K))
    (hpw : (l.map Node3D.getX).Pairwise (fun a b => b < a))
    (hfil : ∀ c ∈ l, P.Filed k0 c.pose) :
    (l.map fun m => P.index m.pose).Nodup := by
  induction l with
  | nil => simp
  | cons a l ih =>
    rw [List.map_cons, List.pairwise_cons] at hpw
    rw [List.map_cons, List.nodup_cons]
    refine ⟨?_, ih hpw.2 (fun c hc => hfil c (List.mem_cons_of_mem _ hc))⟩
    intro hmem
    obtain ⟨c, hc1, hc2⟩ := List.mem_map.1 hmem
    have hsame := sameCell_of_index P k0 c.pose a.pose (hfil c (List.mem_cons_of_mem _ hc1))
      (hfil a (List.mem_cons_self _ _)) hc2
    have hlt := hpw.1 c.getX (List.mem_map.2 ⟨c, hc1, rfl⟩)
    have : c.getX = a.getX := hsame.1
    omega

end Straight

end PathPlanner

namespace PathPlanner

/-! ## The spec's example on the open grid -/

section OpenGrid

set_option linter.unusedSectionVars false

variable {K : Type} [LinearOrderedField K]

theorem walkCost_cons (E : Ext K) (P : Problem K) (p q : Pose) (i : Fin 3)
    (l : List (Fin 3)) (h : p.successor i = some q) :
    P.walkCost E p (i :: l) = stepCost E p q + P.walkCost E q l := by
  simp only [Problem.walkCost, h]

theorem openGrid_walk (goal : Node3D K) (len : Int) :
    (openGrid goal len).walk ⟨0, 0, 0⟩ [1, 1, 1, 1] = some ⟨4, 0, 0⟩ := by
  rfl

theorem openGrid_walkCost (E : Ext K) (hE : E.IsSqrt) (goal : Node3D K) (len : Int) :
    (openGrid goal len).walkCost E ⟨0, 0, 0⟩ [1, 1, 1, 1] = 4 := by
  have h1 : (⟨0, 0, 0⟩ : Pose).successor 1 = some ⟨1, 0, 0⟩ := by decide
  have h2 : (⟨1, 0, 0⟩ : Pose).successor 1 = some ⟨2, 0, 0⟩ := by decide
  have h3 : (⟨2, 0, 0⟩ : Pose).successor 1 = some ⟨3, 0, 0⟩ := by decide
  have h4 : (⟨3, 0, 0⟩ : Pose).successor 1 = some ⟨4, 0, 0⟩ := by decide
  rw [walkCost_cons E _ _ _ 1 _ h1, walkCost_cons E _ _ _ 1 _ h2,
    walkCost_cons E _ _ _ 1 _ h3, walkCost_cons E _ _ _ 1 _ h4]
  simp only [Problem.walkCost, stepCost_eq]
  norm_num [sqrt_one E hE]

theorem goal_pose_passes (x y : Int) (t : ℚ) (g h : K) (p : Option (Node3D K)) :
    ((⟨x, y, t⟩ : Pose).node K).eq (Node3D.mk x y t g h p) = true := by
  rw [eq_true_iff]
  simp only [Pose.node, getX_mk, getY_mk, getT_mk, sub_self, abs_zero, true_and]
  norm_num

/-- The run on the open grid returns a node with `g = 4` whose predecessor chain visits no
lattice index twice. -/
theorem openGrid_run (E : Ext K) (hE : E.IsSqrt)
    (PQ : PriorityQueue (Node3D K) CompareNodes) (goalG goalH startH : K)
    (goalPred : Option (Node3D K)) (len : Int) (cost costToGo : Int → K) :
    ∃ n, aStar E PQ (openGrid (Node3D.mk 4 0 0 goalG goalH goalPred) len)
          (Node3D.mk 0 0 0 0 startH none) (freshTables cost costToGo) = Outcome.found n
      ∧ n.getG = 4
      ∧ (n.chain.map fun m =>
          (openGrid (Node3D.mk 4 0 0 goalG goalH goalPred) len).index m.pose).Nodup := by
  have hb : (openGrid (Node3D.mk 4 0 0 goalG goalH goalPred) len).inBounds
      (Node3D.mk 0 0 0 0 startH none : Node3D K).pose := by
    simp [Problem.inBounds, openGrid]
  have hk : (Node3D.mk 0 0 0 0 startH none : Node3D K).getT = ((0 : Int) : ℚ) := by simp
  have hw := openGrid_walk (Node3D.mk 4 0 0 goalG goalH goalPred : Node3D K) len
  have hq : ((⟨4, 0, 0⟩ : Pose).node K).eq
      (openGrid (Node3D.mk 4 0 0 goalG goalH goalPred) len).goal = true :=
    goal_pose_passes 4 0 0 goalG goalH goalPred
  rcases aStar_outcome E PQ (openGrid (Node3D.mk 4 0 0 goalG goalH goalPred) len)
      (Node3D.mk 0 0 0 0 startH none) (freshTables cost costToGo) 0 rfl hb hk (le_refl _)
      (by decide) (fun _ => rfl) (fun _ => rfl) with ⟨_, hall⟩ | ⟨n, _, hres, _, hgoal⟩
  · exfalso
    have := hall [1, 1, 1, 1] ⟨4, 0, 0⟩ hw
    rw [hq] at this
    exact Bool.noConfusion this
  · refine ⟨n, hres, ?_⟩
    have hle := aStar_least E PQ (openGrid (Node3D.mk 4 0 0 goalG goalH goalPred) len)
      (Node3D.mk 0 0 0 0 startH none) (freshTables cost costToGo) 0 hE rfl hb hk (le_refl _)
      (by decide) (fun _ => rfl) (fun _ => rfl) (fun _ => rfl) n hres [1, 1, 1, 1] ⟨4, 0, 0⟩
      hw hq
    have hwc := openGrid_walkCost E hE (Node3D.mk 4 0 0 goalG goalH goalPred : Node3D K) len
    have hwc' : (openGrid (Node3D.mk 4 0 0 goalG goalH goalPred) len).walkCost E
        (Node3D.mk 0 0 0 0 startH none : Node3D K).pose [1, 1, 1, 1] = 4 := hwc
    rw [hwc', getG_mk, zero_add] at hle
    obtain ⟨hlinked, _⟩ := aStar_linked E PQ _ _ _ n hres
    have hsf : (openGrid (Node3D.mk 4 0 0 goalG goalH goalPred) len).Filed 0
        (startNode E (openGrid (Node3D.mk 4 0 0 goalG goalH goalPred) len)
          (Node3D.mk 0 0 0 0 startH none) (freshTables cost costToGo)).pose := by
      rw [startNode_pose]
      exact ⟨hb, by simp [toInt], by simp [toInt], rfl⟩
    have hsp : (startNode E (openGrid (Node3D.mk 4 0 0 goalG goalH goalPred) len)
        (Node3D.mk 0 0 0 0 startH none) (freshTables cost costToGo)).getPred = none := by
      rw [startNode_eq]; rfl
    have hsg : (startNode E (openGrid (Node3D.mk 4 0 0 goalG goalH goalPred) len)
        (Node3D.mk 0 0 0 0 startH none) (freshTables cost costToGo)).getG = 0 := by
      rw [startNode_eq, getG_mk, getG_mk, sqrt_zero E hE, add_zero]
    have hsx : (startNode E (openGrid (Node3D.mk 4 0 0 goalG goalH goalPred) len)
        (Node3D.mk 0 0 0 0 startH none) (freshTables cost costToGo)).getX = 0 := by
      rw [startNode_eq]; rfl
    obtain ⟨_, hge, hstraight⟩ := chain_straight E hE _ 0 _ n hsf hsp hlinked
    have hnx : n.getX = 4 := by
      simp only [Node3D.eq, Bool.and_eq_true, decide_eq_true_eq] at hgoal
      exact hgoal.1.1
    rw [hsx, hsg, hnx] at hge hstraight
    have h4 : (4 : K) ≤ n.getG := by
      have : (((4 : Int) - 0 : Int) : K) = 4 := by norm_num
      rw [this] at hge
      linarith
    have hg4 : n.getG = 4 := le_antisymm hle h4
    refine ⟨hg4, ?_⟩
    have heq : (((4 : Int) - 0 : Int) : K) = n.getG - 0 := by
      rw [hg4]; norm_num
    obtain ⟨hpw, _, hfil⟩ := hstraight heq
    exact index_nodup_of_straight _ 0 n.chain hpw hfil

end OpenGrid

end PathPlanner

namespace PathPlanner

/-! ## A start with a fractional heading on the `4 x 5` grid -/

section Lap

set_option linter.unusedSectionVars false

variable {K : Type} [LinearOrderedField K]

theorem toInt_lapStart : toInt (91 / 2 : ℚ) = 45 := by
  unfold toInt
  rw [if_pos (by norm_num)]
  rw [Int.floor_eq_iff]
  constructor <;> norm_num

theorem lap_sameCell : (⟨3, 1, 45⟩ : Pose).sameCell ⟨3, 1, 91 / 2⟩ := by
  refine ⟨rfl, rfl, ?_⟩
  show toInt (45 : ℚ) = toInt (91 / 2 : ℚ)
  rw [toInt_lapStart]
  exact toInt_intCast 45

/-- Eight left turns from `(3, 1, 45.5)` lead around an octagon to `(3, 1, 45)`. -/
theorem lap_walk (goal : Node3D K) (len : Int) :
    (lapGrid goal len).walk ⟨3, 1, 91 / 2⟩ [2, 2, 2, 2, 2, 2, 2, 2] = some ⟨3, 1, 45⟩ := by
  have h : (lapGrid goal len).walk ⟨3, 1, 45⟩ [2, 2, 2, 2, 2, 2, 2, 2] = some ⟨3, 1, 45⟩ := by
    rfl
  rcases walk_of_sameCell (lapGrid goal len) _ _ _ _ lap_sameCell h with ⟨h1, _⟩ | ⟨_, h2⟩
  · exact absurd h1 (by simp)
  · exact h2

theorem lap_inBounds (goal : Node3D K) (len : Int) (g h : K) (p : Option (Node3D K)) :
    (lapGrid goal len).inBounds (Node3D.mk 3 1 (91 / 2) g h p).pose := by
  simp [Problem.inBounds, lapGrid]

theorem lap_heading : (0 : ℚ) ≤ 91 / 2 ∧ (91 / 2 : ℚ) < 360 := by
  constructor <;> norm_num

/-- On the `4 x 5` grid with start `(3, 1, 45.5)`: a pushed node that passes the goal test
of a goal at `(3, 1)` has heading `45` or, when the goal heading allows, `0`. -/
theorem lap_goal_heading (E : Ext K) (goal : Node3D K) (len : Int) (s : Node3D K)
    (cg : Int → K) (n : Node3D K) (gt : ℚ) (hgt : 0 ≤ gt) (hgoal : goal.getT = gt)
    (hx : goal.getX = 3) (hy : goal.getY = 1)
    (hn : (lapGrid goal len).NodeOK E 45 s cg n) (hpass : n.eq goal = true) :
    n.getX = 3 ∧ n.getY = 1 ∧ n.getT = ((toInt n.getT : Int) : ℚ)
      ∧ ((toInt n.getT : Int) : ℚ) ≤ gt + 45 / 2 + 1 / 2 ^ 20
      ∧ gt - 45 / 2 - 1 / 2 ^ 20 ≤ ((toInt n.getT : Int) : ℚ)
      ∧ 0 ≤ toInt n.getT ∧ toInt n.getT % 45 = 0 := by
  obtain ⟨⟨_, h0, _, hm⟩, ht⟩ := hn.lattice
  simp only [pose_t] at h0 hm ht
  rw [eq_true_iff, hx, hy, hgoal] at hpass
  obtain ⟨h1, h2, h3⟩ := hpass
  have hnn : (0 : ℚ) ≤ n.getT := by
    rw [ht]
    exact_mod_cast h0
  rw [abs_of_nonneg hnn, abs_of_nonneg hgt, abs_le] at h3
  refine ⟨h1, h2, ht, ?_, ?_, h0, by omega⟩
  · rw [← ht]; linarith
  · rw [← ht]; linarith

/-- Completeness fails from a fractional heading: with the goal at `(3, 1, 22.75)` the run
from `(3, 1, 45.5)` returns the null pointer, although the pose `(3, 1, 45)`, which a walk
reaches, passes the goal test. -/
theorem lap_null (E : Ext K) (PQ : PriorityQueue (Node3D K) CompareNodes)
    (len : Int) (cost costToGo : Int → K) :
    aStar E PQ (lapGrid (Node3D.mk 3 1 (91 / 4) 0 0 none) len)
        (Node3D.mk 3 1 (91 / 2) 0 0 none) (freshTables cost costToGo) = Outcome.null := by
  have hpost := aStar_post E PQ (lapGrid (Node3D.mk 3 1 (91 / 4) 0 0 none) len)
    (Node3D.mk 3 1 (91 / 2) 0 0 none) (freshTables cost costToGo) rfl
    (lap_inBounds _ len 0 0 none) lap_heading (fun _ => rfl) (fun _ => rfl)
  simp only [getT_mk, toInt_lapStart] at hpost
  cases hr : aStar E PQ (lapGrid (Node3D.mk 3 1 (91 / 4) 0 0 none) len)
      (Node3D.mk 3 1 (91 / 2) 0 0 none) (freshTables cost costToGo) with
  | null => rfl
  | found n =>
    exfalso
    rw [hr] at hpost
    obtain ⟨hn, hpass, _⟩ := hpost
    rcases hn with rfl | ⟨hok, hne⟩
    · rw [eq_of_pose _ (Node3D.mk 3 1 (91 / 2) 0 0 none) _ (startNode_pose E _ _ _)] at hpass
      have e1 : |(91 / 2 : ℚ)| = 91 / 2 := abs_of_nonneg (by norm_num)
      have e2 : |(91 / 4 : ℚ)| = 91 / 4 := abs_of_nonneg (by norm_num)
      have e3 : |(91 / 2 : ℚ) - 91 / 4| = 91 / 4 := by
        rw [abs_of_nonneg] <;> norm_num
      rw [eq_true_iff] at hpass
      simp only [lapGrid, getX_mk, getY_mk, getT_mk, e1, e2, e3, true_and] at hpass
      norm_num at hpass
    · obtain ⟨h1, h2, h3, h4, h5, h6, h7⟩ := lap_goal_heading E
        (Node3D.mk 3 1 (91 / 4) 0 0 none) len _ _ n (91 / 4)
        (by norm_num) rfl rfl rfl hok hpass
      have hle : toInt n.getT < 46 := by
        have h : ((toInt n.getT : Int) : ℚ) < 46 := by
          have : (91 / 4 : ℚ) + 45 / 2 + 1 / 2 ^ 20 < 46 := by norm_num
          linarith
        exact_mod_cast h
      have hge : 0 < toInt n.getT := by
        have h : (0 : ℚ) < ((toInt n.getT : Int) : ℚ) := by
          have : (0 : ℚ) < (91 / 4 : ℚ) - 45 / 2 - 1 / 2 ^ 20 := by norm_num
          linarith
        exact_mod_cast h
      have h45 : toInt n.getT = 45 := by omega
      apply hne
      apply index_of_sameCell
      rw [startNode_pose]
      refine ⟨h1, h2, ?_⟩
      show toInt n.getT = toInt (91 / 2 : ℚ)
      rw [toInt_lapStart, h45]
  | undefined =>
    rw [hr] at hpost
    exact absurd hpost (by simp [Problem.Post])
  | running =>
    rw [hr] at hpost
    exact absurd hpost (by simp [Problem.Post])

theorem lap_goal_passes :
    ((⟨3, 1, 45⟩ : Pose).node K).eq (Node3D.mk 3 1 (91 / 4) 0 0 none) = true := by
  have e1 : |(45 : ℚ)| = 45 := abs_of_nonneg (by norm_num)
  have e2 : |(91 / 4 : ℚ)| = 91 / 4 := abs_of_nonneg (by norm_num)
  have e3 : |(45 : ℚ) - 91 / 4| = 89 / 4 := by
    rw [abs_of_nonneg] <;> norm_num
  rw [eq_true_iff]
  simp only [Pose.node, getX_mk, getY_mk, getT_mk, e1, e2, e3, true_and]
  norm_num

end Lap

end PathPlanner

namespace PathPlanner

/-! ## The cost of reaching heading `0` on the `4 x 5` grid -/

section LapCost

set_option linter.unusedSectionVars false

variable {K : Type} [LinearOrderedField K]

set_option maxRecDepth 100000 in
theorem lapStep_all : ∀ x, x < 4 → ∀ y, y < 5 → ∀ k, k < 8 → ∀ i : Fin 3,
    lapStepOK x y k i = true := by
  decide

theorem sqrt_two_bounds (E : Ext K) (hE : E.IsSqrt) :
    7 / 5 ≤ E.sqrt 2 ∧ E.sqrt 2 < 29 / 20 := by
  obtain ⟨h0, h1⟩ := hE 2 (by decide)
  have h2 : E.sqrt 2 * E.sqrt 2 = 2 := by simpa using h1
  constructor
  · by_contra h
    have hlt : E.sqrt 2 < 7 / 5 := not_le.1 h
    have := mul_self_lt_mul_self h0 hlt
    rw [h2] at this
    norm_num at this
  · by_contra h
    have hge : (29 / 20 : K) ≤ E.sqrt 2 := not_lt.1 h
    have := mul_self_le_mul_self (by norm_num : (0 : K) ≤ 29 / 20) hge
    rw [h2] at this
    norm_num at this

theorem lap_filed_start (goal : Node3D K) (len : Int) :
    (lapGrid goal len).Filed 45 ⟨3, 1, 91 / 2⟩ := by
  refine ⟨by simp [Problem.inBounds, lapGrid], ?_, ?_, ?_⟩
  · show 0 ≤ toInt (91 / 2 : ℚ)
    rw [toInt_lapStart]; decide
  · show toInt (91 / 2 : ℚ) < 360
    rw [toInt_lapStart]; decide
  · show toInt (91 / 2 : ℚ) % 45 = 45 % 45
    rw [toInt_lapStart]

/-- One step of a walk on the `4 x 5` grid raises the bound `lapPhi` by at most five times
its movement cost. -/
theorem lapPhi_step (E : Ext K) (hE : E.IsSqrt) (goal : Node3D K) (len : Int) (p q : Pose)
    (i : Fin 3) (hp : (lapGrid goal len).Filed 45 p) (hs : p.successor i = some q)
    (hf : (lapGrid goal len).free q) :
    (lapPhi q.x q.y (toInt q.t) : K) ≤ (lapPhi p.x p.y (toInt p.t) : K)
      + 5 * stepCost E p q := by
  obtain ⟨j, hj, hj0, hj8, hsucc⟩ := successor_of_filed (lapGrid goal len) 45 p hp i
  rw [hsucc] at hs
  have hq := (Option.some.inj hs).symm
  subst hq
  obtain ⟨⟨hx0, hx1, hy0, hy1⟩, ht0, ht1, htm⟩ := hp
  have hx1' : p.x < 4 := hx1
  have hy1' : p.y < 5 := hy1
  have hjeq : j = if toInt p.t / 45 - 1 < 0 then 7 else toInt p.t / 45 - 1 := by
    rw [dTat_eq _ ht0 ht1] at hj
    exact (Option.some.inj hj).symm
  have hk : 45 * (((toInt p.t / 45).toNat : Nat) : Int) = toInt p.t := by
    rw [Int.toNat_of_nonneg (by omega)]
    omega
  have hstep := lapStep_all p.x.toNat (by omega) p.y.toNat (by omega) (toInt p.t / 45).toNat
    (by omega) i
  simp only [lapStepOK, hk, Int.toNat_of_nonneg hx0, Int.toNat_of_nonneg hy0, ← hjeq] at hstep
  have hin : 0 ≤ p.x + dXat j i ∧ p.x + dXat j i < 4 ∧ 0 ≤ p.y + dYat j i
      ∧ p.y + dYat j i < 5 := hf.1
  rw [if_pos hin, decide_eq_true_eq] at hstep
  simp only [toInt_intCast]
  rw [stepCost_eq]
  simp only [add_sub_cancel_left]
  obtain ⟨hx, hy, hne⟩ := dXat_abs j hj0 hj8 i
  have hstepK : (lapPhi (p.x + dXat j i) (p.y + dYat j i) (tSuccOf (toInt p.t) i) : K)
      ≤ (lapPhi p.x p.y (toInt p.t) : K)
        + ((if dXat j i * dYat j i = 0 then (5 : Int) else 7 : Int) : K) := by
    exact_mod_cast hstep
  refine le_trans hstepK ?_
  have h7 := (sqrt_two_bounds E hE).1
  have h1 := sqrt_one E hE
  rcases hx with h | h | h <;> rcases hy with h' | h' | h' <;> rw [h, h'] <;>
    first
      | (exfalso; rcases hne with h3 | h3 <;> [exact h3 h; exact h3 h'])
      | (norm_num [h1]; done)
      | (norm_num; linarith)

/-- On the `4 x 5` grid, `lapPhi` at the end of a walk from `(3, 1, 45.5)` is at most five
times the cost of the walk. -/
theorem lapPhi_walk (E : Ext K) (hE : E.IsSqrt) (goal : Node3D K) (len : Int)
    (moves : List (Fin 3)) (q : Pose)
    (hw : (lapGrid goal len).walk ⟨3, 1, 91 / 2⟩ moves = some q) :
    (lapPhi q.x q.y (toInt q.t) : K)
      ≤ 5 * (lapGrid goal len).walkCost E ⟨3, 1, 91 / 2⟩ moves := by
  induction moves using List.reverseRecOn generalizing q with
  | nil =>
    simp only [Problem.walk, Option.some.injEq] at hw
    subst hw
    simp only [toInt_lapStart, Problem.walkCost, mul_zero]
    have : lapPhi 3 1 45 = 0 := by decide
    rw [this]
    simp
  | append_singleton l a ih =>
    obtain ⟨p, h1, h2, h3⟩ := walk_snoc_some (lapGrid goal len) _ q l a hw
    have hp := filed_of_walk (lapGrid goal len) 45 _ p l (lap_filed_start goal len) h1
    rw [walkCost_snoc E (lapGrid goal len) _ p q l a h1 h2]
    have := lapPhi_step E hE goal len p q a hp h2 h3
    have := ih p h1
    linarith

end LapCost

end PathPlanner

namespace PathPlanner

section LapRun

set_option linter.unusedSectionVars false

variable {K : Type} [LinearOrderedField K]

theorem lap_walk_zero (goal : Node3D K) (len : Int) :
    (lapGrid goal len).walk ⟨3, 1, 91 / 2⟩ [2, 1, 2, 2, 2, 2, 2, 2, 1] = some ⟨3, 1, 0⟩ := by
  have h : (lapGrid goal len).walk ⟨3, 1, 45⟩ [2, 1, 2, 2, 2, 2, 2, 2, 1]
      = some ⟨3, 1, 0⟩ := by
    rfl
  rcases walk_of_sameCell (lapGrid goal len) _ _ _ _ lap_sameCell h with ⟨h1, _⟩ | ⟨_, h2⟩
  · exact absurd h1 (by simp)
  · exact h2

theorem lap_walkCost (E : Ext K) (hE : E.IsSqrt) (goal : Node3D K) (len : Int) :
    (lapGrid goal len).walkCost E ⟨3, 1, 91 / 2⟩ [2, 2, 2, 2, 2, 2, 2, 2]
      = 4 + 4 * E.sqrt 2 := by
  rw [← walkCost_of_sameCell E (lapGrid goal len) _ _ _ lap_sameCell]
  have h1 : (⟨3, 1, 45⟩ : Pose).successor 2 = some ⟨3, 2, 90⟩ := by decide
  have h2 : (⟨3, 2, 90⟩ : Pose).successor 2 = some ⟨2, 3, 135⟩ := by decide
  have h3 : (⟨2, 3, 135⟩ : Pose).successor 2 = some ⟨1, 3, 180⟩ := by decide
  have h4 : (⟨1, 3, 180⟩ : Pose).successor 2 = some ⟨0, 2, 225⟩ := by decide
  have h5 : (⟨0, 2, 225⟩ : Pose).successor 2 = some ⟨0, 1, 270⟩ := by decide
  have h6 : (⟨0, 1, 270⟩ : Pose).successor 2 = some ⟨1, 0, 315⟩ := by decide
  have h7 : (⟨1, 0, 315⟩ : Pose).successor 2 = some ⟨2, 0, 0⟩ := by decide
  have h8 : (⟨2, 0, 0⟩ : Pose).successor 2 = some ⟨3, 1, 45⟩ := by decide
  rw [walkCost_cons E _ _ _ 2 _ h1, walkCost_cons E _ _ _ 2 _ h2,
    walkCost_cons E _ _ _ 2 _ h3, walkCost_cons E _ _ _ 2 _ h4,
    walkCost_cons E _ _ _ 2 _ h5, walkCost_cons E _ _ _ 2 _ h6,
    walkCost_cons E _ _ _ 2 _ h7, walkCost_cons E _ _ _ 2 _ h8]
  simp only [Problem.walkCost, stepCost_eq]
  norm_num [sqrt_one E hE]
  ring

theorem lap_zero_passes :
    ((⟨3, 1, 0⟩ : Pose).node K).eq (Node3D.mk 3 1 (45 / 2) 0 0 none) = true := by
  have e2 : |(45 / 2 : ℚ)| = 45 / 2 := abs_of_nonneg (by norm_num)
  rw [eq_true_iff]
  simp only [Pose.node, getX_mk, getY_mk, getT_mk, abs_zero, zero_sub, abs_neg, e2, true_and]
  norm_num

theorem lap_octagon_passes :
    ((⟨3, 1, 45⟩ : Pose).node K).eq (Node3D.mk 3 1 (45 / 2) 0 0 none) = true := by
  have e1 : |(45 : ℚ)| = 45 := abs_of_nonneg (by norm_num)
  have e2 : |(45 / 2 : ℚ)| = 45 / 2 := abs_of_nonneg (by norm_num)
  have e3 : |(45 : ℚ) - 45 / 2| = 45 / 2 := by
    rw [abs_of_nonneg] <;> norm_num
  rw [eq_true_iff]
  simp only [Pose.node, getX_mk, getY_mk, getT_mk, e1, e2, e3, true_and]
  norm_num

theorem lap_start_fails (g h : K) (p : Option (Node3D K)) :
    (Node3D.mk 3 1 (91 / 2) g h p).eq (Node3D.mk 3 1 (45 / 2) 0 0 none) = false := by
  have e1 : |(91 / 2 : ℚ)| = 91 / 2 := abs_of_nonneg (by norm_num)
  have e2 : |(45 / 2 : ℚ)| = 45 / 2 := abs_of_nonneg (by norm_num)
  have e3 : |(91 / 2 : ℚ) - 45 / 2| = 23 := by
    rw [abs_of_nonneg] <;> norm_num
  cases h1 : (Node3D.mk 3 1 (91 / 2) g h p).eq (Node3D.mk 3 1 (45 / 2) 0 0 none) with
  | false => rfl
  | true =>
    rw [eq_true_iff] at h1
    simp only [getX_mk, getY_mk, getT_mk, e1, e2, e3, true_and] at h1
    norm_num at h1

/-- Optimality fails from a fractional heading: with the goal at `(3, 1, 22.5)` the run from
`(3, 1, 45.5)` on the `4 x 5` grid returns a node that is more costly than the walk around
the octagon, which ends at the pose `(3, 1, 45)` that passes the goal test. -/
theorem lap_not_least (E : Ext K) (hE : E.IsSqrt)
    (PQ : PriorityQueue (Node3D K) CompareNodes) (len : Int) (cost costToGo : Int → K) :
    ∃ n, aStar E PQ (lapGrid (Node3D.mk 3 1 (45 / 2) 0 0 none) len)
          (Node3D.mk 3 1 (91 / 2) 0 0 none) (freshTables cost costToGo) = Outcome.found n
      ∧ (lapGrid (Node3D.mk 3 1 (45 / 2) 0 0 none) len).walkCost E
          (Node3D.mk 3 1 (91 / 2) 0 0 none : Node3D K).pose [2, 2, 2, 2, 2, 2, 2, 2]
        < n.getG := by
  have hpost := aStar_post E PQ (lapGrid (Node3D.mk 3 1 (45 / 2) 0 0 none) len)
    (Node3D.mk 3 1 (91 / 2) 0 0 none) (freshTables cost costToGo) rfl
    (lap_inBounds _ len 0 0 none) lap_heading (fun _ => rfl) (fun _ => rfl)
  simp only [getT_mk, toInt_lapStart] at hpost
  have hzero := lap_walk_zero (Node3D.mk 3 1 (45 / 2) 0 0 none : Node3D K) len
  have hzl : (lapGrid (Node3D.mk 3 1 (45 / 2) 0 0 none : Node3D K) len).OnLattice 45
      ⟨3, 1, 0⟩ := by
    refine ⟨⟨by simp [Problem.inBounds, lapGrid], ?_, ?_, ?_⟩, ?_⟩
    · show 0 ≤ toInt (0 : ℚ)
      simp [toInt]
    · show toInt (0 : ℚ) < 360
      simp [toInt]
    · show toInt (0 : ℚ) % 45 = 45 % 45
      simp [toInt]
    · show (0 : ℚ) = ((toInt (0 : ℚ) : Int) : ℚ)
      simp [toInt]
  cases hr : aStar E PQ (lapGrid (Node3D.mk 3 1 (45 / 2) 0 0 none) len)
      (Node3D.mk 3 1 (91 / 2) 0 0 none) (freshTables cost costToGo) with
  | null =>
    exfalso
    rw [hr] at hpost
    obtain ⟨n1, hn1, hfail, hsame⟩ := hpost [2, 1, 2, 2, 2, 2, 2, 2, 1] ⟨3, 1, 0⟩
      (by rw [startNode_pose]; exact hzero)
    rcases hn1 with rfl | hok
    · rw [startNode_pose] at hsame
      have h45 : toInt (91 / 2 : ℚ) = toInt (0 : ℚ) := hsame.2.2
      rw [toInt_lapStart] at h45
      simp [toInt] at h45
    · have hpq := eq_of_sameCell _ 45 n1.pose ⟨3, 1, 0⟩ hok.lattice hzl hsame
      have : ((⟨3, 1, 0⟩ : Pose).node K).eq (Node3D.mk 3 1 (45 / 2) 0 0 none)
          = n1.eq (Node3D.mk 3 1 (45 / 2) 0 0 none) :=
        eq_of_pose _ n1 _ (by rw [node_pose, hpq])
      rw [lap_zero_passes] at this
      have hfail' : n1.eq (Node3D.mk 3 1 (45 / 2) 0 0 none) = false := hfail
      rw [← this] at hfail'
      exact Bool.noConfusion hfail'
  | found n =>
    refine ⟨n, rfl, ?_⟩
    rw [hr] at hpost
    obtain ⟨hn, hpass, _⟩ := hpost
    rcases hn with rfl | ⟨hok, hne⟩
    · exfalso
      rw [eq_of_pose _ (Node3D.mk 3 1 (91 / 2) 0 0 none) _ (startNode_pose E _ _ _)] at hpass
      have hpass' : (Node3D.mk 3 1 (91 / 2) 0 0 none : Node3D K).eq
          (Node3D.mk 3 1 (45 / 2) 0 0 none) = true := hpass
      rw [lap_start_fails (0 : K) 0 none] at hpass'
      exact Bool.noConfusion hpass'
    · obtain ⟨h1, h2, h3, h4, h5, h6, h7⟩ := lap_goal_heading E
        (Node3D.mk 3 1 (45 / 2) 0 0 none) len _ _ n (45 / 2)
        (by norm_num) rfl rfl rfl hok hpass
      have hle : toInt n.getT < 46 := by
        have h : ((toInt n.getT : Int) : ℚ) < 46 := by
          have : (45 / 2 : ℚ) + 45 / 2 + 1 / 2 ^ 20 < 46 := by norm_num
          linarith
        exact_mod_cast h
      have hcases : toInt n.getT = 0 ∨ toInt n.getT = 45 := by omega
      have h0 : toInt n.getT = 0 := by
        rcases hcases with h | h
        · exact h
        · exfalso
          apply hne
          apply index_of_sameCell
          rw [startNode_pose]
          refine ⟨h1, h2, ?_⟩
          show toInt n.getT = toInt (91 / 2 : ℚ)
          rw [toInt_lapStart, h]
      have hpose : n.pose = ⟨3, 1, 0⟩ := by
        have ht : n.getT = 0 := by rw [h3, h0]; simp
        show (⟨n.getX, n.getY, n.getT⟩ : Pose) = ⟨3, 1, 0⟩
        rw [h1, h2, ht]
      obtain ⟨moves, hw, hg⟩ := walk_of_linked E _ _ n hok.linked
      rw [startNode_pose, hpose] at hw
      have hsg : (startNode E (lapGrid (Node3D.mk 3 1 (45 / 2) 0 0 none) len)
          (Node3D.mk 3 1 (91 / 2) 0 0 none) (freshTables cost costToGo)).getG = 0 := by
        rw [startNode_eq, getG_mk, getG_mk, sqrt_zero E hE, add_zero]
      rw [startNode_pose, hsg, zero_add] at hg
      have hphi := lapPhi_walk E hE (Node3D.mk 3 1 (45 / 2) 0 0 none) len moves ⟨3, 1, 0⟩ hw
      have h49 : lapPhi 3 1 (toInt (0 : ℚ)) = 49 := by
        have : toInt (0 : ℚ) = 0 := by simp [toInt]
        rw [this]
        decide
      simp only [h49] at hphi
      have hcost := lap_walkCost E hE (Node3D.mk 3 1 (45 / 2) 0 0 none) len
      have hsq := (sqrt_two_bounds E hE).2
      have hcost' : (lapGrid (Node3D.mk 3 1 (45 / 2) 0 0 none) len).walkCost E
          (Node3D.mk 3 1 (91 / 2) 0 0 none : Node3D K).pose [2, 2, 2, 2, 2, 2, 2, 2]
          = 4 + 4 * E.sqrt 2 := hcost
      rw [hcost', hg]
      have hphi' : (49 : K) ≤ 5 * (lapGrid (Node3D.mk 3 1 (45 / 2) 0 0 none) len).walkCost E
          (Node3D.mk 3 1 (91 / 2) 0 0 none : Node3D K).pose moves := by
        have : ((49 : Int) : K) = 49 := by norm_num
        rw [← this]
        exact hphi
      linarith
  | undefined =>
    rw [hr] at hpost
    exact absurd hpost (by simp [Problem.Post])
  | running =>
    rw [hr] at hpost
    exact absurd hpost (by simp [Problem.Post])

end LapRun

end PathPlanner

namespace PathPlanner

/-! ## Runs from any heading, and the length of the returned path -/

section AnyHeading

set_option linter.unusedSectionVars false

variable {K : Type} [LinearOrderedField K]

/-- A pose that passes the goal test and is reached by a walk, filed under the lattice cell
of a node that failed the goal test: unless the pose lies in the start's own cell while the
start has a fractional heading and fails the goal test, this happens only when the start
itself passes the goal test. -/
theorem goal_in_start_cell (E : Ext K) (P : Problem K) (start : Node3D K) (tb : Tables K)
    (hb : P.inBounds start.pose) (ht : 0 ≤ start.getT ∧ start.getT < 360) (n1 : Node3D K)
    (hn1 : n1 = startNode E P start tb
      ∨ P.NodeOK E (toInt start.getT) (startNode E P start tb) tb.costGoal n1)
    (hfail : n1.eq P.goal = false) (moves : List (Fin 3)) (q : Pose)
    (hw : P.walk start.pose moves = some q) (hq : (q.node K).eq P.goal = true)
    (hsame : n1.pose.sameCell q)
    (hside : q.sameCell start.pose →
      start.eq P.goal = true ∨ start.getT = ((toInt start.getT : Int) : ℚ)) :
    start.eq P.goal = true := by
  have hs0 := filed_start P start hb ht
  rcases walk_filed P _ start.pose q moves hs0 hw with ⟨_, rfl⟩ | ⟨hql, _⟩
  · rw [eq_of_pose start (start.pose.node K) P.goal (node_pose start.pose).symm]
    exact hq
  · rcases hn1 with rfl | hok
    · rw [startNode_pose] at hsame
      rcases hside (sameCell_symm _ _ hsame) with h | hwhole
      · exact h
      · have hl : P.OnLattice (toInt start.getT) start.pose := ⟨hs0, hwhole⟩
        have hpq := eq_of_sameCell P _ start.pose q hl hql hsame
        rw [eq_of_pose start (q.node K) P.goal (by rw [node_pose, hpq])]
        exact hq
    · have hpq := eq_of_sameCell P _ n1.pose q hok.lattice hql hsame
      have e : n1.eq P.goal = (q.node K).eq P.goal :=
        eq_of_pose n1 (q.node K) P.goal (by rw [node_pose, hpq])
      rw [e, hq] at hfail
      cases hfail

/-- Optimality for every heading: from an in-bounds start with heading in `[0, 360)`, with
`depth = 8`, `open` and `closed` all false, exact `sqrt` and a zero `costGoal` array, the `g`
of the returned node is at most the `g` of the start node plus the cost of any walk to a
pose that passes the goal test, poses in the start's own lattice cell left aside when the
start has a fractional heading and fails the goal test. -/
theorem aStar_least_any (E : Ext K) (PQ : PriorityQueue (Node3D K) CompareNodes)
    (P : Problem K) (start : Node3D K) (tb : Tables K) (hE : E.IsSqrt)
    (hd : P.depth = 8) (hb : P.inBounds start.pose)
    (ht : 0 ≤ start.getT ∧ start.getT < 360) (hopen : ∀ i, tb.open_ i = false)
    (hclosed : ∀ i, tb.closed i = false) (hcg : ∀ i, tb.costGoal i = 0) (n : Node3D K)
    (hres : aStar E PQ P start tb = Outcome.found n) (moves : List (Fin 3)) (q : Pose)
    (hw : P.walk start.pose moves = some q) (hq : (q.node K).eq P.goal = true)
    (hside : q.sameCell start.pose →
      start.eq P.goal = true ∨ start.getT = ((toInt start.getT : Int) : ℚ)) :
    n.getG ≤ start.getG + P.walkCost E start.pose moves := by
  have hpost := aStar_post E PQ P start tb hd hb ht hopen hclosed
  rw [hres] at hpost
  obtain ⟨_, _, hopt⟩ := hpost
  have hw1 : P.walk (startNode E P start tb).pose moves = some q := by
    rw [startNode_pose]; exact hw
  have hsg : (startNode E P start tb).getG = start.getG := by
    rw [startNode_eq, getG_mk, sqrt_zero E hE, add_zero]
  rcases hopt hE hcg moves q hw1 hq with ⟨n1, hn1, hfail, hsame⟩ | h
  · have hstart := goal_in_start_cell E P start tb hb ht n1 hn1 hfail moves q hw hq hsame
      hside
    have hfound := aStar_of_start_goal E PQ P start tb hb ht hclosed hstart
    rw [hres] at hfound
    have hn : n = startNode E P start tb := Outcome.found.inj hfound
    rw [hn, hsg]
    have := walkCost_nonneg E hE P start.pose moves
    linarith
  · rw [startNode_pose, hsg] at h
    exact h

/-- Completeness for every heading: from an in-bounds start with heading in `[0, 360)`, with
`depth = 8` and `open` and `closed` all false, the null pointer is returned exactly when no
walk reaches a pose that passes the goal test, poses in the start's own lattice cell left
aside when the start has a fractional heading and fails the goal test. -/
theorem aStar_null_iff_any (E : Ext K) (PQ : PriorityQueue (Node3D K) CompareNodes)
    (P : Problem K) (start : Node3D K) (tb : Tables K) (hd : P.depth = 8)
    (hb : P.inBounds start.pose) (ht : 0 ≤ start.getT ∧ start.getT < 360)
    (hopen : ∀ i, tb.open_ i = false) (hclosed : ∀ i, tb.closed i = false) :
    aStar E PQ P start tb = Outcome.null
      ↔ ¬ ∃ moves q, P.walk start.pose moves = some q ∧ (q.node K).eq P.goal = true
          ∧ (q.sameCell start.pose →
            start.eq P.goal = true ∨ start.getT = ((toInt start.getT : Int) : ℚ)) := by
  have hpost := aStar_post E PQ P start tb hd hb ht hopen hclosed
  constructor
  · intro hnull
    rintro ⟨moves, q, hw, hq, hside⟩
    rw [hnull] at hpost
    have hw1 : P.walk (startNode E P start tb).pose moves = some q := by
      rw [startNode_pose]; exact hw
    obtain ⟨n1, hn1, hfail, hsame⟩ := hpost moves q hw1
    have hstart := goal_in_start_cell E P start tb hb ht n1 hn1 hfail moves q hw hq hsame
      hside
    have hfound := aStar_of_start_goal E PQ P start tb hb ht hclosed hstart
    rw [hnull] at hfound
    cases hfound
  · intro hno
    cases hr : aStar E PQ P start tb with
    | null => rfl
    | found n =>
      exfalso
      rw [hr] at hpost
      obtain ⟨hn, hgoal, _⟩ := hpost
      have hlinked : P.Linked E (startNode E P start tb) n := by
        rcases hn with rfl | h
        · exact Problem.Linked.start
        · exact h.1.linked
      obtain ⟨moves, hw, _⟩ := walk_of_linked E P _ n hlinked
      rw [startNode_pose] at hw
      refine hno ⟨moves, n.pose, hw, ?_, ?_⟩
      · rw [eq_of_pose (n.pose.node K) n P.goal (node_pose n.pose)]
        exact hgoal
      · intro hsame
        rcases hn with rfl | ⟨_, hne⟩
        · left
          rw [← eq_of_pose (startNode E P start tb) start P.goal (startNode_pose E P start tb)]
          exact hgoal
        · exfalso
          apply hne
          rw [startNode_pose]
          exact index_of_sameCell P n.pose start.pose hsame
    | undefined =>
      rw [hr] at hpost
      exact absurd hpost (by simp [Problem.Post])
    | running =>
      rw [hr] at hpost
      exact absurd hpost (by simp [Problem.Post])

/-- A whole-number heading is its own truncation. -/
theorem whole_of_intCast (t : ℚ) (k : Int) (h : t = (k : ℚ)) :
    t = ((toInt t : Int) : ℚ) := by
  rw [h, toInt_intCast]

/-- Along the predecessor chain of a node that hangs on a start node without predecessor,
`g` grows by the movement costs: the `g` of the node is the `g` of the start node plus the
length of the path, and the chain ends at the start node. -/
theorem pathLength_of_linked (E : Ext K) (P : Problem K) (s n : Node3D K)
    (hsp : s.getPred = none) (h : P.Linked E s n) :
    n.getG = s.getG + n.pathLength E ∧ n.chain.getLast? = some s := by
  induction h with
  | start =>
    cases s with
    | mk x y t g h p =>
      have : p = none := hsp
      subst this
      simp [Node3D.pathLength, Node3D.chain, Node3D.getG]
  | step n m i _ hpred _ _ hg ih =>
    obtain ⟨h1, h2⟩ := ih
    cases m with
    | mk x y t g h p =>
      have : p = some n := hpred
      subst this
      constructor
      · rw [hg, h1]
        simp only [Node3D.pathLength]
        ring
      · simp only [Node3D.chain]
        rw [List.getLast?_cons, h2]
        rfl

end AnyHeading

end PathPlanner

namespace PathPlanner

/-! ## The claims -/

section Claims

set_option linter.unusedSectionVars false

/-- The real square root is an exact `sqrt`. -/
theorem real_isSqrt :
    (⟨fun z => Real.sqrt z, fun _ _ _ _ _ _ => 0, fun _ _ _ _ _ => 0⟩ : Ext ℝ).IsSqrt := by
  intro n hn
  exact ⟨Real.sqrt_nonneg _, Real.mul_self_sqrt (by exact_mod_cast hn)⟩

/-- C1, as amended: optimality of `Node3D::aStar` with only the Euclidean heuristic.  For
exact `sqrt`, every grid, every in-bounds start with heading in `[0, 360)` and `g = 0`, and
every goal, with `depth = 8`, `open` and `closed` all false and `costGoal` all zero: if
`aStar` returns a node, its `g` is at most the sum of the movement costs of every sequence
of motion-primitive steps through in-bounds, unoccupied cells that leads from the start to
a pose satisfying the goal test, other than a pose filed under the start's own lattice cell
(same `x`, `y` and `(int)` heading) when the start's heading is not a whole number and the
start itself fails the goal test. -/
theorem aStar_optimal {K : Type} [LinearOrderedField K] (E : Ext K)
    (PQ : PriorityQueue (Node3D K) CompareNodes) (P : Problem K) (start : Node3D K)
    (tb : Tables K) (hE : E.IsSqrt) (hd : P.depth = 8)
    (hb : P.inBounds start.pose) (ht : 0 ≤ start.getT ∧ start.getT < 360)
    (hg : start.getG = 0) (hopen : ∀ i, tb.open_ i = false)
    (hclosed : ∀ i, tb.closed i = false) (hcg : ∀ i, tb.costGoal i = 0) (n : Node3D K)
    (hres : aStar E PQ P start tb = Outcome.found n) (moves : List (Fin 3)) (q : Pose)
    (hw : P.walk start.pose moves = some q) (hq : (q.node K).eq P.goal = true)
    (hside : q.sameCell start.pose →
      start.eq P.goal = true ∨ start.getT = ((toInt start.getT : Int) : ℚ)) :
    n.getG ≤ P.walkCost E start.pose moves := by
  have := aStar_least_any E PQ P start tb hE hd hb ht hopen hclosed hcg n hres moves q
    hw hq hside
  rw [hg, zero_add] at this
  exact this

/-- Witness of C1 as amended: the run on the open `5 x 5` grid from `(0, 0, 0)` to
`(4, 0, 0)` in real arithmetic returns a node at most as costly as the straight walk. -/
theorem aStar_optimal_witness :
    ∃ n, aStar (⟨fun z => Real.sqrt z, fun _ _ _ _ _ _ => 0, fun _ _ _ _ _ => 0⟩ : Ext ℝ)
          nodeQueue (openGrid (Node3D.mk 4 0 0 0 0 none) 0)
          (Node3D.mk 0 0 0 0 0 none) (freshTables (fun _ => 0) (fun _ => 0))
        = Outcome.found n
      ∧ n.getG ≤ (openGrid (Node3D.mk 4 0 0 0 0 none : Node3D ℝ) 0).walkCost
          (⟨fun z => Real.sqrt z, fun _ _ _ _ _ _ => 0, fun _ _ _ _ _ => 0⟩ : Ext ℝ)
          (Node3D.mk 0 0 0 0 0 none : Node3D ℝ).pose [1, 1, 1, 1] := by
  obtain ⟨n, hres, _, _⟩ := openGrid_run
    (⟨fun z => Real.sqrt z, fun _ _ _ _ _ _ => 0, fun _ _ _ _ _ => 0⟩ : Ext ℝ) real_isSqrt
    nodeQueue 0 0 0 none 0 (fun _ => 0) (fun _ => 0)
  exact ⟨n, hres, aStar_optimal
    (⟨fun z => Real.sqrt z, fun _ _ _ _ _ _ => 0, fun _ _ _ _ _ => 0⟩ : Ext ℝ)
    nodeQueue (openGrid (Node3D.mk 4 0 0 0 0 none) 0)
    (Node3D.mk 0 0 0 0 0 none) (freshTables (fun _ => 0) (fun _ => 0)) real_isSqrt rfl
    (by simp [Problem.inBounds, openGrid]) (by simp) rfl
    (fun _ => rfl) (fun _ => rfl) (fun _ => rfl) n hres [1, 1, 1, 1] ⟨4, 0, 0⟩
    (openGrid_walk _ 0) (goal_pose_passes 4 0 0 0 0 none)
    (fun _ => Or.inr (whole_of_intCast _ 0 (by simp)))⟩

/-- Counterexample to C1 as stated: on the obstacle-free `4 x 5` grid, from the in-bounds
start `(3, 1, heading 45.5)` with `g = 0` to the goal `(3, 1, heading 22.5)`, in real
arithmetic with fresh tables, `aStar` returns a node although eight left turns lead to the
pose `(3, 1, 45)`, which satisfies the goal test, at a smaller cost than the node's `g`.
The pose is filed under the lattice cell of the start, which fails the goal test. -/
theorem aStar_not_optimal_from_fractional_heading :
    ∃ n, aStar (⟨fun z => Real.sqrt z, fun _ _ _ _ _ _ => 0, fun _ _ _ _ _ => 0⟩ : Ext ℝ)
          nodeQueue (lapGrid (Node3D.mk 3 1 (45 / 2) 0 0 none) 0)
          (Node3D.mk 3 1 (91 / 2) 0 0 none) (freshTables (fun _ => 0) (fun _ => 0))
        = Outcome.found n
      ∧ (lapGrid (Node3D.mk 3 1 (45 / 2) 0 0 none : Node3D ℝ) 0).walk
          (Node3D.mk 3 1 (91 / 2) 0 0 none : Node3D ℝ).pose [2, 2, 2, 2, 2, 2, 2, 2]
        = some ⟨3, 1, 45⟩
      ∧ ((⟨3, 1, 45⟩ : Pose).node ℝ).eq
          (lapGrid (Node3D.mk 3 1 (45 / 2) 0 0 none : Node3D ℝ) 0).goal = true
      ∧ ¬ n.getG ≤ (lapGrid (Node3D.mk 3 1 (45 / 2) 0 0 none : Node3D ℝ) 0).walkCost
          (⟨fun z => Real.sqrt z, fun _ _ _ _ _ _ => 0, fun _ _ _ _ _ => 0⟩ : Ext ℝ)
          (Node3D.mk 3 1 (91 / 2) 0 0 none : Node3D ℝ).pose [2, 2, 2, 2, 2, 2, 2, 2]
      ∧ (⟨3, 1, 45⟩ : Pose).sameCell (Node3D.mk 3 1 (91 / 2) 0 0 none : Node3D ℝ).pose
      ∧ (Node3D.mk 3 1 (91 / 2) 0 0 none : Node3D ℝ).eq
          (lapGrid (Node3D.mk 3 1 (45 / 2) 0 0 none : Node3D ℝ) 0).goal = false := by
  obtain ⟨n, hres, hlt⟩ := lap_not_least
    (⟨fun z => Real.sqrt z, fun _ _ _ _ _ _ => 0, fun _ _ _ _ _ => 0⟩ : Ext ℝ) real_isSqrt
    nodeQueue 0 (fun _ => 0) (fun _ => 0)
  exact ⟨n, hres, lap_walk _ 0, lap_octagon_passes, not_le.2 hlt, lap_sameCell,
    lap_start_fails 0 0 none⟩

/-- C2: path soundness of `Node3D::aStar`.  Whenever `aStar` returns a node, the node
satisfies the goal test, and it hangs on the start node: walking the predecessor references
reaches the start node, every node on the way other than the start lies on an in-bounds cell
with occupancy `0`, every (predecessor, node) pair is a motion-primitive step of the
predecessor, and each node's `g` is its predecessor's `g` plus the movement cost between
them; the start's `g` is `0` when it was handed in as `0` (and `sqrt 0 = 0`). -/
theorem aStar_path_sound {K : Type} [LinearOrderedField K] (E : Ext K)
    (PQ : PriorityQueue (Node3D K) CompareNodes) (P : Problem K) (start : Node3D K)
    (tb : Tables K) (n : Node3D K) (hE : E.sqrt 0 = 0) (hg : start.getG = 0)
    (hres : aStar E PQ P start tb = Outcome.found n) :
    n.eq P.goal = true ∧ P.Linked E (startNode E P start tb) n
      ∧ (startNode E P start tb).pose = start.pose
      ∧ (startNode E P start tb).getPred = start.getPred
      ∧ (startNode E P start tb).getG = 0 := by
  obtain ⟨h1, h2⟩ := aStar_linked E PQ P start tb n hres
  refine ⟨h2, h1, startNode_pose E P start tb, ?_, ?_⟩
  · rw [startNode_eq]; rfl
  · rw [startNode_eq, getG_mk, hE, hg, add_zero]

/-- Witness of C2: the node returned on the open `5 x 5` grid in real arithmetic. -/
theorem aStar_path_sound_witness :
    ∃ n, aStar (⟨fun z => Real.sqrt z, fun _ _ _ _ _ _ => 0, fun _ _ _ _ _ => 0⟩ : Ext ℝ)
          nodeQueue (openGrid (Node3D.mk 4 0 0 0 0 none) 0)
          (Node3D.mk 0 0 0 0 0 none) (freshTables (fun _ => 0) (fun _ => 0))
        = Outcome.found n
      ∧ n.eq (openGrid (Node3D.mk 4 0 0 0 0 none : Node3D ℝ) 0).goal = true := by
  obtain ⟨n, hres, _, _⟩ := openGrid_run
    (⟨fun z => Real.sqrt z, fun _ _ _ _ _ _ => 0, fun _ _ _ _ _ => 0⟩ : Ext ℝ) real_isSqrt
    nodeQueue 0 0 0 none 0 (fun _ => 0) (fun _ => 0)
  exact ⟨n, hres, (aStar_path_sound
    (⟨fun z => Real.sqrt z, fun _ _ _ _ _ _ => 0, fun _ _ _ _ _ => 0⟩ : Ext ℝ)
    nodeQueue (openGrid (Node3D.mk 4 0 0 0 0 none) 0)
    (Node3D.mk 0 0 0 0 0 none) (freshTables (fun _ => 0) (fun _ => 0)) n (by simp) rfl
    hres).1⟩

/-- C3, as amended: completeness of `Node3D::aStar`.  For every grid, in-bounds start with
heading in `[0, 360)` and goal, with `depth = 8` and `open` and `closed` all false, `aStar`
returns the null result if and only if no pose satisfying the goal test is reachable from
the start by a (possibly empty) sequence of motion-primitive steps through in-bounds cells
with occupancy `0`, poses filed under the start's own lattice cell (same `x`, `y` and
`(int)` heading) being left out of account when the start's heading is not a whole number
and the start itself fails the goal test.  For a start with a whole-number heading no pose
is left out. -/
theorem aStar_null_iff {K : Type} [LinearOrderedField K] (E : Ext K)
    (PQ : PriorityQueue (Node3D K) CompareNodes) (P : Problem K) (start : Node3D K)
    (tb : Tables K) (hd : P.depth = 8) (hb : P.inBounds start.pose)
    (ht : 0 ≤ start.getT ∧ start.getT < 360)
    (hopen : ∀ i, tb.open_ i = false) (hclosed : ∀ i, tb.closed i = false) :
    (aStar E PQ P start tb = Outcome.null
        ↔ ¬ ∃ moves q, P.walk start.pose moves = some q ∧ (q.node K).eq P.goal = true
            ∧ (q.sameCell start.pose →
              start.eq P.goal = true ∨ start.getT = ((toInt start.getT : Int) : ℚ)))
      ∧ (start.getT = ((toInt start.getT : Int) : ℚ) →
        (aStar E PQ P start tb = Outcome.null
          ↔ ¬ ∃ moves q, P.walk start.pose moves = some q
              ∧ (q.node K).eq P.goal = true)) := by
  have h1 := aStar_null_iff_any E PQ P start tb hd hb ht hopen hclosed
  refine ⟨h1, fun hwhole => ?_⟩
  rw [h1]
  constructor
  · rintro h ⟨moves, q, hw, hq⟩
    exact h ⟨moves, q, hw, hq, fun _ => Or.inr hwhole⟩
  · rintro h ⟨moves, q, hw, hq, _⟩
    exact h ⟨moves, q, hw, hq⟩

/-- Witness of C3 as amended: the open `5 x 5` grid from `(0, 0, 0)` in real arithmetic. -/
theorem aStar_null_iff_witness :
    aStar (⟨fun z => Real.sqrt z, fun _ _ _ _ _ _ => 0, fun _ _ _ _ _ => 0⟩ : Ext ℝ)
        nodeQueue (openGrid (Node3D.mk 4 0 0 0 0 none) 0)
        (Node3D.mk 0 0 0 0 0 none) (freshTables (fun _ => 0) (fun _ => 0)) = Outcome.null
      ↔ ¬ ∃ moves q, (openGrid (Node3D.mk 4 0 0 0 0 none : Node3D ℝ) 0).walk
            (Node3D.mk 0 0 0 0 0 none : Node3D ℝ).pose moves = some q
          ∧ (q.node ℝ).eq (openGrid (Node3D.mk 4 0 0 0 0 none : Node3D ℝ) 0).goal = true :=
  (aStar_null_iff (⟨fun z => Real.sqrt z, fun _ _ _ _ _ _ => 0, fun _ _ _ _ _ => 0⟩ : Ext ℝ)
    nodeQueue (openGrid (Node3D.mk 4 0 0 0 0 none) 0) (Node3D.mk 0 0 0 0 0 none)
    (freshTables (fun _ => 0) (fun _ => 0)) rfl (by simp [Problem.inBounds, openGrid])
    (by simp) (fun _ => rfl) (fun _ => rfl)).2 (whole_of_intCast _ 0 (by simp))

/-- The start `(3, 1, 45.5)` fails the goal test of the goal `(3, 1, 22.75)`. -/
theorem lap_start_fails_quarter {K : Type} [LinearOrderedField K] (g h : K)
    (p : Option (Node3D K)) :
    (Node3D.mk 3 1 (91 / 2) g h p).eq (Node3D.mk 3 1 (91 / 4) 0 0 none) = false := by
  have e1 : |(91 / 2 : ℚ)| = 91 / 2 := abs_of_nonneg (by norm_num)
  have e2 : |(91 / 4 : ℚ)| = 91 / 4 := abs_of_nonneg (by norm_num)
  have e3 : |(91 / 2 : ℚ) - 91 / 4| = 91 / 4 := by
    rw [abs_of_nonneg] <;> norm_num
  cases h1 : (Node3D.mk 3 1 (91 / 2) g h p).eq (Node3D.mk 3 1 (91 / 4) 0 0 none) with
  | false => rfl
  | true =>
    rw [eq_true_iff] at h1
    simp only [getX_mk, getY_mk, getT_mk, e1, e2, e3, true_and] at h1
    norm_num at h1

/-- Counterexample to C3 as stated: on the obstacle-free `4 x 5` grid, from the in-bounds
start `(3, 1, heading 45.5)` with goal `(3, 1, heading 22.75)`, `depth = 8` and fresh
tables, `aStar` returns the null result although eight left turns through free cells lead
to the pose `(3, 1, 45)`, which satisfies the goal test.  The pose is filed under the
lattice cell of the start, which fails the goal test. -/
theorem aStar_null_with_reachable_goal :
    aStar (⟨fun z => Real.sqrt z, fun _ _ _ _ _ _ => 0, fun _ _ _ _ _ => 0⟩ : Ext ℝ)
        nodeQueue (lapGrid (Node3D.mk 3 1 (91 / 4) 0 0 none) 0)
        (Node3D.mk 3 1 (91 / 2) 0 0 none) (freshTables (fun _ => 0) (fun _ => 0))
        = Outcome.null
      ∧ (lapGrid (Node3D.mk 3 1 (91 / 4) 0 0 none : Node3D ℝ) 0).walk
          (Node3D.mk 3 1 (91 / 2) 0 0 none : Node3D ℝ).pose [2, 2, 2, 2, 2, 2, 2, 2]
        = some ⟨3, 1, 45⟩
      ∧ ((⟨3, 1, 45⟩ : Pose).node ℝ).eq
          (lapGrid (Node3D.mk 3 1 (91 / 4) 0 0 none : Node3D ℝ) 0).goal = true
      ∧ (⟨3, 1, 45⟩ : Pose).sameCell (Node3D.mk 3 1 (91 / 2) 0 0 none : Node3D ℝ).pose
      ∧ (Node3D.mk 3 1 (91 / 2) 0 0 none : Node3D ℝ).eq
          (lapGrid (Node3D.mk 3 1 (91 / 4) 0 0 none : Node3D ℝ) 0).goal = false :=
  ⟨lap_null _ _ 0 _ _, lap_walk _ 0, lap_goal_passes, lap_sameCell,
    lap_start_fails_quarter 0 0 none⟩

/-- The run on the open grid: the returned node passes the goal test and hangs on the start
node, its chain ends at the start node, and the path of the chain has length 4. -/
theorem openGrid_path {K : Type} [LinearOrderedField K] (E : Ext K) (hE : E.IsSqrt)
    (PQ : PriorityQueue (Node3D K) CompareNodes) (goalG goalH startH : K)
    (goalPred : Option (Node3D K)) (len : Int) (cost costToGo : Int → K) (n : Node3D K)
    (hres : aStar E PQ (openGrid (Node3D.mk 4 0 0 goalG goalH goalPred) len)
      (Node3D.mk 0 0 0 0 startH none) (freshTables cost costToGo) = Outcome.found n)
    (hg : n.getG = 4) :
    n.eq (openGrid (Node3D.mk 4 0 0 goalG goalH goalPred) len).goal = true
      ∧ (openGrid (Node3D.mk 4 0 0 goalG goalH goalPred) len).Linked E
          (startNode E (openGrid (Node3D.mk 4 0 0 goalG goalH goalPred) len)
            (Node3D.mk 0 0 0 0 startH none) (freshTables cost costToGo)) n
      ∧ n.chain.getLast?
        = some (startNode E (openGrid (Node3D.mk 4 0 0 goalG goalH goalPred) len)
            (Node3D.mk 0 0 0 0 startH none) (freshTables cost costToGo))
      ∧ (startNode E (openGrid (Node3D.mk 4 0 0 goalG goalH goalPred) len)
            (Node3D.mk 0 0 0 0 startH none) (freshTables cost costToGo)).pose = ⟨0, 0, 0⟩
      ∧ n.pathLength E = 4 := by
  obtain ⟨hlinked, hgoal⟩ := aStar_linked E PQ _ _ _ n hres
  have hsp : (startNode E (openGrid (Node3D.mk 4 0 0 goalG goalH goalPred) len)
      (Node3D.mk 0 0 0 0 startH none) (freshTables cost costToGo)).getPred = none := by
    rw [startNode_eq]; rfl
  have hsg : (startNode E (openGrid (Node3D.mk 4 0 0 goalG goalH goalPred) len)
      (Node3D.mk 0 0 0 0 startH none) (freshTables cost costToGo)).getG = 0 := by
    rw [startNode_eq, getG_mk, getG_mk, sqrt_zero E hE, add_zero]
  obtain ⟨h1, h2⟩ := pathLength_of_linked E _ _ n hsp hlinked
  refine ⟨hgoal, hlinked, h2, startNode_pose E _ _ _, ?_⟩
  rw [hsg, zero_add, hg] at h1
  exact h1.symm

/-- C4: on the obstacle-free `5 x 5` grid with start `(0, 0, heading 0)` and goal
`(4, 0, heading 0)`, using only the Euclidean heuristic (exact `sqrt`, `costGoal` all zero,
fresh `open` and `closed`), `aStar` returns a node that passes the goal test and whose
predecessor chain leads, motion-primitive step by step through free cells, back to the
start node at `(0, 0, 0)`; the length of that path, the sum of the movement costs along the
chain, is `4`, as is the node's `g`; and no two nodes of the chain have the same lattice
index. -/
theorem aStar_open_grid_example {K : Type} [LinearOrderedField K] (E : Ext K)
    (hE : E.IsSqrt) (PQ : PriorityQueue (Node3D K) CompareNodes) (goalG goalH startH : K)
    (goalPred : Option (Node3D K)) (len : Int) (cost costToGo : Int → K) :
    ∃ n, aStar E PQ (openGrid (Node3D.mk 4 0 0 goalG goalH goalPred) len)
          (Node3D.mk 0 0 0 0 startH none) (freshTables cost costToGo) = Outcome.found n
      ∧ n.eq (openGrid (Node3D.mk 4 0 0 goalG goalH goalPred) len).goal = true
      ∧ (openGrid (Node3D.mk 4 0 0 goalG goalH goalPred) len).Linked E
          (startNode E (openGrid (Node3D.mk 4 0 0 goalG goalH goalPred) len)
            (Node3D.mk 0 0 0 0 startH none) (freshTables cost costToGo)) n
      ∧ n.chain.getLast?
        = some (startNode E (openGrid (Node3D.mk 4 0 0 goalG goalH goalPred) len)
            (Node3D.mk 0 0 0 0 startH none) (freshTables cost costToGo))
      ∧ (startNode E (openGrid (Node3D.mk 4 0 0 goalG goalH goalPred) len)
            (Node3D.mk 0 0 0 0 startH none) (freshTables cost costToGo)).pose = ⟨0, 0, 0⟩
      ∧ n.pathLength E = 4
      ∧ n.getG = 4
      ∧ (n.chain.map fun m =>
          (openGrid (Node3D.mk 4 0 0 goalG goalH goalPred) len).index m.pose).Nodup := by
  obtain ⟨n, hres, hg, hnd⟩ :=
    openGrid_run E hE PQ goalG goalH startH goalPred len cost costToGo
  obtain ⟨h1, h2, h3, h4, h5⟩ :=
    openGrid_path E hE PQ goalG goalH startH goalPred len cost costToGo n hres hg
  exact ⟨n, hres, h1, h2, h3, h4, h5, hg, hnd⟩

/-- Witness of C4: the example in real arithmetic with the list queue. -/
theorem aStar_open_grid_example_witness :
    ∃ n, aStar (⟨fun z => Real.sqrt z, fun _ _ _ _ _ _ => 0, fun _ _ _ _ _ => 0⟩ : Ext ℝ)
          nodeQueue (openGrid (Node3D.mk 4 0 0 0 0 none) 0)
          (Node3D.mk 0 0 0 0 0 none) (freshTables (fun _ => 0) (fun _ => 0))
        = Outcome.found n
      ∧ n.pathLength (⟨fun z => Real.sqrt z, fun _ _ _ _ _ _ => 0, fun _ _ _ _ _ => 0⟩ : Ext ℝ)
        = 4
      ∧ n.getG = 4 := by
  obtain ⟨n, h, _, _, _, _, h5, h6, _⟩ := aStar_open_grid_example
    (⟨fun z => Real.sqrt z, fun _ _ _ _ _ _ => 0, fun _ _ _ _ _ => 0⟩ : Ext ℝ) real_isSqrt
    nodeQueue 0 0 0 none 0 (fun _ => 0) (fun _ => 0)
  exact ⟨n, h, h5, h6⟩

/-- C5, as amended: for every grid, every in-bounds start with heading in `[0, 360)` that
does not itself satisfy the goal test, and every goal, such that every in-bounds cell
adjacent to the start cell is occupied, `aStar` returns the null result. -/
theorem aStar_null_when_blocked {K : Type} [LinearOrderedField K] (E : Ext K)
    (PQ : PriorityQueue (Node3D K) CompareNodes) (P : Problem K) (start : Node3D K)
    (tb : Tables K) (hb : P.inBounds start.pose) (ht : 0 ≤ start.getT ∧ start.getT < 360)
    (hgoal : start.eq P.goal = false)
    (hadj : ∀ x y : Int, 0 ≤ x ∧ x < P.width ∧ 0 ≤ y ∧ y < P.height →
      (x ≠ start.getX ∨ y ≠ start.getY) → |x - start.getX| ≤ 1 → |y - start.getY| ≤ 1 →
      P.oGrid.data (y * P.width + x) ≠ 0) :
    aStar E PQ P start tb = Outcome.null :=
  aStar_of_blocked E PQ P start tb hb ht hgoal hadj

/-- Every cell of the walled grid other than the centre is occupied. -/
theorem walledGrid_blocked {K : Type} (goal : Node3D K) (len : Int) (x y : Int)
    (hb : 0 ≤ x ∧ x < (walledGrid goal len).width ∧ 0 ≤ y ∧ y < (walledGrid goal len).height)
    (hne : x ≠ 1 ∨ y ≠ 1) :
    (walledGrid goal len).oGrid.data (y * (walledGrid goal len).width + x) ≠ 0 := by
  obtain ⟨h1, h2, h3, h4⟩ := hb
  have h2' : x < 3 := h2
  have h4' : y < 3 := h4
  show (if y * 3 + x = 4 then (0 : Int) else 1) ≠ 0
  have : y * 3 + x ≠ 4 := by omega
  rw [if_neg this]
  decide

/-- Witness of C5 as amended: the walled `3 x 3` grid, start at the centre, goal in a
corner. -/
theorem aStar_null_when_blocked_witness :
    aStar (⟨fun z => Real.sqrt z, fun _ _ _ _ _ _ => 0, fun _ _ _ _ _ => 0⟩ : Ext ℝ)
        nodeQueue (walledGrid (Node3D.mk 2 2 0 0 0 none) 0)
        (Node3D.mk 1 1 0 0 0 none) (freshTables (fun _ => 0) (fun _ => 0))
      = Outcome.null :=
  aStar_null_when_blocked _ _ _ _ _ (by simp [Problem.inBounds, walledGrid])
    (by simp)
    (by
      cases h : (Node3D.mk 1 1 0 0 0 none : Node3D ℝ).eq
          (walledGrid (Node3D.mk 2 2 0 0 0 none : Node3D ℝ) 0).goal with
      | false => rfl
      | true =>
        rw [eq_true_iff] at h
        exact absurd h.1 (by simp [walledGrid]))
    (fun x y hb hne _ _ => walledGrid_blocked _ 0 x y hb hne)

/-- Counterexample to C5 as stated: on the walled `3 x 3` grid, where every cell adjacent to
the start cell `(1, 1)` is occupied, with the goal at the start pose, `aStar` returns the
start node and not the null result. -/
theorem aStar_blocked_start_is_goal :
    (∀ x y : Int, 0 ≤ x ∧ x < (walledGrid (Node3D.mk 1 1 0 0 0 none : Node3D ℝ) 0).width
        ∧ 0 ≤ y ∧ y < (walledGrid (Node3D.mk 1 1 0 0 0 none : Node3D ℝ) 0).height →
        (x ≠ 1 ∨ y ≠ 1) → |x - 1| ≤ 1 → |y - 1| ≤ 1 →
        (walledGrid (Node3D.mk 1 1 0 0 0 none : Node3D ℝ) 0).oGrid.data
          (y * (walledGrid (Node3D.mk 1 1 0 0 0 none : Node3D ℝ) 0).width + x) ≠ 0)
      ∧ aStar (⟨fun z => Real.sqrt z, fun _ _ _ _ _ _ => 0, fun _ _ _ _ _ => 0⟩ : Ext ℝ)
          nodeQueue (walledGrid (Node3D.mk 1 1 0 0 0 none) 0)
          (Node3D.mk 1 1 0 0 0 none) (freshTables (fun _ => 0) (fun _ => 0))
        ≠ Outcome.null := by
  refine ⟨fun x y hb hne _ _ => walledGrid_blocked _ 0 x y hb hne, ?_⟩
  rw [aStar_of_start_goal _ _ _ _ _ (by simp [Problem.inBounds, walledGrid]) (by simp)
    (fun _ => rfl) (by rw [eq_true_iff]; simp [walledGrid]; norm_num)]
  exact fun h => Outcome.noConfusion h

end Claims

end PathPlanner

namespace PathPlanner

/-! ## The goal test, the tables and the motion model -/

/-- A rational that is a whole multiple of the spacing of its binade is a `float`: rounding
leaves it as it is. -/
theorem roundFloat_of_float (q : ℚ) (e m : Int) (he : -126 ≤ e) (h1 : (2 : ℚ) ^ e ≤ q)
    (h2 : q < (2 : ℚ) ^ (e + 1)) (hm : q = (m : ℚ) * (2 : ℚ) ^ (e - 23)) :
    roundFloat q = q := by
  have hpos : 0 < q := lt_of_lt_of_le (zpow_pos (by norm_num) e) h1
  have hlog : Int.log 2 q = e := by
    have a1 : e ≤ Int.log 2 q := by
      rw [← Int.zpow_le_iff_le_log (by norm_num) hpos, Nat.cast_ofNat]
      exact h1
    have a2 : Int.log 2 q < e + 1 := by
      rw [← Int.lt_zpow_iff_log_lt (by norm_num) hpos, Nat.cast_ofNat]
      exact h2
    omega
  have hulp : floatUlp q = (2 : ℚ) ^ (e - 23) := by
    unfold floatUlp
    rw [hlog, max_eq_left he]
  have hu : (0 : ℚ) < (2 : ℚ) ^ (e - 23) := zpow_pos (by norm_num) _
  have hdiv : q / (2 : ℚ) ^ (e - 23) = (m : ℚ) := by
    rw [hm, mul_div_assoc, div_self (ne_of_gt hu), mul_one]
  have hre : roundEven (m : ℚ) = m := by
    unfold roundEven
    simp
  unfold roundFloat
  rw [if_neg (not_lt.2 (le_of_lt hpos))]
  unfold roundFloatAbs
  rw [hulp, hdiv, hre, ← hm]

/-- Counterexample to C6 as stated: the headings `22.5 + 2^-19` and `2^-19 - 2^-42` lie in
`[0, 360)` and are `float` values; their difference `22.5 + 2^-42` exceeds 22.5, yet two
nodes on the same cell with these headings pass the test, because the `float` subtraction
rounds the difference to 22.5. -/
theorem eq_accepts_beyond_tolerance :
    ((0 : ℚ) ≤ 45 / 2 + 1 / 2 ^ 19 ∧ (45 / 2 + 1 / 2 ^ 19 : ℚ) < 360)
      ∧ ((0 : ℚ) ≤ 1 / 2 ^ 19 - 1 / 2 ^ 42 ∧ (1 / 2 ^ 19 - 1 / 2 ^ 42 : ℚ) < 360)
      ∧ roundFloat (45 / 2 + 1 / 2 ^ 19) = 45 / 2 + 1 / 2 ^ 19
      ∧ roundFloat (1 / 2 ^ 19 - 1 / 2 ^ 42) = 1 / 2 ^ 19 - 1 / 2 ^ 42
      ∧ (Node3D.mk 0 0 (45 / 2 + 1 / 2 ^ 19) 0 0 none : Node3D ℚ).eq
          (Node3D.mk 0 0 (1 / 2 ^ 19 - 1 / 2 ^ 42) 0 0 none) = true
      ∧ ¬ |(45 / 2 + 1 / 2 ^ 19 : ℚ) - (1 / 2 ^ 19 - 1 / 2 ^ 42)| ≤ 45 / 2 := by
  refine ⟨by norm_num, by norm_num, ?_, ?_, ?_, ?_⟩
  · exact roundFloat_of_float _ 4 11796481 (by decide) (by norm_num) (by norm_num)
      (by norm_num)
  · exact roundFloat_of_float _ (-20) 16777214 (by decide) (by norm_num) (by norm_num)
      (by norm_num)
  · rw [eq_true_iff]
    have e1 : |(45 / 2 + 1 / 2 ^ 19 : ℚ)| = 45 / 2 + 1 / 2 ^ 19 :=
      abs_of_nonneg (by norm_num)
    have e2 : |(1 / 2 ^ 19 - 1 / 2 ^ 42 : ℚ)| = 1 / 2 ^ 19 - 1 / 2 ^ 42 :=
      abs_of_nonneg (by norm_num)
    have e3 : |(45 / 2 + 1 / 2 ^ 19 : ℚ) - (1 / 2 ^ 19 - 1 / 2 ^ 42)|
        = 45 / 2 + 1 / 2 ^ 42 := by
      rw [abs_of_nonneg] <;> norm_num
    simp only [getX_mk, getY_mk, getT_mk, e1, e2, e3, true_and]
    norm_num
  · rw [abs_of_nonneg (by norm_num)]
    norm_num

/-- C6, as amended: the goal test `operator==`.  For nodes with headings in `[0, 360)` the
test holds if and only if the x coordinates are equal, the y coordinates are equal and the
absolute difference of the headings is at most `22.5 + 2^-20` degrees: the `float`
subtraction rounds a difference of up to half a unit in the last place above 22.5 to 22.5.
In particular every difference of at most 22.5 is accepted, a heading difference of exactly
22.5 at the same cell is accepted and one of 22.6 is rejected. -/
theorem eq_iff_within_tolerance {K : Type} (lhs rhs : Node3D K)
    (hl : 0 ≤ lhs.getT ∧ lhs.getT < 360) (hr : 0 ≤ rhs.getT ∧ rhs.getT < 360) :
    (lhs.eq rhs = true ↔
        lhs.getX = rhs.getX ∧ lhs.getY = rhs.getY
          ∧ |lhs.getT - rhs.getT| ≤ 45 / 2 + 1 / 2 ^ 20)
      ∧ (lhs.getX = rhs.getX → lhs.getY = rhs.getY → |lhs.getT - rhs.getT| ≤ 45 / 2 →
          lhs.eq rhs = true)
      ∧ (lhs.getX = rhs.getX → lhs.getY = rhs.getY → |lhs.getT - rhs.getT| = 45 / 2 →
          lhs.eq rhs = true)
      ∧ (lhs.getX = rhs.getX → lhs.getY = rhs.getY → |lhs.getT - rhs.getT| = 113 / 5 →
          lhs.eq rhs = false) := by
  have h1 : |lhs.getT| = lhs.getT := abs_of_nonneg hl.1
  have h2 : |rhs.getT| = rhs.getT := abs_of_nonneg hr.1
  have key : lhs.eq rhs = true ↔
      lhs.getX = rhs.getX ∧ lhs.getY = rhs.getY
        ∧ |lhs.getT - rhs.getT| ≤ 45 / 2 + 1 / 2 ^ 20 := by
    rw [eq_true_iff, h1, h2]
  refine ⟨key, ?_, ?_, ?_⟩
  · intro hx hy ht
    exact key.2 ⟨hx, hy, le_trans ht (by norm_num)⟩
  · intro hx hy ht
    exact key.2 ⟨hx, hy, by rw [ht]; norm_num⟩
  · intro _ _ ht
    cases h : lhs.eq rhs with
    | false => rfl
    | true =>
      have := (key.1 h).2.2
      rw [ht] at this
      norm_num at this

/-- Witness of C6 as amended: a node at heading 22.5 against a goal at heading 0 in the same
cell. -/
theorem eq_iff_within_tolerance_witness :
    ((Node3D.mk 3 4 (45 / 2) 0 0 none : Node3D ℚ).eq (Node3D.mk 3 4 0 0 0 none) = true ↔
        (Node3D.mk 3 4 (45 / 2) 0 0 none : Node3D ℚ).getX
            = (Node3D.mk 3 4 0 0 0 none : Node3D ℚ).getX
        ∧ (Node3D.mk 3 4 (45 / 2) 0 0 none : Node3D ℚ).getY
            = (Node3D.mk 3 4 0 0 0 none : Node3D ℚ).getY
        ∧ |(Node3D.mk 3 4 (45 / 2) 0 0 none : Node3D ℚ).getT
            - (Node3D.mk 3 4 0 0 0 none : Node3D ℚ).getT| ≤ 45 / 2 + 1 / 2 ^ 20) :=
  (eq_iff_within_tolerance (Node3D.mk 3 4 (45 / 2) 0 0 none : Node3D ℚ)
    (Node3D.mk 3 4 0 0 0 none) (by norm_num [Node3D.getT]) (by norm_num [Node3D.getT])).1

/-- Counterexample to C7 as stated: the table `dT` does not map heading 359 to bin 7, so
the five sample values of the claim do not all hold. -/
theorem dT_bin_of_359 :
    ¬ (dTat 0 = some 7 ∧ dTat 44 = some 7 ∧ dTat 45 = some 0 ∧ dTat 359 = some 7
        ∧ dTat 90 = some 1) := by decide

/-- C7, as amended: the table `dT` satisfies `toBin(0) = 7`, `toBin(44) = 7`,
`toBin(45) = 0`, `toBin(359) = 6` and `toBin(90) = 1`. -/
theorem dT_sample_bins :
    dTat 0 = some 7 ∧ dTat 44 = some 7 ∧ dTat 45 = some 0 ∧ dTat 359 = some 6
      ∧ dTat 90 = some 1 := by decide

/-- C8: for every integer heading `h` with `0 <= h < 360`, the table gives
`dT[h] = floor(h / 45) - 1` when that value is non-negative and `7` otherwise, and the
result lies in `[0, 8)`. -/
theorem dT_wrap_rule (h : Int) (h0 : 0 ≤ h) (h360 : h < 360) :
    dTat h = some (if 0 ≤ ⌊(h : ℚ) / 45⌋ - 1 then ⌊(h : ℚ) / 45⌋ - 1 else 7)
      ∧ ∀ b, dTat h = some b → 0 ≤ b ∧ b < 8 := by
  have hfl : ⌊(h : ℚ) / 45⌋ = h / 45 := by
    have := Rat.floor_intCast_div_natCast h 45
    simpa using this
  have hd : h / 45 < 8 := by omega
  have hd0 : 0 ≤ h / 45 := by omega
  rw [hfl, dTat_eq h h0 h360]
  constructor
  · by_cases hc : h / 45 - 1 < 0
    · have : ¬ (0 ≤ h / 45 - 1) := by omega
      simp [hc, this]
    · have : 0 ≤ h / 45 - 1 := by omega
      simp [hc, this]
  · intro b hb
    simp only [Option.some.injEq] at hb
    subst hb
    split <;> omega

/-- Witness of C8: heading 200. -/
theorem dT_wrap_rule_witness :
    dTat 200 = some (if 0 ≤ ⌊((200 : Int) : ℚ) / 45⌋ - 1 then ⌊((200 : Int) : ℚ) / 45⌋ - 1 else 7)
      ∧ ∀ b, dTat 200 = some b → 0 ≤ b ∧ b < 8 :=
  dT_wrap_rule 200 (by decide) (by decide)

/-- A turn of the successor loop computes its candidate and hands it to the checks. -/
theorem successor_eq_relaxCandidate {K : Type} [LinearOrderedField K] (E : Ext K)
    (PQ : PriorityQueue (Node3D K) CompareNodes) (P : Problem K) (nPred : Node3D K)
    (x y t j : Int) (st : SearchState K PQ.Q) (i : Fin 3) :
    successor E PQ P nPred x y t j st i
      = relaxCandidate E PQ P nPred st (x + dXat j i) (y + dYat j i) (tSuccOf t i) := rfl

/-- The entries of `dX` and `dY` in the direction table. -/
theorem dXat_direction (j : Int) (h0 : 0 ≤ j) (h8 : j < 8) (i : Fin 3) :
    (dXat j i, dYat j i) = directionVectors.getD ((j + i.val) % 8).toNat (0, 0) := by
  have : j = 0 ∨ j = 1 ∨ j = 2 ∨ j = 3 ∨ j = 4 ∨ j = 5 ∨ j = 6 ∨ j = 7 := by omega
  rcases this with rfl | rfl | rfl | rfl | rfl | rfl | rfl | rfl <;> fin_cases i <;> decide

/-- C9: the motion model.  For every heading bin `j` in `[0, 8)` the expansion in `aStar`
makes exactly the three turns `i = 0, 1, 2` of the successor loop, in this order; the turn
for candidate `i` applies the checks and the push to the candidate at the displacement
`(dx[(j + i) mod 8], dy[(j + i) mod 8])` of the direction table
`(1,0),(1,1),(0,1),(-1,1),(-1,0),(-1,-1),(0,-1),(1,-1)` with the wrapped heading `t + delta`,
where the heading change `delta` is `-45` for `i = 0`, `0` for `i = 1` and `+45` for
`i = 2`. -/
theorem motion_model {K : Type} [LinearOrderedField K] (E : Ext K)
    (PQ : PriorityQueue (Node3D K) CompareNodes) (P : Problem K) (nPred : Node3D K)
    (x y : Int) (st : SearchState K PQ.Q) (j : Int) (h0 : 0 ≤ j) (h8 : j < 8) (t : Int) :
    expand E PQ P nPred x y t j st
        = (successor E PQ P nPred x y t j st 0).bind (fun s0 =>
            (successor E PQ P nPred x y t j s0 1).bind (fun s1 =>
              successor E PQ P nPred x y t j s1 2))
      ∧ (∀ (s : SearchState K PQ.Q) (i : Fin 3),
          successor E PQ P nPred x y t j s i
            = relaxCandidate E PQ P nPred s
                (x + (directionVectors.getD ((j + i.val) % 8).toNat (0, 0)).1)
                (y + (directionVectors.getD ((j + i.val) % 8).toNat (0, 0)).2)
                (wrap360 (tSuccRaw t i)))
      ∧ successorIndices = [0, 1, 2]
      ∧ List.zip dx dy = directionVectors
      ∧ (∀ i : Fin 3,
          (dXat j i, dYat j i) = directionVectors.getD ((j + i.val) % 8).toNat (0, 0))
      ∧ tSuccRaw t 0 = t - 45 ∧ tSuccRaw t 1 = t ∧ tSuccRaw t 2 = t + 45 := by
  refine ⟨expand_eq E PQ P nPred x y t j st, ?_, rfl, rfl, dXat_direction j h0 h8,
    rfl, rfl, rfl⟩
  intro s i
  rw [successor_eq_relaxCandidate, ← dXat_direction j h0 h8 i]
  rfl

/-- Witness of C9: bin 7, heading 315, on the open `5 x 5` grid: the third candidate lies
at displacement `(1, 1)` with heading 0. -/
theorem motion_model_witness :
    successor (⟨fun _ => 0, fun _ _ _ _ _ _ => 0, fun _ _ _ _ _ => 0⟩ : Ext ℚ) nodeQueue
        (openGrid (Node3D.mk 4 0 0 0 0 none) 0) (Node3D.mk 2 2 315 0 0 none) 2 2 315 7
        (⟨⟨fun _ => false, fun _ => false, fun _ => 0, fun _ => 0, fun _ => 0⟩, []⟩ :
          SearchState ℚ (List (Node3D ℚ))) 2
      = relaxCandidate (⟨fun _ => 0, fun _ _ _ _ _ _ => 0, fun _ _ _ _ _ => 0⟩ : Ext ℚ)
          nodeQueue (openGrid (Node3D.mk 4 0 0 0 0 none) 0) (Node3D.mk 2 2 315 0 0 none)
          (⟨⟨fun _ => false, fun _ => false, fun _ => 0, fun _ => 0, fun _ => 0⟩, []⟩ :
            SearchState ℚ (List (Node3D ℚ))) (2 + 1) (2 + 1) 0 :=
  (motion_model (⟨fun _ => 0, fun _ _ _ _ _ _ => 0, fun _ _ _ _ _ => 0⟩ : Ext ℚ) nodeQueue
    (openGrid (Node3D.mk 4 0 0 0 0 none) 0) (Node3D.mk 2 2 315 0 0 none) 2 2
    (⟨⟨fun _ => false, fun _ => false, fun _ => 0, fun _ => 0, fun _ => 0⟩, []⟩ :
      SearchState ℚ (List (Node3D ℚ))) 7 (by decide) (by decide) 315).2.1
    (⟨⟨fun _ => false, fun _ => false, fun _ => 0, fun _ => 0, fun _ => 0⟩, []⟩ :
      SearchState ℚ (List (Node3D ℚ))) 2

/-- C10: successor heading normalisation.  For every integer parent heading `t` with
`0 <= t < 360` and every `delta` in `{-45, 0, +45}`, the successor heading computed for the
candidate with that heading change lies in `[0, 360)` and is congruent to `t + delta`
modulo 360. -/
theorem tSucc_normalised (t : Int) (h0 : 0 ≤ t) (h360 : t < 360) (delta : Int)
    (hd : delta = -45 ∨ delta = 0 ∨ delta = 45) :
    ∃ i : Fin 3, tSuccRaw t i = t + delta ∧ 0 ≤ tSuccOf t i ∧ tSuccOf t i < 360
      ∧ tSuccOf t i % 360 = (t + delta) % 360 := by
  rcases hd with rfl | rfl | rfl
  · refine ⟨0, rfl, ?_⟩
    simp only [tSuccOf, tSuccRaw, wrap360]
    split_ifs <;> omega
  · refine ⟨1, by simp [tSuccRaw], ?_⟩
    simp only [tSuccOf, tSuccRaw, wrap360]
    split_ifs <;> omega
  · refine ⟨2, rfl, ?_⟩
    simp only [tSuccOf, tSuccRaw, wrap360]
    split_ifs <;> omega

/-- Witness of C10: heading 330 turned by +45. -/
theorem tSucc_normalised_witness :
    ∃ i : Fin 3, tSuccRaw 330 i = 330 + 45 ∧ 0 ≤ tSuccOf 330 i ∧ tSuccOf 330 i < 360
      ∧ tSuccOf 330 i % 360 = (330 + 45) % 360 :=
  tSucc_normalised 330 (by decide) (by decide) 45 (by decide)


end PathPlanner

namespace PathPlanner

/-! ## The shape of a pass, for every input -/

section Pass

set_option linter.unusedSectionVars false

variable {K : Type} [LinearOrderedField K]

/-- A turn of the successor loop never reads outside an array when the heading of the popped
node lies inside `dT`; it leaves the loop variables as they are or accepts a child. -/
theorem successor_relax (E : Ext K) (PQ : PriorityQueue (Node3D K) CompareNodes)
    (P : Problem K) (nPred : Node3D K) (j : Int) (st : SearchState K PQ.Q) (i : Fin 3)
    (hj : dTat (toInt nPred.getT) = some j) :
    ∃ st1, successor E PQ P nPred nPred.getX nPred.getY (toInt nPred.getT) j st i = some st1
      ∧ P.Relax E PQ nPred st st1 := by
  obtain ⟨q, idx, b, hq, _, hidx, heq⟩ := successor_eq_gen E PQ P nPred j st i hj
  refine ⟨_, heq, ?_⟩
  by_cases hacc : P.free q ∧ b < P.depth ∧ st.closed idx = false
      ∧ (st.open_ idx = false ∨ nPred.getG + stepCost E nPred.pose q < st.cost idx)
  · rw [if_pos hacc]
    exact Or.inr ⟨i, q, idx, hq, hacc.1, hidx, hacc.2.2.1, hacc.2.2.2, rfl⟩
  · rw [if_neg hacc]
    exact Or.inl rfl

/-- The successor loop never reads outside an array when the heading of the popped node lies
inside `dT`; it makes three turns. -/
theorem expand_relax (E : Ext K) (PQ : PriorityQueue (Node3D K) CompareNodes)
    (P : Problem K) (nPred : Node3D K) (j : Int) (st : SearchState K PQ.Q)
    (hj : dTat (toInt nPred.getT) = some j) :
    ∃ sa sb sc, expand E PQ P nPred nPred.getX nPred.getY (toInt nPred.getT) j st = some sc
      ∧ P.Relax E PQ nPred st sa ∧ P.Relax E PQ nPred sa sb ∧ P.Relax E PQ nPred sb sc := by
  obtain ⟨sa, ha, ra⟩ := successor_relax E PQ P nPred j st 0 hj
  obtain ⟨sb, hb, rb⟩ := successor_relax E PQ P nPred j sa 1 hj
  obtain ⟨sc, hc, rc⟩ := successor_relax E PQ P nPred j sb 2 hj
  refine ⟨sa, sb, sc, ?_, ra, rb, rc⟩
  rw [expand_eq, ha, Option.some_bind, hb, Option.some_bind, hc]

/-- The five ways a pass of the loop can go: the open list is empty; the popped node has no
lattice index inside the tables; its index is closed and it is dropped; its index is closed
now and it passes the goal test; or its index is closed now and the three turns of the
successor loop follow. -/
theorem loopBody_cases (E : Ext K) (PQ : PriorityQueue (Node3D K) CompareNodes)
    (P : Problem K) (st : SearchState K PQ.Q) :
    (PQ.pop st.O = none ∧ closes PQ P st = none
        ∧ loopBody E PQ P st = Step.done Outcome.null)
      ∨ ∃ n O1, PQ.pop st.O = some (n, O1) ∧
        ((P.index n.pose = none ∧ closes PQ P st = none
            ∧ loopBody E PQ P st = Step.done Outcome.undefined)
          ∨ ∃ idx, P.index n.pose = some idx ∧
            ((¬ P.inTable idx ∧ closes PQ P st = none
                ∧ loopBody E PQ P st = Step.done Outcome.undefined)
              ∨ (P.inTable idx ∧ st.closed idx = true ∧ closes PQ P st = none
                ∧ loopBody E PQ P st = Step.next (st.drop PQ O1))
              ∨ (P.inTable idx ∧ st.closed idx = false ∧ closes PQ P st = some idx
                ∧ n.eq P.goal = true ∧ loopBody E PQ P st = Step.done (Outcome.found n))
              ∨ (P.inTable idx ∧ st.closed idx = false ∧ closes PQ P st = some idx
                ∧ n.eq P.goal = false ∧ ∃ sa sb sc,
                  P.Relax E PQ n (st.close PQ O1 idx) sa ∧ P.Relax E PQ n sa sb
                    ∧ P.Relax E PQ n sb sc ∧ loopBody E PQ P st = Step.next sc))) := by
  cases hpop : PQ.pop st.O with
  | none =>
    exact Or.inl ⟨rfl, by simp [closes, hpop], loopBody_empty E PQ P st hpop⟩
  | some pr =>
    obtain ⟨n, O1⟩ := pr
    refine Or.inr ⟨n, O1, rfl, ?_⟩
    cases hb : dTat (toInt n.getT) with
    | none =>
      exact Or.inl ⟨by simp [Problem.index, hb], by simp [closes, hpop, hb],
        loopBody_badHeading E PQ P st n O1 hpop hb⟩
    | some b =>
      refine Or.inr ⟨_, index_eq_some P n b hb, ?_⟩
      by_cases htab : P.inTable (b * P.width * P.height + n.getY * P.width + n.getX)
      · by_cases hcl : st.closed (b * P.width * P.height + n.getY * P.width + n.getX) = true
        · exact Or.inr (Or.inl ⟨htab, hcl, by simp [closes, hpop, hb, hcl],
            loopBody_drop E PQ P st n O1 b hpop hb htab hcl⟩)
        · have hcl' : st.closed (b * P.width * P.height + n.getY * P.width + n.getX)
              = false := by simpa using hcl
          have hc : closes PQ P st
              = some (b * P.width * P.height + n.getY * P.width + n.getX) := by
            simp [closes, hpop, hb, hcl', htab]
          by_cases hgoal : n.eq P.goal = true
          · exact Or.inr (Or.inr (Or.inl ⟨htab, hcl', hc, hgoal,
              loopBody_found E PQ P st n O1 b hpop hb htab hcl' hgoal⟩))
          · have hgoal' : n.eq P.goal = false := by simpa using hgoal
            obtain ⟨sa, sb, sc, hex, ra, rb, rc⟩ := expand_relax E PQ P n b
              (st.close PQ O1 (b * P.width * P.height + n.getY * P.width + n.getX)) hb
            exact Or.inr (Or.inr (Or.inr ⟨htab, hcl', hc, hgoal', sa, sb, sc, ra, rb, rc,
              loopBody_expand E PQ P st n O1 b hpop hb htab hcl' hgoal' sc hex⟩))
      · exact Or.inl ⟨htab, by simp [closes, hpop, hb, htab],
          loopBody_badIndex E PQ P st n O1 b hpop hb htab⟩

/-- A turn of the successor loop does not write to `closed`. -/
theorem relax_closed (E : Ext K) (PQ : PriorityQueue (Node3D K) CompareNodes)
    (P : Problem K) (n : Node3D K) (st st1 : SearchState K PQ.Q)
    (h : P.Relax E PQ n st st1) : st1.closed = st.closed := by
  rcases h with rfl | ⟨i, q, idx, _, _, _, _, _, rfl⟩
  · rfl
  · rfl

/-- A turn of the successor loop pushes at most one node. -/
theorem relax_length (E : Ext K) (PQ : PriorityQueue (Node3D K) CompareNodes)
    (P : Problem K) (n : Node3D K) (st st1 : SearchState K PQ.Q)
    (h : P.Relax E PQ n st st1) :
    (PQ.toList st1.O).length ≤ (PQ.toList st.O).length + 1 := by
  rcases h with rfl | ⟨i, q, idx, _, _, _, _, _, rfl⟩
  · omega
  · show (PQ.toList (PQ.push st.O _)).length ≤ _
    rw [length_push]

/-- Every pass after which the loop goes on lowers the measure. -/
theorem pass_measure (E : Ext K) (PQ : PriorityQueue (Node3D K) CompareNodes)
    (P : Problem K) (st st1 : SearchState K PQ.Q)
    (h : loopBody E PQ P st = Step.next st1) : st1.measure PQ P < st.measure PQ P := by
  rcases loopBody_cases E PQ P st with ⟨_, _, h1⟩ | ⟨n, O1, hpop, h1⟩
  · rw [h1] at h; exact Step.noConfusion h
  · have hlen := length_pop PQ st.O O1 n hpop
    rcases h1 with ⟨_, _, h1⟩ | ⟨idx, _, h1⟩
    · rw [h1] at h; cases h
    · rcases h1 with ⟨_, _, h1⟩ | ⟨_, _, _, h1⟩ | ⟨_, _, _, _, h1⟩
          | ⟨htab, hcl, _, _, sa, sb, sc, ra, rb, rc, h1⟩
      · rw [h1] at h; cases h
      · rw [h1] at h
        have : st.drop PQ O1 = st1 := by simpa using h
        subst this
        have hu : (st.drop PQ O1).unclosed P = st.unclosed P :=
          unclosed_congr P PQ.Q st (st.drop PQ O1) rfl
        have hO : (st.drop PQ O1).O = O1 := rfl
        unfold SearchState.measure
        rw [hu, hO]
        omega
      · rw [h1] at h; cases h
      · rw [h1] at h
        have : sc = st1 := by simpa using h
        subst this
        have hu0 : (st.close PQ O1 idx).unclosed P + 1 = st.unclosed P :=
          unclosed_update P PQ.Q st _ idx htab hcl rfl
        have hua := unclosed_congr P PQ.Q _ _ (relax_closed E PQ P n _ sa ra)
        have hub := unclosed_congr P PQ.Q _ _ (relax_closed E PQ P n _ sb rb)
        have huc := unclosed_congr P PQ.Q _ _ (relax_closed E PQ P n _ sc rc)
        have hla := relax_length E PQ P n _ sa ra
        have hlb := relax_length E PQ P n _ sb rb
        have hlc := relax_length E PQ P n _ sc rc
        have hO : (st.close PQ O1 idx).O = O1 := rfl
        rw [hO] at hla
        unfold SearchState.measure
        omega

/-- The loop has returned before the fuel runs out, whenever the fuel exceeds the measure. -/
theorem iterate_ne_running (E : Ext K) (PQ : PriorityQueue (Node3D K) CompareNodes)
    (P : Problem K) (fuel : Nat) (st : SearchState K PQ.Q)
    (h : st.measure PQ P < fuel) : iterate E PQ P fuel st ≠ Outcome.running := by
  induction fuel generalizing st with
  | zero => omega
  | succ fuel ih =>
    cases hl : loopBody E PQ P st with
    | done r =>
      rw [iterate_done E PQ P fuel st r hl]
      rcases loopBody_cases E PQ P st with ⟨_, _, h1⟩ | ⟨n, O1, _, h1⟩
      · rw [h1] at hl; cases hl; exact fun h => Outcome.noConfusion h
      · rcases h1 with ⟨_, _, h1⟩ | ⟨idx, _, h1⟩
        · rw [h1] at hl; cases hl; exact fun h => Outcome.noConfusion h
        · rcases h1 with ⟨_, _, h1⟩ | ⟨_, _, _, h1⟩ | ⟨_, _, _, _, h1⟩
              | ⟨_, _, _, _, sa, sb, sc, _, _, _, h1⟩
          · rw [h1] at hl; cases hl; exact fun h => Outcome.noConfusion h
          · rw [h1] at hl; cases hl
          · rw [h1] at hl; cases hl; exact fun h => Outcome.noConfusion h
          · rw [h1] at hl; cases hl
    | next st1 =>
      rw [iterate_next E PQ P fuel st st1 hl]
      have := pass_measure E PQ P st st1 hl
      exact ih st1 (by omega)

/-- More fuel than the measure does not change what the loop returns. -/
theorem iterate_fuel (E : Ext K) (PQ : PriorityQueue (Node3D K) CompareNodes)
    (P : Problem K) (fuel fuel1 : Nat) (st : SearchState K PQ.Q)
    (h : st.measure PQ P < fuel) (h1 : st.measure PQ P < fuel1) :
    iterate E PQ P fuel st = iterate E PQ P fuel1 st := by
  induction fuel generalizing st fuel1 with
  | zero => omega
  | succ fuel ih =>
    cases fuel1 with
    | zero => omega
    | succ fuel1 =>
      cases hl : loopBody E PQ P st with
      | done r =>
        rw [iterate_done E PQ P fuel st r hl, iterate_done E PQ P fuel1 st r hl]
      | next st1 =>
        rw [iterate_next E PQ P fuel st st1 hl, iterate_next E PQ P fuel1 st st1 hl]
        have := pass_measure E PQ P st st1 hl
        exact ih fuel1 st1 (by omega) (by omega)

/-- The measure of the loop variables that `aStar` enters the loop with is below the fuel. -/
theorem initial_measure (E : Ext K) (PQ : PriorityQueue (Node3D K) CompareNodes)
    (P : Problem K) (start : Node3D K) (tb : Tables K) (st : SearchState K PQ.Q)
    (h : initial E PQ P start tb = some st) :
    (PQ.toList st.O).length = 1 ∧ st.measure PQ P < fuelFor P := by
  have hlen : (PQ.toList st.O).length = 1 := by
    cases hb : dTat (toInt start.getT) with
    | none => rw [initial_none E PQ P start tb (Or.inl hb)] at h; cases h
    | some b =>
      by_cases htab : P.inTable (b * P.width * P.height + start.getY * P.width + start.getX)
      · rw [initial_eq E PQ P start tb b hb htab] at h
        have h1 := Option.some.inj h
        subst h1
        show (PQ.toList (PQ.push PQ.empty _)).length = 1
        rw [length_push, PQ.toList_empty]
        rfl
      · rw [initial_none E PQ P start tb (Or.inr ⟨b, hb, htab⟩)] at h; cases h
  refine ⟨hlen, ?_⟩
  have := unclosed_le P PQ.Q st
  unfold SearchState.measure fuelFor
  omega

/-- The function `aStar` returns: the loop is never cut short by the fuel. -/
theorem aStar_ne_running (E : Ext K) (PQ : PriorityQueue (Node3D K) CompareNodes)
    (P : Problem K) (start : Node3D K) (tb : Tables K) :
    aStar E PQ P start tb ≠ Outcome.running := by
  unfold aStar
  cases h : initial E PQ P start tb with
  | none => exact fun h => Outcome.noConfusion h
  | some st =>
    exact iterate_ne_running E PQ P _ st (initial_measure E PQ P start tb st h).2

end Pass

end PathPlanner

namespace PathPlanner

/-! ## The states of a run -/

section States

set_option linter.unusedSectionVars false

variable {K : Type} [LinearOrderedField K]

/-- The list of states with fuel left and a pass that goes on. -/
theorem states_next (E : Ext K) (PQ : PriorityQueue (Node3D K) CompareNodes)
    (P : Problem K) (fuel : Nat) (st st1 : SearchState K PQ.Q)
    (h : loopBody E PQ P st = Step.next st1) :
    states E PQ P (fuel + 1) st = st :: states E PQ P fuel st1 := by
  simp only [states, h]

/-- The list of states with fuel left and a pass that returns. -/
theorem states_done (E : Ext K) (PQ : PriorityQueue (Node3D K) CompareNodes)
    (P : Problem K) (fuel : Nat) (st : SearchState K PQ.Q) (r : Outcome K)
    (h : loopBody E PQ P st = Step.done r) : states E PQ P (fuel + 1) st = [st] := by
  simp only [states, h]

/-- A property of the loop variables that every pass preserves holds at the head of every
pass. -/
theorem states_invariant (E : Ext K) (PQ : PriorityQueue (Node3D K) CompareNodes)
    (P : Problem K) (J : SearchState K PQ.Q → Prop)
    (hJ : ∀ st st1, J st → loopBody E PQ P st = Step.next st1 → J st1) (fuel : Nat)
    (st : SearchState K PQ.Q) (h0 : J st) : ∀ s ∈ states E PQ P fuel st, J s := by
  induction fuel generalizing st with
  | zero =>
    intro s hs
    have : s = st := by simpa [states] using hs
    subst this
    exact h0
  | succ fuel ih =>
    intro s hs
    cases hl : loopBody E PQ P st with
    | done r =>
      rw [states_done E PQ P fuel st r hl] at hs
      have : s = st := by simpa using hs
      subst this
      exact h0
    | next st1 =>
      rw [states_next E PQ P fuel st st1 hl] at hs
      rcases List.mem_cons.1 hs with rfl | hs
      · exact h0
      · exact ih st1 (hJ st st1 h0 hl) s hs

/-- The index that a pass closes lies inside the tables and was not closed. -/
theorem closes_spec (PQ : PriorityQueue (Node3D K) CompareNodes) (P : Problem K)
    (st : SearchState K PQ.Q) (idx : Int) (h : closes PQ P st = some idx) :
    P.inTable idx ∧ st.closed idx = false := by
  unfold closes at h
  cases hpop : PQ.pop st.O with
  | none => simp [hpop] at h
  | some pr =>
    obtain ⟨n, O1⟩ := pr
    cases hb : dTat (toInt n.getT) with
    | none => simp [hpop, hb] at h
    | some b =>
      simp only [hpop, hb] at h
      by_cases hc : P.inTable (b * P.width * P.height + n.getY * P.width + n.getX)
          ∧ st.closed (b * P.width * P.height + n.getY * P.width + n.getX) = false
      · rw [if_pos hc] at h
        have := Option.some.inj h
        subst this
        exact hc
      · rw [if_neg hc] at h
        cases h

/-- What a pass after which the loop goes on does to `closed`: nothing when the popped node
is dropped, and otherwise it sets the entry of the index it closes. -/
theorem pass_closed (E : Ext K) (PQ : PriorityQueue (Node3D K) CompareNodes)
    (P : Problem K) (st st1 : SearchState K PQ.Q)
    (h : loopBody E PQ P st = Step.next st1) :
    (closes PQ P st = none ∧ st1.closed = st.closed)
      ∨ ∃ idx, closes PQ P st = some idx ∧ st1.closed = Function.update st.closed idx true := by
  rcases loopBody_cases E PQ P st with ⟨_, _, h1⟩ | ⟨n, O1, hpop, h1⟩
  · rw [h1] at h; cases h
  · rcases h1 with ⟨_, _, h1⟩ | ⟨idx, _, h1⟩
    · rw [h1] at h; cases h
    · rcases h1 with ⟨_, _, h1⟩ | ⟨_, _, hc, h1⟩ | ⟨_, _, _, _, h1⟩
          | ⟨htab, hcl, hc, _, sa, sb, sc, ra, rb, rc, h1⟩
      · rw [h1] at h; cases h
      · rw [h1] at h
        have : st.drop PQ O1 = st1 := by simpa using h
        subst this
        exact Or.inl ⟨hc, rfl⟩
      · rw [h1] at h; cases h
      · rw [h1] at h
        have : sc = st1 := by simpa using h
        subst this
        refine Or.inr ⟨idx, hc, ?_⟩
        rw [relax_closed E PQ P n _ sc rc, relax_closed E PQ P n _ sb rb,
          relax_closed E PQ P n _ sa ra]
        rfl

/-- No pass resets an entry of `closed`. -/
theorem pass_closed_mono (E : Ext K) (PQ : PriorityQueue (Node3D K) CompareNodes)
    (P : Problem K) (st st1 : SearchState K PQ.Q)
    (h : loopBody E PQ P st = Step.next st1) (idx : Int) (hc : st.closed idx = true) :
    st1.closed idx = true := by
  rcases pass_closed E PQ P st st1 h with ⟨_, h1⟩ | ⟨i, _, h1⟩
  · rw [h1]; exact hc
  · rw [h1]
    by_cases hi : idx = i
    · subst hi; simp
    · rw [Function.update_noteq hi]; exact hc

/-- No later state of a run has an entry of `closed` reset. -/
theorem states_closed_mono (E : Ext K) (PQ : PriorityQueue (Node3D K) CompareNodes)
    (P : Problem K) (fuel : Nat) (st : SearchState K PQ.Q) :
    ∀ s ∈ states E PQ P fuel st, ∀ idx, st.closed idx = true → s.closed idx = true :=
  states_invariant E PQ P (fun s => ∀ idx, st.closed idx = true → s.closed idx = true)
    (fun a b ha hl idx hc => pass_closed_mono E PQ P a b hl idx (ha idx hc)) fuel st
    (fun _ h => h)

/-- Along a run, `closed` only grows: what is closed at the head of a pass is closed at the
head of every later pass. -/
theorem states_pairwise (E : Ext K) (PQ : PriorityQueue (Node3D K) CompareNodes)
    (P : Problem K) (fuel : Nat) (st : SearchState K PQ.Q) :
    (states E PQ P fuel st).Pairwise
      fun a b => ∀ idx, a.closed idx = true → b.closed idx = true := by
  induction fuel generalizing st with
  | zero => simp [states]
  | succ fuel ih =>
    cases hl : loopBody E PQ P st with
    | done r =>
      rw [states_done E PQ P fuel st r hl]
      simp
    | next st1 =>
      rw [states_next E PQ P fuel st st1 hl]
      refine List.Pairwise.cons ?_ (ih st1)
      intro b hb idx hc
      exact states_closed_mono E PQ P fuel st1 b hb idx
        (pass_closed_mono E PQ P st st1 hl idx hc)

/-- The indices closed along a run are pairwise different, lie inside the tables, were not
closed when the run began, and are at most as many as the indices not closed then. -/
theorem closes_nodup (E : Ext K) (PQ : PriorityQueue (Node3D K) CompareNodes)
    (P : Problem K) (fuel : Nat) (st : SearchState K PQ.Q) :
    ((states E PQ P fuel st).filterMap (closes PQ P)).Nodup
      ∧ (∀ idx ∈ (states E PQ P fuel st).filterMap (closes PQ P),
          P.inTable idx ∧ st.closed idx = false)
      ∧ ((states E PQ P fuel st).filterMap (closes PQ P)).length ≤ st.unclosed P := by
  induction fuel generalizing st with
  | zero =>
    simp only [states]
    cases hc : closes PQ P st with
    | none => simp [List.filterMap_cons, hc]
    | some idx =>
      obtain ⟨h1, h2⟩ := closes_spec PQ P st idx hc
      have hu := unclosed_update P PQ.Q st
        { st with closed := Function.update st.closed idx true } idx h1 h2 rfl
      simp only [List.filterMap_cons, hc, List.filterMap_nil, List.nodup_cons,
        List.not_mem_nil, not_false_eq_true, List.nodup_nil, and_self, List.mem_singleton,
        forall_eq, List.length_singleton, true_and]
      exact ⟨⟨h1, h2⟩, by omega⟩
  | succ fuel ih =>
    cases hl : loopBody E PQ P st with
    | done r =>
      rw [states_done E PQ P fuel st r hl]
      cases hc : closes PQ P st with
      | none => simp [List.filterMap_cons, hc]
      | some idx =>
        obtain ⟨h1, h2⟩ := closes_spec PQ P st idx hc
        have hu := unclosed_update P PQ.Q st
          { st with closed := Function.update st.closed idx true } idx h1 h2 rfl
        simp only [List.filterMap_cons, hc, List.filterMap_nil, List.nodup_cons,
          List.not_mem_nil, not_false_eq_true, List.nodup_nil, and_self, List.mem_singleton,
          forall_eq, List.length_singleton, true_and]
        exact ⟨⟨h1, h2⟩, by omega⟩
    | next st1 =>
      rw [states_next E PQ P fuel st st1 hl]
      obtain ⟨ih1, ih2, ih3⟩ := ih st1
      rcases pass_closed E PQ P st st1 hl with ⟨hc, h1⟩ | ⟨i, hc, h1⟩
      · rw [List.filterMap_cons, hc]
        have hu : st1.unclosed P = st.unclosed P := unclosed_congr P PQ.Q st st1 h1
        simp only []
        refine ⟨ih1, fun idx hidx => ?_, by omega⟩
        have := ih2 idx hidx
        rw [h1] at this
        exact this
      · rw [List.filterMap_cons, hc]
        simp only []
        obtain ⟨h2, h3⟩ := closes_spec PQ P st i hc
        have hu := unclosed_update P PQ.Q st st1 i h2 h3 h1
        have hi1 : st1.closed i = true := by rw [h1]; simp
        refine ⟨List.nodup_cons.2 ⟨fun hmem => ?_, ih1⟩, fun idx hidx => ?_, ?_⟩
        · have := (ih2 i hmem).2
          rw [hi1] at this
          cases this
        · rcases List.mem_cons.1 hidx with rfl | hidx
          · exact ⟨h2, h3⟩
          · obtain ⟨h4, h5⟩ := ih2 idx hidx
            refine ⟨h4, ?_⟩
            cases h6 : st.closed idx with
            | false => rfl
            | true =>
              rw [pass_closed_mono E PQ P st st1 hl idx h6] at h5
              cases h5
        · simp only [List.length_cons]
          omega

/-- More fuel than the measure does not change the list of states, and the pass from the
last state leaves the function. -/
theorem states_fuel (E : Ext K) (PQ : PriorityQueue (Node3D K) CompareNodes)
    (P : Problem K) (fuel fuel1 : Nat) (st : SearchState K PQ.Q)
    (h : st.measure PQ P < fuel) (h1 : st.measure PQ P < fuel1) :
    states E PQ P fuel st = states E PQ P fuel1 st
      ∧ ∃ s r, (states E PQ P fuel st).getLast? = some s ∧ loopBody E PQ P s = Step.done r
        ∧ iterate E PQ P fuel st = r := by
  induction fuel generalizing st fuel1 with
  | zero => omega
  | succ fuel ih =>
    cases fuel1 with
    | zero => omega
    | succ fuel1 =>
      cases hl : loopBody E PQ P st with
      | done r =>
        rw [states_done E PQ P fuel st r hl, states_done E PQ P fuel1 st r hl,
          iterate_done E PQ P fuel st r hl]
        exact ⟨rfl, st, r, rfl, hl, rfl⟩
      | next st1 =>
        rw [states_next E PQ P fuel st st1 hl, states_next E PQ P fuel1 st st1 hl,
          iterate_next E PQ P fuel st st1 hl]
        have := pass_measure E PQ P st st1 hl
        obtain ⟨e1, s, r, e2, e3, e4⟩ := ih fuel1 st1 (by omega) (by omega)
        refine ⟨by rw [e1], s, r, ?_, e3, e4⟩
        rw [List.getLast?_cons, e2]
        rfl

end States

end PathPlanner

namespace PathPlanner

/-! ## Index safety -/

section Safety

set_option linter.unusedSectionVars false

variable {K : Type} [LinearOrderedField K]

/-- A turn of the successor loop puts only filed nodes on the open list. -/
theorem relax_filed (E : Ext K) (PQ : PriorityQueue (Node3D K) CompareNodes)
    (P : Problem K) (k0 : Int) (n : Node3D K) (st st1 : SearchState K PQ.Q)
    (hn : P.Filed k0 n.pose) (hst : ∀ m ∈ PQ.toList st.O, P.Filed k0 m.pose)
    (h : P.Relax E PQ n st st1) : ∀ m ∈ PQ.toList st1.O, P.Filed k0 m.pose := by
  rcases h with rfl | ⟨i, q, idx, hq, hfree, _, _, _, rfl⟩
  · exact hst
  · intro m hm
    rcases (mem_push PQ st.O _ m).1 hm with rfl | hm
    · rw [child_pose]
      exact (onLattice_of_successor P k0 n.pose q hn i hq hfree.1).1
    · exact hst m hm

/-- A pass from loop variables whose open list holds only filed nodes reads and writes inside
the arrays, and leaves only filed nodes on the open list. -/
theorem pass_filed (E : Ext K) (PQ : PriorityQueue (Node3D K) CompareNodes)
    (P : Problem K) (k0 : Int) (st : SearchState K PQ.Q)
    (hst : ∀ m ∈ PQ.toList st.O, P.Filed k0 m.pose) :
    loopBody E PQ P st ≠ Step.done Outcome.undefined
      ∧ ∀ st1, loopBody E PQ P st = Step.next st1 →
          ∀ m ∈ PQ.toList st1.O, P.Filed k0 m.pose := by
  rcases loopBody_cases E PQ P st with ⟨_, _, h1⟩ | ⟨n, O1, hpop, h1⟩
  · rw [h1]
    exact ⟨fun h => (by cases h), fun st1 h => (by cases h)⟩
  · have hmem : n ∈ PQ.toList st.O := (mem_pop PQ st.O O1 n n hpop).2 (Or.inl rfl)
    have hsub : ∀ m ∈ PQ.toList O1, P.Filed k0 m.pose := fun m hm =>
      hst m ((mem_pop PQ st.O O1 n m hpop).2 (Or.inr hm))
    have hn := hst n hmem
    obtain ⟨b, idx1, _, _, _, hi, _, htab1⟩ := index_of_filed P k0 n.pose hn
    rcases h1 with ⟨h2, _, _⟩ | ⟨idx, hidx, h1⟩
    · rw [h2] at hi; cases hi
    · rw [hidx] at hi
      have := Option.some.inj hi
      subst this
      rcases h1 with ⟨h2, _, _⟩ | ⟨_, _, _, h1⟩ | ⟨_, _, _, _, h1⟩
          | ⟨_, _, _, _, sa, sb, sc, ra, rb, rc, h1⟩
      · exact absurd htab1 h2
      · rw [h1]
        refine ⟨fun h => (by cases h), fun st1 h => ?_⟩
        have : st.drop PQ O1 = st1 := by simpa using h
        subst this
        exact hsub
      · rw [h1]
        exact ⟨fun h => (by cases h), fun st1 h => (by cases h)⟩
      · rw [h1]
        refine ⟨fun h => (by cases h), fun st1 h => ?_⟩
        have : sc = st1 := by simpa using h
        subst this
        have ha := relax_filed E PQ P k0 n _ sa hn hsub ra
        have hb := relax_filed E PQ P k0 n _ sb hn ha rb
        exact relax_filed E PQ P k0 n _ sc hn hb rc

/-- The loop entered with only filed nodes on the open list never reads or writes outside
an array. -/
theorem iterate_ne_undefined (E : Ext K) (PQ : PriorityQueue (Node3D K) CompareNodes)
    (P : Problem K) (k0 : Int) (fuel : Nat) (st : SearchState K PQ.Q)
    (hst : ∀ m ∈ PQ.toList st.O, P.Filed k0 m.pose) :
    iterate E PQ P fuel st ≠ Outcome.undefined := by
  induction fuel generalizing st with
  | zero => exact fun h => by simp [iterate] at h
  | succ fuel ih =>
    obtain ⟨h1, h2⟩ := pass_filed E PQ P k0 st hst
    cases hl : loopBody E PQ P st with
    | done r =>
      rw [iterate_done E PQ P fuel st r hl]
      intro hr
      subst hr
      exact h1 hl
    | next st1 =>
      rw [iterate_next E PQ P fuel st st1 hl]
      exact ih st1 (h2 st1 hl)

/-- From an in-bounds start with heading in `[0, 360)` the loop is entered, with the start
node alone on the open list. -/
theorem initial_filed (E : Ext K) (PQ : PriorityQueue (Node3D K) CompareNodes)
    (P : Problem K) (start : Node3D K) (tb : Tables K) (hb : P.inBounds start.pose)
    (ht : 0 ≤ start.getT ∧ start.getT < 360) :
    ∃ st, initial E PQ P start tb = some st
      ∧ ∀ m ∈ PQ.toList st.O, P.Filed (toInt start.getT) m.pose := by
  have hs0 := filed_start P start hb ht
  obtain ⟨b, idx, hbt, _, _, _, hidx, htab⟩ := index_of_filed P _ start.pose hs0
  simp only [pose_t, pose_x, pose_y] at hbt hidx
  subst hidx
  refine ⟨_, initial_eq E PQ P start tb b hbt htab, ?_⟩
  intro m hm
  have : m = startNode E P start tb := by
    have h1 := (mem_push PQ PQ.empty (startNode E P start tb) m).1 hm
    rw [PQ.toList_empty] at h1
    simpa using h1
  subst this
  rw [startNode_pose]
  exact hs0

/-- From an in-bounds start with heading in `[0, 360)`, at the head of every pass the open
list holds only filed nodes. -/
theorem aStarStates_filed (E : Ext K) (PQ : PriorityQueue (Node3D K) CompareNodes)
    (P : Problem K) (start : Node3D K) (tb : Tables K) (hb : P.inBounds start.pose)
    (ht : 0 ≤ start.getT ∧ start.getT < 360) :
    ∀ s ∈ aStarStates E PQ P start tb,
      ∀ m ∈ PQ.toList s.O, P.Filed (toInt start.getT) m.pose := by
  obtain ⟨st, hst, hf⟩ := initial_filed E PQ P start tb hb ht
  unfold aStarStates
  rw [hst]
  exact states_invariant E PQ P
    (fun s => ∀ m ∈ PQ.toList s.O, P.Filed (toInt start.getT) m.pose)
    (fun a b ha hl => (pass_filed E PQ P _ a ha).2 b hl) _ st hf

/-- From an in-bounds start with heading in `[0, 360)`, `aStar` returns a node or the null
pointer. -/
theorem aStar_found_or_null (E : Ext K) (PQ : PriorityQueue (Node3D K) CompareNodes)
    (P : Problem K) (start : Node3D K) (tb : Tables K) (hb : P.inBounds start.pose)
    (ht : 0 ≤ start.getT ∧ start.getT < 360) :
    aStar E PQ P start tb = Outcome.null ∨ ∃ n, aStar E PQ P start tb = Outcome.found n := by
  have h1 := aStar_ne_running E PQ P start tb
  have h2 : aStar E PQ P start tb ≠ Outcome.undefined := by
    obtain ⟨st, hst, hf⟩ := initial_filed E PQ P start tb hb ht
    unfold aStar
    rw [hst]
    exact iterate_ne_undefined E PQ P _ _ st hf
  cases h : aStar E PQ P start tb with
  | found n => exact Or.inr ⟨n, rfl⟩
  | null => exact Or.inl rfl
  | undefined => exact absurd h h2
  | running => exact absurd h h1

end Safety

end PathPlanner

namespace PathPlanner

/-! ## The run on a logged queue -/

section Logged

set_option linter.unusedSectionVars false

variable {K : Type} [LinearOrderedField K]

/-- A turn of the successor loop on the logged queue is the turn on the queue itself. -/
theorem successor_unlog (E : Ext K) (PQ : PriorityQueue (Node3D K) CompareNodes)
    (P : Problem K) (nPred : Node3D K) (x y t j : Int) (st : SearchState K PQ.logged.Q)
    (i : Fin 3) :
    (successor E PQ.logged P nPred x y t j st i).map (SearchState.unlog PQ)
      = successor E PQ P nPred x y t j (st.unlog PQ) i := by
  simp only [successor, SearchState.unlog]
  cases dTat (tSuccOf t i) with
  | none => rfl
  | some b =>
    simp only []
    split_ifs <;> rfl

/-- The successor loop on the logged queue is the loop on the queue itself. -/
theorem expand_unlog (E : Ext K) (PQ : PriorityQueue (Node3D K) CompareNodes)
    (P : Problem K) (nPred : Node3D K) (x y t j : Int) (st : SearchState K PQ.logged.Q) :
    (expand E PQ.logged P nPred x y t j st).map (SearchState.unlog PQ)
      = expand E PQ P nPred x y t j (st.unlog PQ) := by
  rw [expand_eq, expand_eq, ← successor_unlog]
  cases successor E PQ.logged P nPred x y t j st 0 with
  | none => rfl
  | some a =>
    simp only [Option.some_bind, Option.map_some']
    rw [← successor_unlog]
    cases successor E PQ.logged P nPred x y t j a 1 with
    | none => rfl
    | some b =>
      simp only [Option.some_bind, Option.map_some']
      rw [← successor_unlog]

/-- A pass on the logged queue is the pass on the queue itself. -/
theorem loopBody_unlog (E : Ext K) (PQ : PriorityQueue (Node3D K) CompareNodes)
    (P : Problem K) (st : SearchState K PQ.logged.Q) :
    (∀ r, loopBody E PQ.logged P st = Step.done r →
        loopBody E PQ P (st.unlog PQ) = Step.done r)
      ∧ (∀ st1, loopBody E PQ.logged P st = Step.next st1 →
        loopBody E PQ P (st.unlog PQ) = Step.next (st1.unlog PQ)) := by
  unfold loopBody
  have hO : (st.unlog PQ).O = st.O.1 := rfl
  have hpop : PQ.logged.pop st.O = (PQ.pop st.O.1).map fun p => (p.1, (p.2, st.O.2)) := rfl
  rw [hpop, hO]
  cases PQ.pop st.O.1 with
  | none => simp
  | some pr =>
    obtain ⟨n, O1⟩ := pr
    simp only [Option.map_some']
    cases dTat (toInt n.getT) with
    | none => simp
    | some b =>
      simp only
      by_cases htab : P.inTable (b * P.width * P.height + n.getY * P.width + n.getX)
      · simp only [htab, not_true_eq_false, if_false]
        have hcl : (st.unlog PQ).closed = st.closed := rfl
        rw [hcl]
        by_cases hc : st.closed (b * P.width * P.height + n.getY * P.width + n.getX) = true
        · simp only [hc, if_true]
          constructor
          · intro r h; cases h
          · intro st1 h
            have := Step.next.inj h
            subst this
            rfl
        · have hc1 : st.closed (b * P.width * P.height + n.getY * P.width + n.getX)
              = false := by simpa using hc
          simp only [hc1, Bool.false_eq_true, if_false]
          by_cases hg : n.eq P.goal = true
          · simp only [hg, if_true]
            constructor
            · intro r h
              have := Step.done.inj h
              subst this
              rfl
            · intro st1 h; cases h
          · simp only [hg, if_false]
            have hex := expand_unlog E PQ P n n.getX n.getY (toInt n.getT) b
              { st with
                O := (O1, st.O.2)
                open_ := Function.update st.open_
                  (b * P.width * P.height + n.getY * P.width + n.getX) false
                closed := Function.update st.closed
                  (b * P.width * P.height + n.getY * P.width + n.getX) true }
            simp only [SearchState.unlog] at hex ⊢
            rw [← hex]
            cases expand E PQ.logged P n n.getX n.getY (toInt n.getT) b
              { st with
                O := (O1, st.O.2)
                open_ := Function.update st.open_
                  (b * P.width * P.height + n.getY * P.width + n.getX) false
                closed := Function.update st.closed
                  (b * P.width * P.height + n.getY * P.width + n.getX) true } with
            | none => simp
            | some st2 =>
              simp only [Option.map_some']
              constructor
              · intro r h; cases h
              · intro st1 h
                have := Step.next.inj h
                subst this
                rfl
      · simp [htab]

/-- The loop on the logged queue returns what the loop on the queue itself returns. -/
theorem iterate_unlog (E : Ext K) (PQ : PriorityQueue (Node3D K) CompareNodes)
    (P : Problem K) (fuel : Nat) (st : SearchState K PQ.logged.Q) :
    iterate E PQ.logged P fuel st = iterate E PQ P fuel (st.unlog PQ) := by
  induction fuel generalizing st with
  | zero => rfl
  | succ fuel ih =>
    obtain ⟨h1, h2⟩ := loopBody_unlog E PQ P st
    cases hl : loopBody E PQ.logged P st with
    | done r =>
      rw [iterate_done E PQ.logged P fuel st r hl, iterate_done E PQ P fuel _ r (h1 r hl)]
    | next st1 =>
      rw [iterate_next E PQ.logged P fuel st st1 hl,
        iterate_next E PQ P fuel _ _ (h2 st1 hl)]
      exact ih st1

/-- The states of the loop on the logged queue are those of the loop on the queue itself. -/
theorem states_unlog (E : Ext K) (PQ : PriorityQueue (Node3D K) CompareNodes)
    (P : Problem K) (fuel : Nat) (st : SearchState K PQ.logged.Q) :
    (states E PQ.logged P fuel st).map (SearchState.unlog PQ)
      = states E PQ P fuel (st.unlog PQ) := by
  induction fuel generalizing st with
  | zero => rfl
  | succ fuel ih =>
    obtain ⟨h1, h2⟩ := loopBody_unlog E PQ P st
    cases hl : loopBody E PQ.logged P st with
    | done r =>
      rw [states_done E PQ.logged P fuel st r hl, states_done E PQ P fuel _ r (h1 r hl)]
      rfl
    | next st1 =>
      rw [states_next E PQ.logged P fuel st st1 hl,
        states_next E PQ P fuel _ _ (h2 st1 hl), List.map_cons, ih st1]

/-- The loop variables that `aStar` enters the loop with on the logged queue. -/
theorem initial_unlog (E : Ext K) (PQ : PriorityQueue (Node3D K) CompareNodes)
    (P : Problem K) (start : Node3D K) (tb : Tables K) :
    (initial E PQ.logged P start tb).map (SearchState.unlog PQ) = initial E PQ P start tb := by
  unfold initial
  simp only
  cases dTat (toInt ((start.updateG E start).updateH E P.goal P.oGrid tb.costGoal).1.getT) with
  | none => rfl
  | some b =>
    simp only
    split_ifs <;> rfl

/-- The record of pushes has no effect: `aStar` on the logged queue returns what it returns
on the queue itself, and goes through the same states. -/
theorem aStar_unlog (E : Ext K) (PQ : PriorityQueue (Node3D K) CompareNodes)
    (P : Problem K) (start : Node3D K) (tb : Tables K) :
    aStar E PQ.logged P start tb = aStar E PQ P start tb
      ∧ (aStarStates E PQ.logged P start tb).map (SearchState.unlog PQ)
        = aStarStates E PQ P start tb := by
  unfold aStar aStarStates
  rw [← initial_unlog E PQ P start tb]
  cases initial E PQ.logged P start tb with
  | none => exact ⟨rfl, rfl⟩
  | some st =>
    simp only [Option.map_some']
    exact ⟨iterate_unlog E PQ P _ st, states_unlog E PQ P _ st⟩

end Logged

end PathPlanner

namespace PathPlanner

/-! ## The cost table and the pushes -/

section Recorded

set_option linter.unusedSectionVars false

variable {K : Type} [LinearOrderedField K]

/-- Taking an element from a logged queue leaves the record of pushes as it is. -/
theorem pushed_pop {α : Type} {comp : α → α → Bool} (PQ : PriorityQueue α comp)
    (q r : PQ.logged.Q) (a : α) (h : PQ.logged.pop q = some (a, r)) :
    PQ.pushed r = PQ.pushed q := by
  have h1 : (PQ.pop q.1).map (fun p => (p.1, (p.2, q.2))) = some (a, r) := h
  cases hp : PQ.pop q.1 with
  | none => rw [hp] at h1; cases h1
  | some p =>
    rw [hp] at h1
    simp only [Option.map_some', Option.some.injEq, Prod.mk.injEq] at h1
    obtain ⟨_, rfl⟩ := h1
    rfl

/-- The lattice index of a child is that of the candidate pose. -/
theorem child_index (E : Ext K) (P : Problem K) (n : Node3D K) (q : Pose) (cg : Int → K) :
    P.index (child E P n q cg).pose = P.index q := by
  rw [child_pose]

/-- Closing the index of the popped node keeps the invariant behind the `cost` table. -/
theorem close_recorded (PQ : PriorityQueue (Node3D K) CompareNodes) (P : Problem K)
    (st : SearchState K PQ.logged.Q) (n : Node3D K) (O1 : PQ.logged.Q) (idx : Int)
    (hpop : PQ.logged.pop st.O = some (n, O1)) (hidx : P.index n.pose = some idx)
    (h : P.Recorded PQ st) : P.Recorded PQ (st.close PQ.logged O1 idx) := by
  have hlog : PQ.pushed O1 = PQ.pushed st.O := pushed_pop PQ st.O O1 n hpop
  refine ⟨?_, ?_, ?_⟩
  · intro i hi
    have hne : i ≠ idx := by
      rintro rfl
      simp [SearchState.close] at hi
    have ho : st.open_ i = true := by
      simpa [SearchState.close, Function.update_noteq hne] using hi
    show Function.update st.closed idx true i = false
    rw [Function.update_noteq hne]
    exact h.open_unclosed i ho
  · intro m hm i hi hc
    have hc' : Function.update st.closed idx true i = false := hc
    have hne : i ≠ idx := by
      rintro rfl
      simp at hc'
    rw [Function.update_noteq hne] at hc'
    have hm' : m ∈ PQ.pushed st.O := by
      have : m ∈ PQ.pushed O1 := hm
      rwa [hlog] at this
    obtain ⟨h1, h2, h3⟩ := h.pushed_open m hm' i hi hc'
    refine ⟨?_, h2, ?_⟩
    · show Function.update st.open_ idx false i = true
      rw [Function.update_noteq hne]
      exact h1
    · show m ∈ PQ.logged.toList O1
      rcases (mem_pop PQ.logged st.O O1 n m hpop).1 h3 with rfl | h4
      · rw [hidx] at hi
        exact absurd (Option.some.inj hi).symm hne
      · exact h4
  · intro i hi
    have hne : i ≠ idx := by
      rintro rfl
      simp [SearchState.close] at hi
    have ho : st.open_ i = true := by
      simpa [SearchState.close, Function.update_noteq hne] using hi
    obtain ⟨m, hm, h1, h2⟩ := h.open_pushed i ho
    refine ⟨m, ?_, h1, h2⟩
    show m ∈ PQ.pushed O1
    rw [hlog]
    exact hm

/-- A turn of the successor loop keeps the invariant behind the `cost` table. -/
theorem relax_recorded (E : Ext K) (PQ : PriorityQueue (Node3D K) CompareNodes)
    (P : Problem K) (n : Node3D K) (st st1 : SearchState K PQ.logged.Q)
    (hr : P.Relax E PQ.logged n st st1) (h : P.Recorded PQ st) : P.Recorded PQ st1 := by
  rcases hr with rfl | ⟨i, q, idx, hq, hfree, hidx, hcl, hcond, rfl⟩
  · exact h
  · have hlog : PQ.pushed (st.accept PQ.logged idx (child E P n q st.costGoal)).O
        = child E P n q st.costGoal :: PQ.pushed st.O := rfl
    have hg : (child E P n q st.costGoal).getG = n.getG + stepCost E n.pose q := rfl
    have hci := child_index E P n q st.costGoal
    refine ⟨?_, ?_, ?_⟩
    · intro k hk
      show st.closed k = false
      by_cases hki : k = idx
      · rw [hki]; exact hcl
      · have : st.open_ k = true := by
          simpa [SearchState.accept, Function.update_noteq hki] using hk
        exact h.open_unclosed k this
    · intro m hm k hk hc
      have hc' : st.closed k = false := hc
      rw [hlog] at hm
      show Function.update st.open_ idx true k = true
        ∧ Function.update st.cost idx (child E P n q st.costGoal).getG k ≤ m.getG
        ∧ m ∈ PQ.logged.toList (PQ.logged.push st.O (child E P n q st.costGoal))
      rcases List.mem_cons.1 hm with rfl | hm
      · rw [hci, hidx] at hk
        have := Option.some.inj hk
        subst this
        refine ⟨by simp, by simp, ?_⟩
        exact (mem_push PQ.logged st.O _ _).2 (Or.inl rfl)
      · obtain ⟨h1, h2, h3⟩ := h.pushed_open m hm k hk hc'
        refine ⟨?_, ?_, (mem_push PQ.logged st.O _ _).2 (Or.inr h3)⟩
        · by_cases hki : k = idx
          · rw [hki]; simp
          · rw [Function.update_noteq hki]; exact h1
        · by_cases hki : k = idx
          · subst hki
            rw [Function.update_same, hg]
            rcases hcond with ho | hlt
            · rw [h1] at ho; cases ho
            · exact le_of_lt (lt_of_lt_of_le hlt h2)
          · rw [Function.update_noteq hki]; exact h2
    · intro k hk
      rw [hlog]
      show ∃ m ∈ child E P n q st.costGoal :: PQ.pushed st.O, P.index m.pose = some k
        ∧ m.getG = Function.update st.cost idx (child E P n q st.costGoal).getG k
      by_cases hki : k = idx
      · subst hki
        refine ⟨_, List.mem_cons_self _ _, ?_, by simp⟩
        rw [hci, hidx]
      · have : st.open_ k = true := by
          simpa [SearchState.accept, Function.update_noteq hki] using hk
        obtain ⟨m, hm, h1, h2⟩ := h.open_pushed k this
        refine ⟨m, List.mem_cons_of_mem _ hm, h1, ?_⟩
        rw [Function.update_noteq hki]
        exact h2

/-- A pass keeps the invariant behind the `cost` table. -/
theorem pass_recorded (E : Ext K) (PQ : PriorityQueue (Node3D K) CompareNodes)
    (P : Problem K) (st st1 : SearchState K PQ.logged.Q) (h : P.Recorded PQ st)
    (hl : loopBody E PQ.logged P st = Step.next st1) : P.Recorded PQ st1 := by
  rcases loopBody_cases E PQ.logged P st with ⟨_, _, h1⟩ | ⟨n, O1, hpop, h1⟩
  · rw [h1] at hl; cases hl
  · rcases h1 with ⟨_, _, h1⟩ | ⟨idx, hidx, h1⟩
    · rw [h1] at hl; cases hl
    · rcases h1 with ⟨_, _, h1⟩ | ⟨_, hcl, _, h1⟩ | ⟨_, _, _, _, h1⟩
          | ⟨_, _, _, _, sa, sb, sc, ra, rb, rc, h1⟩
      · rw [h1] at hl; cases hl
      · rw [h1] at hl
        have : st.drop PQ.logged O1 = st1 := by simpa using hl
        subst this
        have hlog : PQ.pushed O1 = PQ.pushed st.O := pushed_pop PQ st.O O1 n hpop
        refine ⟨h.open_unclosed, ?_, ?_⟩
        · intro m hm k hk hc
          have hm' : m ∈ PQ.pushed st.O := by
            have : m ∈ PQ.pushed O1 := hm
            rwa [hlog] at this
          obtain ⟨h2, h3, h4⟩ := h.pushed_open m hm' k hk hc
          refine ⟨h2, h3, ?_⟩
          show m ∈ PQ.logged.toList O1
          rcases (mem_pop PQ.logged st.O O1 n m hpop).1 h4 with rfl | h5
          · rw [hidx] at hk
            have := Option.some.inj hk
            subst this
            have hc' : st.closed idx = false := hc
            rw [hcl] at hc'
            cases hc'
          · exact h5
        · intro k hk
          obtain ⟨m, hm, h2, h3⟩ := h.open_pushed k hk
          refine ⟨m, ?_, h2, h3⟩
          show m ∈ PQ.pushed O1
          rw [hlog]
          exact hm
      · rw [h1] at hl; cases hl
      · rw [h1] at hl
        have : sc = st1 := by simpa using hl
        subst this
        have h0 := close_recorded PQ P st n O1 idx hpop hidx h
        exact relax_recorded E PQ P n _ _ rc
          (relax_recorded E PQ P n _ _ rb (relax_recorded E PQ P n _ _ ra h0))

/-- The first pass of a run started with `open` and `closed` all false establishes the
invariant behind the `cost` table. -/
theorem first_recorded (E : Ext K) (PQ : PriorityQueue (Node3D K) CompareNodes)
    (P : Problem K) (start : Node3D K) (tb : Tables K) (st st1 : SearchState K PQ.logged.Q)
    (hopen : ∀ i, tb.open_ i = false) (hclosed : ∀ i, tb.closed i = false)
    (hst : initial E PQ.logged P start tb = some st)
    (hl : loopBody E PQ.logged P st = Step.next st1) : P.Recorded PQ st1 := by
  have hshape : st.open_ = tb.open_ ∧ st.closed = tb.closed
      ∧ st.O = PQ.logged.push PQ.logged.empty (startNode E P start tb) := by
    cases hb : dTat (toInt start.getT) with
    | none => rw [initial_none E PQ.logged P start tb (Or.inl hb)] at hst; cases hst
    | some b =>
      by_cases htab : P.inTable (b * P.width * P.height + start.getY * P.width + start.getX)
      · rw [initial_eq E PQ.logged P start tb b hb htab] at hst
        have h1 := Option.some.inj hst
        subst h1
        exact ⟨rfl, rfl, rfl⟩
      · rw [initial_none E PQ.logged P start tb (Or.inr ⟨b, hb, htab⟩)] at hst; cases hst
  obtain ⟨ho, hc, hO⟩ := hshape
  obtain ⟨r, hr, hrl⟩ := pop_push_empty PQ.logged (startNode E P start tb)
  rw [← hO] at hr
  have hlog0 : PQ.pushed st.O = [startNode E P start tb] := by rw [hO]; rfl
  rcases loopBody_cases E PQ.logged P st with ⟨_, _, h1⟩ | ⟨n, O1, hpop, h1⟩
  · rw [h1] at hl; cases hl
  · rw [hr] at hpop
    simp only [Option.some.injEq, Prod.mk.injEq] at hpop
    obtain ⟨rfl, rfl⟩ := hpop
    rcases h1 with ⟨_, _, h1⟩ | ⟨idx, hidx, h1⟩
    · rw [h1] at hl; cases hl
    · rcases h1 with ⟨_, _, h1⟩ | ⟨_, hcl, _, h1⟩ | ⟨_, _, _, _, h1⟩
          | ⟨_, _, _, _, sa, sb, sc, ra, rb, rc, h1⟩
      · rw [h1] at hl; cases hl
      · rw [hc, hclosed] at hcl; cases hcl
      · rw [h1] at hl; cases hl
      · rw [h1] at hl
        have : sc = st1 := by simpa using hl
        subst this
        have hlog : PQ.pushed r = [startNode E P start tb] := by
          rw [pushed_pop PQ st.O r _ hr, hlog0]
        have h0 : P.Recorded PQ (st.close PQ.logged r idx) := by
          refine ⟨?_, ?_, ?_⟩
          · intro k hk
            have hk' : Function.update st.open_ idx false k = true := hk
            by_cases hki : k = idx
            · rw [hki] at hk'; simp at hk'
            · rw [Function.update_noteq hki, ho, hopen] at hk'; cases hk'
          · intro m hm k hk hck
            have hm' : m ∈ PQ.pushed r := hm
            rw [hlog] at hm'
            have := List.mem_singleton.1 hm'
            subst this
            rw [hidx] at hk
            have := Option.some.inj hk
            subst this
            have hck' : Function.update st.closed idx true idx = false := hck
            simp at hck'
          · intro k hk
            have hk' : Function.update st.open_ idx false k = true := hk
            by_cases hki : k = idx
            · rw [hki] at hk'; simp at hk'
            · rw [Function.update_noteq hki, ho, hopen] at hk'; cases hk'
        exact relax_recorded E PQ P _ _ _ rc
          (relax_recorded E PQ P _ _ _ rb (relax_recorded E PQ P _ _ _ ra h0))

/-- In a run started with `open` and `closed` all false, at the head of every pass `open` is
all false or the invariant behind the `cost` table holds. -/
theorem aStarStates_recorded (E : Ext K) (PQ : PriorityQueue (Node3D K) CompareNodes)
    (P : Problem K) (start : Node3D K) (tb : Tables K)
    (hopen : ∀ i, tb.open_ i = false) (hclosed : ∀ i, tb.closed i = false) :
    ∀ s ∈ aStarStates E PQ.logged P start tb,
      (∀ i, s.open_ i = false) ∨ P.Recorded PQ s := by
  unfold aStarStates
  cases hst : initial E PQ.logged P start tb with
  | none => intro s hs; cases hs
  | some st =>
    simp only
    have ho : ∀ i, st.open_ i = false := by
      cases hb : dTat (toInt start.getT) with
      | none => rw [initial_none E PQ.logged P start tb (Or.inl hb)] at hst; cases hst
      | some b =>
        by_cases htab :
            P.inTable (b * P.width * P.height + start.getY * P.width + start.getX)
        · rw [initial_eq E PQ.logged P start tb b hb htab] at hst
          have h1 := Option.some.inj hst
          subst h1
          exact hopen
        · rw [initial_none E PQ.logged P start tb (Or.inr ⟨b, hb, htab⟩)] at hst; cases hst
    cases hf : fuelFor P with
    | zero =>
      intro s hs
      have : s = st := by simpa [states] using hs
      subst this
      exact Or.inl ho
    | succ fuel =>
      cases hl : loopBody E PQ.logged P st with
      | done r =>
        rw [states_done E PQ.logged P fuel st r hl]
        intro s hs
        have : s = st := by simpa using hs
        subst this
        exact Or.inl ho
      | next st1 =>
        rw [states_next E PQ.logged P fuel st st1 hl]
        intro s hs
        rcases List.mem_cons.1 hs with rfl | hs
        · exact Or.inl ho
        · right
          exact states_invariant E PQ.logged P (fun s => P.Recorded PQ s)
            (fun a b ha hab => pass_recorded E PQ P a b ha hab) fuel st1
            (first_recorded E PQ P start tb st st1 hopen hclosed hst hl) s hs

end Recorded

end PathPlanner

namespace PathPlanner

/-! ## The estimate, the pushes and the tables -/

section Estimate

set_option linter.unusedSectionVars false

variable {K : Type} [LinearOrderedField K]

/-- The estimate of `costToGo` as compiled: the largest of the Euclidean distance, `0` and
the entry of `costGoal` for the cell. -/
theorem costToGo_eq_max (E : Ext K) (n goal : Node3D K) (oGrid : OccupancyGrid)
    (cg : Int → K) :
    (n.costToGo E goal oGrid cg).1
      = max (euclideanCost E goal n.pose) (max 0 (cg (n.getY * oGrid.infoWidth + n.getX))) :=
  costToGo_fst E n goal oGrid cg

/-- The Euclidean distance to the goal is at most the cost of any sequence of steps plus the
Euclidean distance from where it ends. -/
theorem euclideanCost_follow (E : Ext K) (hE : E.IsSqrt) (goal : Node3D K) (p q : Pose)
    (moves : List (Fin 3)) (h : p.follow moves = some q) :
    euclideanCost E goal p ≤ Pose.followCost E p moves + euclideanCost E goal q := by
  induction moves generalizing p with
  | nil =>
    have : p = q := by simpa [Pose.follow] using h
    subst this
    simp [Pose.followCost]
  | cons i l ih =>
    cases hs : p.successor i with
    | none => simp [Pose.follow, hs] at h
    | some r =>
      have h1 : r.follow l = some q := by simpa [Pose.follow, hs] using h
      have h2 := ih r h1
      have h3 := euclideanCost_step E hE goal p r
      have h4 : Pose.followCost E p (i :: l) = stepCost E p r + Pose.followCost E r l := by
        simp [Pose.followCost, hs]
      rw [h4]
      linarith

/-- A walk through free cells is a sequence of steps. -/
theorem follow_of_walk (P : Problem K) (p q : Pose) (moves : List (Fin 3))
    (h : P.walk p moves = some q) : p.follow moves = some q := by
  induction moves generalizing p with
  | nil => simpa [Problem.walk, Pose.follow] using h
  | cons i l ih =>
    cases hs : p.successor i with
    | none => simp [Problem.walk, hs] at h
    | some r =>
      by_cases hf : P.free r
      · have h1 : P.walk r l = some q := by simpa [Problem.walk, hs, hf] using h
        simpa [Pose.follow, hs] using ih r h1
      · simp [Problem.walk, hs, hf] at h

/-- The cost of a walk is the cost of its steps. -/
theorem walkCost_eq_followCost (E : Ext K) (P : Problem K) (p : Pose)
    (moves : List (Fin 3)) : P.walkCost E p moves = Pose.followCost E p moves := by
  induction moves generalizing p with
  | nil => rfl
  | cons i l ih =>
    cases hs : p.successor i with
    | none => simp [Problem.walkCost, Pose.followCost, hs]
    | some r => simp [Problem.walkCost, Pose.followCost, hs, ih r]

/-- The Euclidean distance from the goal position is zero. -/
theorem euclideanCost_at_goal (E : Ext K) (hE : E.IsSqrt) (goal : Node3D K) (q : Pose)
    (hx : q.x = goal.getX) (hy : q.y = goal.getY) : euclideanCost E goal q = 0 := by
  unfold euclideanCost
  rw [hx, hy]
  simp only [sub_self, mul_zero, add_zero]
  exact sqrt_zero E hE

end Estimate

/-- The entries of `dX` and `dY` are those of `dx` and `dy` at `(j + i) mod 8`. -/
theorem dXat_dx (j : Int) (h0 : 0 ≤ j) (h8 : j < 8) (i : Fin 3) :
    dXat j i = dx.getD ((j + i.val) % 8).toNat 0
      ∧ dYat j i = dy.getD ((j + i.val) % 8).toNat 0 := by
  have : j = 0 ∨ j = 1 ∨ j = 2 ∨ j = 3 ∨ j = 4 ∨ j = 5 ∨ j = 6 ∨ j = 7 := by omega
  rcases this with rfl | rfl | rfl | rfl | rfl | rfl | rfl | rfl <;> fin_cases i <;> decide

/-- The bin of the wrapped successor heading, counted from `0`. -/
theorem tSuccOf_div (t : Int) (h0 : 0 ≤ t) (h360 : t < 360) (i : Fin 3) :
    tSuccOf t i / 45 = (t / 45 + i.val + 7) % 8 := by
  fin_cases i
  · simp only [tSuccOf, tSuccRaw, wrap360]
    split_ifs <;> simp <;> omega
  · simp only [tSuccOf, tSuccRaw, wrap360]
    split_ifs <;> simp <;> omega
  · simp only [tSuccOf, tSuccRaw, wrap360]
    split_ifs <;> simp <;> omega

/-- The entry of `dT`, counted from `0`. -/
theorem dTat_mod (t : Int) (h0 : 0 ≤ t) (h360 : t < 360) :
    dTat t = some ((t / 45 + 7) % 8) := by
  rw [dTat_eq t h0 h360]
  congr 1
  split_ifs <;> omega

/-- The entries of `dt` are the multiples of 45. -/
theorem dt_getD (k : Int) (h0 : 0 ≤ k) (h8 : k < 8) : dt.getD k.toNat 0 = ((45 * k : Int) : ℚ) := by
  have : k = 0 ∨ k = 1 ∨ k = 2 ∨ k = 3 ∨ k = 4 ∨ k = 5 ∨ k = 6 ∨ k = 7 := by omega
  rcases this with rfl | rfl | rfl | rfl | rfl | rfl | rfl | rfl <;> simp [dt]

section Pushes

set_option linter.unusedSectionVars false

variable {K : Type} [LinearOrderedField K]

/-- A turn of the successor loop on a logged queue records no push, or the push of the child
for the candidate pose of the turn. -/
theorem relax_pushed (E : Ext K) (PQ : PriorityQueue (Node3D K) CompareNodes)
    (P : Problem K) (n : Node3D K) (st st1 : SearchState K PQ.logged.Q)
    (h : P.Relax E PQ.logged n st st1) :
    PQ.pushed st1.O = PQ.pushed st.O
      ∨ ∃ (i : Fin 3) (q : Pose), n.pose.successor i = some q
          ∧ PQ.pushed st1.O = child E P n q st.costGoal :: PQ.pushed st.O := by
  rcases h with rfl | ⟨i, q, idx, hq, _, _, _, _, rfl⟩
  · exact Or.inl rfl
  · exact Or.inr ⟨i, q, hq, rfl⟩

/-- A turn of the successor loop records at most one push. -/
theorem relax_pushed_length (E : Ext K) (PQ : PriorityQueue (Node3D K) CompareNodes)
    (P : Problem K) (n : Node3D K) (st st1 : SearchState K PQ.logged.Q)
    (h : P.Relax E PQ.logged n st st1) :
    (PQ.pushed st1.O).length ≤ (PQ.pushed st.O).length + 1 := by
  rcases relax_pushed E PQ P n st st1 h with h1 | ⟨_, _, _, h1⟩
  · rw [h1]; omega
  · rw [h1]; simp

/-- A pass records at most three pushes, and only when it closes an index. -/
theorem pass_pushed (E : Ext K) (PQ : PriorityQueue (Node3D K) CompareNodes)
    (P : Problem K) (st st1 : SearchState K PQ.logged.Q)
    (hl : loopBody E PQ.logged P st = Step.next st1) :
    (PQ.pushed st1.O).length + 3 * st1.unclosed P
      ≤ (PQ.pushed st.O).length + 3 * st.unclosed P := by
  rcases loopBody_cases E PQ.logged P st with ⟨_, _, h1⟩ | ⟨n, O1, hpop, h1⟩
  · rw [h1] at hl; cases hl
  · have hlog : PQ.pushed O1 = PQ.pushed st.O := pushed_pop PQ st.O O1 n hpop
    rcases h1 with ⟨_, _, h1⟩ | ⟨idx, hidx, h1⟩
    · rw [h1] at hl; cases hl
    · rcases h1 with ⟨_, _, h1⟩ | ⟨_, hcl, _, h1⟩ | ⟨_, _, _, _, h1⟩
          | ⟨htab, hcl, _, _, sa, sb, sc, ra, rb, rc, h1⟩
      · rw [h1] at hl; cases hl
      · rw [h1] at hl
        have : st.drop PQ.logged O1 = st1 := by simpa using hl
        subst this
        have hu : (st.drop PQ.logged O1).unclosed P = st.unclosed P :=
          unclosed_congr P _ st (st.drop PQ.logged O1) rfl
        have hO : (st.drop PQ.logged O1).O = O1 := rfl
        rw [hu, hO, hlog]
      · rw [h1] at hl; cases hl
      · rw [h1] at hl
        have : sc = st1 := by simpa using hl
        subst this
        have hu0 : (st.close PQ.logged O1 idx).unclosed P + 1 = st.unclosed P :=
          unclosed_update P _ st _ idx htab hcl rfl
        have hua := unclosed_congr P _ _ _ (relax_closed E PQ.logged P n _ sa ra)
        have hub := unclosed_congr P _ _ _ (relax_closed E PQ.logged P n _ sb rb)
        have huc := unclosed_congr P _ _ _ (relax_closed E PQ.logged P n _ sc rc)
        have hla := relax_pushed_length E PQ P n _ sa ra
        have hlb := relax_pushed_length E PQ P n _ sb rb
        have hlc := relax_pushed_length E PQ P n _ sc rc
        have hO : (st.close PQ.logged O1 idx).O = O1 := rfl
        rw [hO, hlog] at hla
        omega

/-- During a call of `aStar` at most `1 + 3 * width * height * 8` nodes are pushed. -/
theorem aStarStates_pushed (E : Ext K) (PQ : PriorityQueue (Node3D K) CompareNodes)
    (P : Problem K) (start : Node3D K) (tb : Tables K) :
    ∀ s ∈ aStarStates E PQ.logged P start tb,
      (PQ.pushed s.O).length ≤ 1 + 3 * (P.width * P.height * 8).toNat := by
  unfold aStarStates
  cases hst : initial E PQ.logged P start tb with
  | none => intro s hs; cases hs
  | some st =>
    simp only
    have h0 : (PQ.pushed st.O).length = 1 := by
      cases hb : dTat (toInt start.getT) with
      | none => rw [initial_none E PQ.logged P start tb (Or.inl hb)] at hst; cases hst
      | some b =>
        by_cases htab :
            P.inTable (b * P.width * P.height + start.getY * P.width + start.getX)
        · rw [initial_eq E PQ.logged P start tb b hb htab] at hst
          have h1 := Option.some.inj hst
          subst h1
          rfl
        · rw [initial_none E PQ.logged P start tb (Or.inr ⟨b, hb, htab⟩)] at hst; cases hst
    have hu := unclosed_le P _ st
    intro s hs
    have := states_invariant E PQ.logged P
      (fun s => (PQ.pushed s.O).length + 3 * s.unclosed P
        ≤ 1 + 3 * (P.width * P.height * 8).toNat)
      (fun a b ha hab => le_trans (pass_pushed E PQ P a b hab) ha) _ st (by omega) s hs
    simp only at this
    omega

end Pushes

end PathPlanner

namespace PathPlanner

/-! ## The estimate -/

section EstimateClaims

set_option linter.unusedSectionVars false

/-- The exact `sqrt` of a square. -/
theorem sqrt_mul_self {K : Type} [LinearOrderedField K] (E : Ext K) (hE : E.IsSqrt) (a : Int)
    (ha : 0 ≤ a) : E.sqrt (a * a) = (a : K) := by
  obtain ⟨h0, h1⟩ := hE (a * a) (mul_self_nonneg a)
  have h2 : E.sqrt (a * a) * E.sqrt (a * a) = (a : K) * (a : K) := by
    rw [h1]; push_cast; ring
  exact (mul_self_inj h0 (by exact_mod_cast ha)).1 h2

/-- Counterexample to C11 as stated: with both flags off, for the node at `(0, 0)`, the goal
at `(3, 4)` and a `costGoal` array that holds `7` everywhere, `costToGo` returns `7`, while the
Euclidean distance between the two positions is `5`. -/
theorem costToGo_exceeds_euclidean :
    ((Node3D.mk 0 0 0 0 0 none : Node3D ℝ).costToGo
        (⟨fun z => Real.sqrt z, fun _ _ _ _ _ _ => 0, fun _ _ _ _ _ => 0⟩ : Ext ℝ)
        (Node3D.mk 3 4 0 0 0 none) ⟨5, fun _ => 0⟩ (fun _ => 7)).1 = 7
      ∧ euclideanCost (⟨fun z => Real.sqrt z, fun _ _ _ _ _ _ => 0, fun _ _ _ _ _ => 0⟩ : Ext ℝ)
          (Node3D.mk 3 4 0 0 0 none) (Node3D.mk 0 0 0 0 0 none : Node3D ℝ).pose = 5 := by
  have h5 : euclideanCost
      (⟨fun z => Real.sqrt z, fun _ _ _ _ _ _ => 0, fun _ _ _ _ _ => 0⟩ : Ext ℝ)
      (Node3D.mk 3 4 0 0 0 none) (Node3D.mk 0 0 0 0 0 none : Node3D ℝ).pose = 5 := by
    have := sqrt_mul_self
      (⟨fun z => Real.sqrt z, fun _ _ _ _ _ _ => 0, fun _ _ _ _ _ => 0⟩ : Ext ℝ)
      real_isSqrt 5 (by decide)
    simpa [euclideanCost] using this
  refine ⟨?_, h5⟩
  rw [costToGo_eq_max, h5]
  norm_num

/-- C11, as amended: `Node3D::costToGo` with the heuristics `dubins` and `twoD` both
disabled.  For exact `sqrt`, every node, every goal and every content of the `costGoal`
cache, the returned estimate is the largest of the Euclidean distance between the two
positions, `0` and the cache entry `costGoal[y * info.width + x]` of the node's cell; it
equals the Euclidean distance if and only if that entry does not exceed the distance, as
when the cache is all zero.  The cache is returned as it was. -/
theorem costToGo_eq_euclidean_iff {K : Type} [LinearOrderedField K] (E : Ext K)
    (hE : E.IsSqrt) (n goal : Node3D K) (oGrid : OccupancyGrid) (cg : Int → K) :
    n.costToGo E goal oGrid cg = n.costToGoWith E false false goal oGrid cg
      ∧ (n.costToGoWith E false false goal oGrid cg).1
        = max (euclideanCost E goal n.pose) (max 0 (cg (n.getY * oGrid.infoWidth + n.getX)))
      ∧ ((n.costToGoWith E false false goal oGrid cg).1 = euclideanCost E goal n.pose
        ↔ cg (n.getY * oGrid.infoWidth + n.getX) ≤ euclideanCost E goal n.pose)
      ∧ ((∀ i, cg i = 0) →
        (n.costToGoWith E false false goal oGrid cg).1 = euclideanCost E goal n.pose)
      ∧ (n.costToGoWith E false false goal oGrid cg).2 = cg := by
  have h0 := euclideanCost_nonneg E hE goal n.pose
  have h1 : (n.costToGoWith E false false goal oGrid cg).1
      = max (euclideanCost E goal n.pose)
          (max 0 (cg (n.getY * oGrid.infoWidth + n.getX))) := costToGo_eq_max E n goal oGrid cg
  have h2 : ((n.costToGoWith E false false goal oGrid cg).1 = euclideanCost E goal n.pose
      ↔ cg (n.getY * oGrid.infoWidth + n.getX) ≤ euclideanCost E goal n.pose) := by
    rw [h1, max_eq_left_iff, max_le_iff]
    exact ⟨fun h => h.2, fun h => ⟨h0, h⟩⟩
  refine ⟨rfl, h1, h2, fun hcg => h2.2 ?_, costToGo_snd E n goal oGrid cg⟩
  rw [hcg]
  exact h0

/-- Witness of C11 as amended: the node at `(0, 0)`, the goal at `(3, 4)` and the cache that
is all zero, in real arithmetic. -/
theorem costToGo_eq_euclidean_iff_witness :
    ((Node3D.mk 0 0 0 0 0 none : Node3D ℝ).costToGoWith
        (⟨fun z => Real.sqrt z, fun _ _ _ _ _ _ => 0, fun _ _ _ _ _ => 0⟩ : Ext ℝ)
        false false (Node3D.mk 3 4 0 0 0 none) ⟨5, fun _ => 0⟩ (fun _ => 0)).1
      = euclideanCost (⟨fun z => Real.sqrt z, fun _ _ _ _ _ _ => 0, fun _ _ _ _ _ => 0⟩ : Ext ℝ)
          (Node3D.mk 3 4 0 0 0 none) (Node3D.mk 0 0 0 0 0 none : Node3D ℝ).pose :=
  (costToGo_eq_euclidean_iff
    (⟨fun z => Real.sqrt z, fun _ _ _ _ _ _ => 0, fun _ _ _ _ _ => 0⟩ : Ext ℝ) real_isSqrt
    (Node3D.mk 0 0 0 0 0 none) (Node3D.mk 3 4 0 0 0 none) ⟨5, fun _ => 0⟩
    (fun _ => 0)).2.2.2.1 (fun _ => rfl)

/-- C12: admissibility of the Euclidean heuristic.  For exact `sqrt`, every node `n`, every
goal and every sequence of motion-primitive steps that leads from `n` to a pose at the goal
position, the estimate that `costToGo` computes for `n` (both flags off, cache all zero) is
at most the sum of the movement costs of the steps; the same holds of every walk through
free cells of a grid. -/
theorem euclidean_admissible {K : Type} [LinearOrderedField K] (E : Ext K) (hE : E.IsSqrt)
    (n goal : Node3D K) (oGrid : OccupancyGrid) (cg : Int → K) (hcg : ∀ i, cg i = 0)
    (moves : List (Fin 3)) (q : Pose) (hx : q.x = goal.getX) (hy : q.y = goal.getY) :
    (n.pose.follow moves = some q →
        (n.costToGo E goal oGrid cg).1 ≤ Pose.followCost E n.pose moves)
      ∧ ∀ P : Problem K, P.walk n.pose moves = some q →
        (n.costToGo E goal oGrid cg).1 ≤ P.walkCost E n.pose moves := by
  have h1 : (n.costToGo E goal oGrid cg).1 = euclideanCost E goal n.pose := by
    rw [costToGo_eq_max, hcg, max_self]
    exact max_eq_left (euclideanCost_nonneg E hE goal n.pose)
  have h2 : n.pose.follow moves = some q →
      (n.costToGo E goal oGrid cg).1 ≤ Pose.followCost E n.pose moves := by
    intro hw
    have h3 := euclideanCost_follow E hE goal n.pose q moves hw
    rw [euclideanCost_at_goal E hE goal q hx hy, add_zero] at h3
    rw [h1]
    exact h3
  refine ⟨h2, fun P hw => ?_⟩
  rw [walkCost_eq_followCost]
  exact h2 (follow_of_walk P n.pose q moves hw)

/-- Witness of C12: four straight steps from `(0, 0, 0)` to the goal `(4, 0)`, in real
arithmetic. -/
theorem euclidean_admissible_witness :
    ((Node3D.mk 0 0 0 0 0 none : Node3D ℝ).costToGo
        (⟨fun z => Real.sqrt z, fun _ _ _ _ _ _ => 0, fun _ _ _ _ _ => 0⟩ : Ext ℝ)
        (Node3D.mk 4 0 0 0 0 none) ⟨5, fun _ => 0⟩ (fun _ => 0)).1
      ≤ Pose.followCost
          (⟨fun z => Real.sqrt z, fun _ _ _ _ _ _ => 0, fun _ _ _ _ _ => 0⟩ : Ext ℝ)
          (Node3D.mk 0 0 0 0 0 none : Node3D ℝ).pose [1, 1, 1, 1] :=
  (euclidean_admissible
    (⟨fun z => Real.sqrt z, fun _ _ _ _ _ _ => 0, fun _ _ _ _ _ => 0⟩ : Ext ℝ) real_isSqrt
    (Node3D.mk 0 0 0 0 0 none) (Node3D.mk 4 0 0 0 0 none) ⟨5, fun _ => 0⟩ (fun _ => 0)
    (fun _ => rfl) [1, 1, 1, 1] ⟨4, 0, 0⟩ rfl rfl).1 rfl

/-- Counterexample to C13 as stated: with the flag `twoD` set, for the node at the goal cell
`(2, 3)`, a 2D search that returns the Manhattan distance (here `0`) and a cache that is all
zero, the second call of `costToGo` against the cache left by the first calls the 2D search
again. -/
theorem costToGo_calls_solver_again :
    (Node3D.mk 2 3 0 0 0 none : Node3D ℚ).costToGoCalls true (Node3D.mk 2 3 0 0 0 none)
        ⟨5, fun _ => 0⟩
        ((Node3D.mk 2 3 0 0 0 none : Node3D ℚ).costToGoWith
          ⟨fun _ => 0, fun _ _ _ _ _ _ => 0, fun x y gx gy _ => ((|x - gx| + |y - gy| : Int) : ℚ)⟩
          false true (Node3D.mk 2 3 0 0 0 none) ⟨5, fun _ => 0⟩ (fun _ => 0)).2
      = [(2, 3, 2, 3)] := by
  simp [Node3D.costToGoCalls, Node3D.costToGoWith]

/-- C13, as amended: memoisation in `Node3D::costToGo` with the flag `twoD` set.  For every
2D search (a function of its arguments), every cell `(x, y)` and every cache, a second call
of `costToGo` for the same cell (and the same heading when `dubins` is set) against the
cache left by the first returns the same value and leaves the cache as the first left it;
it calls the 2D search again if and only if the cache entry of the cell is still `0`, that
is, if and only if the entry was `0` before the first call and the 2D search returned `0`. -/
theorem costToGo_memoised {K : Type} [LinearOrderedField K] (E : Ext K) (dubins : Bool)
    (n n1 goal : Node3D K) (oGrid : OccupancyGrid) (cg : Int → K)
    (hx : n1.getX = n.getX) (hy : n1.getY = n.getY) (ht : dubins = true → n1.getT = n.getT) :
    (n1.costToGoWith E dubins true goal oGrid (n.costToGoWith E dubins true goal oGrid cg).2).1
        = (n.costToGoWith E dubins true goal oGrid cg).1
      ∧ (n1.costToGoWith E dubins true goal oGrid
            (n.costToGoWith E dubins true goal oGrid cg).2).2
        = (n.costToGoWith E dubins true goal oGrid cg).2
      ∧ (n1.costToGoCalls true goal oGrid (n.costToGoWith E dubins true goal oGrid cg).2 = []
        ↔ (n.costToGoWith E dubins true goal oGrid cg).2 (n.getY * oGrid.infoWidth + n.getX)
            ≠ 0)
      ∧ ((n.costToGoWith E dubins true goal oGrid cg).2 (n.getY * oGrid.infoWidth + n.getX) = 0
        ↔ cg (n.getY * oGrid.infoWidth + n.getX) = 0
          ∧ E.aStar2D n.getX n.getY goal.getX goal.getY oGrid.data = 0) := by
  cases dubins with
  | false =>
    by_cases h0 : cg (n.getY * oGrid.infoWidth + n.getX) = 0
    · by_cases hs : E.aStar2D n.getX n.getY goal.getX goal.getY oGrid.data = 0
      · simp [Node3D.costToGoWith, Node3D.costToGoCalls, hx, hy, h0, hs]
      · simp [Node3D.costToGoWith, Node3D.costToGoCalls, hx, hy, h0, hs]
    · simp [Node3D.costToGoWith, Node3D.costToGoCalls, hx, hy, h0]
  | true =>
    have e := ht rfl
    by_cases h0 : cg (n.getY * oGrid.infoWidth + n.getX) = 0
    · by_cases hs : E.aStar2D n.getX n.getY goal.getX goal.getY oGrid.data = 0
      · simp [Node3D.costToGoWith, Node3D.costToGoCalls, hx, hy, h0, hs, e]
      · simp [Node3D.costToGoWith, Node3D.costToGoCalls, hx, hy, h0, hs, e]
    · simp [Node3D.costToGoWith, Node3D.costToGoCalls, hx, hy, h0, e]

/-- Witness of C13 as amended: two calls for the cell `(0, 0)` with goal `(3, 4)` and a 2D
search that returns the Manhattan distance. -/
theorem costToGo_memoised_witness :
    (Node3D.mk 0 0 90 0 0 none : Node3D ℚ).costToGoCalls true (Node3D.mk 3 4 0 0 0 none)
        ⟨5, fun _ => 0⟩
        ((Node3D.mk 0 0 0 0 0 none : Node3D ℚ).costToGoWith
          ⟨fun _ => 0, fun _ _ _ _ _ _ => 0, fun x y gx gy _ => ((|x - gx| + |y - gy| : Int) : ℚ)⟩
          false true (Node3D.mk 3 4 0 0 0 none) ⟨5, fun _ => 0⟩ (fun _ => 0)).2 = []
      ↔ ((Node3D.mk 0 0 0 0 0 none : Node3D ℚ).costToGoWith
          ⟨fun _ => 0, fun _ _ _ _ _ _ => 0, fun x y gx gy _ => ((|x - gx| + |y - gy| : Int) : ℚ)⟩
          false true (Node3D.mk 3 4 0 0 0 none) ⟨5, fun _ => 0⟩ (fun _ => 0)).2
            ((Node3D.mk 0 0 0 0 0 none : Node3D ℚ).getY * (⟨5, fun _ => 0⟩ : OccupancyGrid).infoWidth
              + (Node3D.mk 0 0 0 0 0 none : Node3D ℚ).getX) ≠ 0 :=
  (costToGo_memoised
    ⟨fun _ => 0, fun _ _ _ _ _ _ => 0, fun x y gx gy _ => ((|x - gx| + |y - gy| : Int) : ℚ)⟩
    false (Node3D.mk 0 0 0 0 0 none) (Node3D.mk 0 0 90 0 0 none) (Node3D.mk 3 4 0 0 0 none)
    ⟨5, fun _ => 0⟩ (fun _ => 0) rfl rfl (fun h => Bool.noConfusion h)).2.2.1

end EstimateClaims

end PathPlanner

namespace PathPlanner

/-! ## Closing, the tables and termination -/

section RunClaims

set_option linter.unusedSectionVars false

/-- A popped node whose lattice index lies inside the tables and is closed is dropped. -/
theorem loopBody_closed {K : Type} [LinearOrderedField K] (E : Ext K)
    (PQ : PriorityQueue (Node3D K) CompareNodes) (P : Problem K) (st : SearchState K PQ.Q)
    (n : Node3D K) (O1 : PQ.Q) (idx : Int) (hpop : PQ.pop st.O = some (n, O1))
    (hidx : P.index n.pose = some idx) (htab : P.inTable idx)
    (hcl : st.closed idx = true) :
    closes PQ P st = none ∧ loopBody E PQ P st = Step.next (st.drop PQ O1) := by
  rcases loopBody_cases E PQ P st with ⟨h, _, _⟩ | ⟨n1, O2, hpop1, h1⟩
  · rw [h] at hpop; cases hpop
  · rw [hpop] at hpop1
    simp only [Option.some.injEq, Prod.mk.injEq] at hpop1
    obtain ⟨rfl, rfl⟩ := hpop1
    rcases h1 with ⟨h2, _, _⟩ | ⟨i, hi, h1⟩
    · rw [h2] at hidx; cases hidx
    · rw [hidx] at hi
      have := Option.some.inj hi
      subst this
      rcases h1 with ⟨h2, _, _⟩ | ⟨_, _, h3, h4⟩ | ⟨_, h2, _⟩ | ⟨_, h2, _⟩
      · exact absurd htab h2
      · exact ⟨h3, h4⟩
      · rw [hcl] at h2; cases h2
      · rw [hcl] at h2; cases h2

/-- C14: monotonic closure in `Node3D::aStar`.  For every input, along the loop variables at
the head of the passes of one run, an entry of `closed` that is true stays true; the lattice
indices closed by the passes, each of which goes on to the goal test and the successor
loop, are pairwise different; and a pass that pops a node whose lattice index is closed
leaves `open`, `closed`, `cost` and the other arrays as they are and goes on with the open
list as the pop left it, nothing being pushed. -/
theorem closed_monotonic {K : Type} [LinearOrderedField K] (E : Ext K)
    (PQ : PriorityQueue (Node3D K) CompareNodes) (P : Problem K) (start : Node3D K)
    (tb : Tables K) :
    (aStarStates E PQ P start tb).Pairwise
        (fun a b => ∀ idx, a.closed idx = true → b.closed idx = true)
      ∧ ((aStarStates E PQ P start tb).filterMap (closes PQ P)).Nodup
      ∧ (∀ (st st1 : SearchState K PQ.Q), loopBody E PQ P st = Step.next st1 →
          (closes PQ P st = none ∧ st1.closed = st.closed)
            ∨ ∃ idx, closes PQ P st = some idx ∧ st.closed idx = false
                ∧ st1.closed = Function.update st.closed idx true)
      ∧ (∀ (st : SearchState K PQ.Q) (n : Node3D K) (O1 : PQ.Q) (idx : Int),
          PQ.pop st.O = some (n, O1) → P.index n.pose = some idx → P.inTable idx →
          st.closed idx = true →
            closes PQ P st = none ∧ loopBody E PQ P st = Step.next { st with O := O1 })
      ∧ (∀ (st : SearchState K PQ.logged.Q) (n : Node3D K) (O1 : PQ.logged.Q) (idx : Int),
          PQ.logged.pop st.O = some (n, O1) → P.index n.pose = some idx → P.inTable idx →
          st.closed idx = true →
            ∃ st1, loopBody E PQ.logged P st = Step.next st1 ∧ st1.toTables = st.toTables
              ∧ PQ.pushed st1.O = PQ.pushed st.O
              ∧ (PQ.logged.toList st.O).Perm (n :: PQ.logged.toList st1.O)) := by
  refine ⟨?_, ?_, ?_, ?_, ?_⟩
  · unfold aStarStates
    cases initial E PQ P start tb with
    | none => exact List.Pairwise.nil
    | some st => exact states_pairwise E PQ P _ st
  · unfold aStarStates
    cases initial E PQ P start tb with
    | none => exact List.nodup_nil
    | some st => exact (closes_nodup E PQ P _ st).1
  · intro st st1 hl
    rcases pass_closed E PQ P st st1 hl with h | ⟨idx, h1, h2⟩
    · exact Or.inl h
    · exact Or.inr ⟨idx, h1, (closes_spec PQ P st idx h1).2, h2⟩
  · intro st n O1 idx hpop hidx htab hcl
    exact loopBody_closed E PQ P st n O1 idx hpop hidx htab hcl
  · intro st n O1 idx hpop hidx htab hcl
    refine ⟨st.drop PQ.logged O1,
      (loopBody_closed E PQ.logged P st n O1 idx hpop hidx htab hcl).2, rfl,
      pushed_pop PQ st.O O1 n hpop, PQ.logged.pop_perm st.O n O1 hpop⟩

/-- An instance of C14: a pass that pops a node at `(0, 0, 0)` on the `5 x 5` grid when all
of `closed` is true drops it. -/
theorem closed_monotonic_witness :
    loopBody (⟨fun _ => 0, fun _ _ _ _ _ _ => 0, fun _ _ _ _ _ => 0⟩ : Ext ℚ) nodeQueue
        (openGrid (Node3D.mk 4 0 0 0 0 none) 0)
        (⟨⟨fun _ => false, fun _ => true, fun _ => 0, fun _ => 0, fun _ => 0⟩,
          [Node3D.mk 0 0 0 0 0 none]⟩ : SearchState ℚ (List (Node3D ℚ)))
      = Step.next
        (⟨⟨fun _ => false, fun _ => true, fun _ => 0, fun _ => 0, fun _ => 0⟩, []⟩ :
          SearchState ℚ (List (Node3D ℚ))) :=
  ((closed_monotonic (⟨fun _ => 0, fun _ _ _ _ _ _ => 0, fun _ _ _ _ _ => 0⟩ : Ext ℚ) nodeQueue
    (openGrid (Node3D.mk 4 0 0 0 0 none) 0) (Node3D.mk 0 0 0 0 0 none)
    (freshTables (fun _ => 0) (fun _ => 0))).2.2.2.1
    (⟨⟨fun _ => false, fun _ => true, fun _ => 0, fun _ => 0, fun _ => 0⟩,
      [Node3D.mk 0 0 0 0 0 none]⟩ : SearchState ℚ (List (Node3D ℚ)))
    (Node3D.mk 0 0 0 0 0 none) [] 175 rfl (by decide) (by decide) rfl).2

/-- C15: lattice index uniqueness.  The map `(bin, x, y) -> bin * width * height + y * width
+ x` is injective on `0 <= bin < 8`, `0 <= x < width`, `0 <= y < height` (which makes
`width` and `height` positive), and its value lies in `[0, width * height * 8)`; it is the
index that the search files a pose under. -/
theorem latticeIndex_injective (width height b x y b1 x1 y1 : Int)
    (hb : 0 ≤ b ∧ b < 8) (hx : 0 ≤ x ∧ x < width) (hy : 0 ≤ y ∧ y < height)
    (hx1 : 0 ≤ x1 ∧ x1 < width) (hy1 : 0 ≤ y1 ∧ y1 < height) :
    (latticeIndex width height b x y = latticeIndex width height b1 x1 y1 →
        b = b1 ∧ x = x1 ∧ y = y1)
      ∧ 0 ≤ latticeIndex width height b x y
      ∧ latticeIndex width height b x y < width * height * 8
      ∧ ∀ (K : Type) (P : Problem K) (p : Pose),
          P.index p = (dTat (toInt p.t)).map fun bin => latticeIndex P.width P.height bin p.x p.y := by
  obtain ⟨hc0, hc1⟩ := cell_index_range width height x y hx.1 hx.2 hy.1 hy.2
  obtain ⟨hd0, hd1⟩ := cell_index_range width height x1 y1 hx1.1 hx1.2 hy1.1 hy1.2
  refine ⟨fun h => ?_, ?_, ?_, fun K P p => rfl⟩
  · have e : b * (width * height) + (y * width + x)
        = b1 * (width * height) + (y1 * width + x1) := by
      unfold latticeIndex at h
      linarith
    obtain ⟨e1, e2⟩ := mixed_radix (width * height) b b1 _ _ hc0 hc1 hd0 hd1 e
    obtain ⟨e3, e4⟩ := mixed_radix width y y1 x x1 hx.1 hx.2 hx1.1 hx1.2 e2
    exact ⟨e1, e4, e3⟩
  · unfold latticeIndex
    have : 0 ≤ b * (width * height) := mul_nonneg hb.1 (le_trans hc0 (le_of_lt hc1))
    nlinarith
  · unfold latticeIndex
    have hwh : 0 < width * height := lt_of_le_of_lt hc0 hc1
    have : b * (width * height) ≤ 7 * (width * height) :=
      mul_le_mul_of_nonneg_right (by omega) (le_of_lt hwh)
    nlinarith

/-- Witness of C15: two indices of the `4 x 5` lattice. -/
theorem latticeIndex_injective_witness :
    (latticeIndex 4 5 7 3 1 = latticeIndex 4 5 0 3 1 → (7 : Int) = 0 ∧ (3 : Int) = 3 ∧ (1 : Int) = 1)
      ∧ 0 ≤ latticeIndex 4 5 7 3 1 ∧ latticeIndex 4 5 7 3 1 < 4 * 5 * 8 :=
  ⟨(latticeIndex_injective 4 5 7 3 1 0 3 1 (by decide) (by decide) (by decide)
      (by decide) (by decide)).1,
    (latticeIndex_injective 4 5 7 3 1 0 3 1 (by decide) (by decide) (by decide)
      (by decide) (by decide)).2.1,
    (latticeIndex_injective 4 5 7 3 1 0 3 1 (by decide) (by decide) (by decide)
      (by decide) (by decide)).2.2.1⟩

/-- C16: the cost-table invariant of `Node3D::aStar`.  In a run started with `open` and
`closed` all false, followed on the queue with the record of its pushes (which goes through
the same states as the run on the queue itself), at the head of every pass and for every
lattice index `idx` with `open[idx]` true: a node with that index and `g` equal to
`cost[idx]` was pushed, no node pushed so far with that index has a smaller `g`, and a node
with that index and that `g` is on the open list. -/
theorem cost_table_invariant {K : Type} [LinearOrderedField K] (E : Ext K)
    (PQ : PriorityQueue (Node3D K) CompareNodes) (P : Problem K) (start : Node3D K)
    (tb : Tables K) (hopen : ∀ i, tb.open_ i = false) (hclosed : ∀ i, tb.closed i = false) :
    (aStarStates E PQ.logged P start tb).map (SearchState.unlog PQ)
        = aStarStates E PQ P start tb
      ∧ ∀ s ∈ aStarStates E PQ.logged P start tb, ∀ idx, s.open_ idx = true →
        (∃ m ∈ PQ.pushed s.O, P.index m.pose = some idx ∧ m.getG = s.cost idx)
          ∧ (∀ m ∈ PQ.pushed s.O, P.index m.pose = some idx → s.cost idx ≤ m.getG)
          ∧ ∃ m ∈ PQ.logged.toList s.O, P.index m.pose = some idx ∧ m.getG = s.cost idx := by
  refine ⟨(aStar_unlog E PQ P start tb).2, ?_⟩
  intro s hs idx hidx
  rcases aStarStates_recorded E PQ P start tb hopen hclosed s hs with h | h
  · rw [h idx] at hidx; cases hidx
  · have hc := h.open_unclosed idx hidx
    obtain ⟨m, hm, h1, h2⟩ := h.open_pushed idx hidx
    refine ⟨⟨m, hm, h1, h2⟩, fun m1 hm1 h3 => (h.pushed_open m1 hm1 idx h3 hc).2.1,
      m, (h.pushed_open m hm idx h1 hc).2.2, h1, h2⟩

/-- Witness of C16: the run on the open `5 x 5` grid from `(0, 0, 0)` to `(4, 0, 0)` in real
arithmetic with fresh tables; the record of pushes leaves its states as they are. -/
theorem cost_table_invariant_witness :
    (aStarStates (⟨fun z => Real.sqrt z, fun _ _ _ _ _ _ => 0, fun _ _ _ _ _ => 0⟩ : Ext ℝ)
        nodeQueue.logged (openGrid (Node3D.mk 4 0 0 0 0 none) 0) (Node3D.mk 0 0 0 0 0 none)
        (freshTables (fun _ => 0) (fun _ => 0))).map (SearchState.unlog nodeQueue)
      = aStarStates (⟨fun z => Real.sqrt z, fun _ _ _ _ _ _ => 0, fun _ _ _ _ _ => 0⟩ : Ext ℝ)
        nodeQueue (openGrid (Node3D.mk 4 0 0 0 0 none) 0) (Node3D.mk 0 0 0 0 0 none)
        (freshTables (fun _ => 0) (fun _ => 0)) :=
  (cost_table_invariant
    (⟨fun z => Real.sqrt z, fun _ _ _ _ _ _ => 0, fun _ _ _ _ _ => 0⟩ : Ext ℝ)
    nodeQueue (openGrid (Node3D.mk 4 0 0 0 0 none) 0) (Node3D.mk 0 0 0 0 0 none)
    (freshTables (fun _ => 0) (fun _ => 0)) (fun _ => rfl) (fun _ => rfl)).1

/-- C17: index safety of `Node3D::aStar`.  With arrays `open`, `closed`, `cost` and
`costToGo` of `width * height * 8` entries and occupancy data of `width * height` entries,
from an in-bounds start with heading in `[0, 360)` (so `width` and `height` are positive;
`depth` plays no part) the run never ends in an access outside `dT`, the occupancy data or
the four arrays: the loop is entered, no pass ends in such an access, and `aStar` returns a
node or the null pointer.  The bounds check comes before the occupancy lookup: a candidate
outside the grid is passed over without any lookup, whatever the grid holds. -/
theorem aStar_index_safe {K : Type} [LinearOrderedField K] (E : Ext K)
    (PQ : PriorityQueue (Node3D K) CompareNodes) (P : Problem K) (start : Node3D K)
    (tb : Tables K) (hb : P.inBounds start.pose) (ht : 0 ≤ start.getT ∧ start.getT < 360) :
    initial E PQ P start tb ≠ none
      ∧ (∀ s ∈ aStarStates E PQ P start tb, loopBody E PQ P s ≠ Step.done Outcome.undefined)
      ∧ (aStar E PQ P start tb = Outcome.null ∨ ∃ n, aStar E PQ P start tb = Outcome.found n)
      ∧ ∀ (st : SearchState K PQ.Q) (nPred : Node3D K) (x y t j : Int) (i : Fin 3),
          dTat (tSuccOf t i) ≠ none →
          ¬ (0 ≤ x + dXat j i ∧ x + dXat j i < P.width ∧ 0 ≤ y + dYat j i
              ∧ y + dYat j i < P.height) →
            successor E PQ P nPred x y t j st i = some st := by
  refine ⟨?_, ?_, aStar_found_or_null E PQ P start tb hb ht, ?_⟩
  · obtain ⟨st, hst, _⟩ := initial_filed E PQ P start tb hb ht
    rw [hst]
    exact fun h => Option.noConfusion h
  · intro s hs
    exact (pass_filed E PQ P _ s (aStarStates_filed E PQ P start tb hb ht s hs)).1
  · intro st nPred x y t j i hd hout
    cases hdt : dTat (tSuccOf t i) with
    | none => exact absurd hdt hd
    | some b =>
      have hcond : ¬ (0 ≤ x + dXat j i ∧ x + dXat j i < P.width ∧ 0 ≤ y + dYat j i
          ∧ y + dYat j i < P.height ∧ 0 ≤ b ∧ b < P.depth) :=
        fun h => hout ⟨h.1, h.2.1, h.2.2.1, h.2.2.2.1⟩
      simp only [successor, hdt]
      rw [if_neg hcond]

/-- Witness of C17: the run on the open `5 x 5` grid from `(0, 0, 0)` in real arithmetic. -/
theorem aStar_index_safe_witness :
    aStar (⟨fun z => Real.sqrt z, fun _ _ _ _ _ _ => 0, fun _ _ _ _ _ => 0⟩ : Ext ℝ)
        nodeQueue (openGrid (Node3D.mk 4 0 0 0 0 none) 0)
        (Node3D.mk 0 0 0 0 0 none) (freshTables (fun _ => 0) (fun _ => 0)) = Outcome.null
      ∨ ∃ n, aStar (⟨fun z => Real.sqrt z, fun _ _ _ _ _ _ => 0, fun _ _ _ _ _ => 0⟩ : Ext ℝ)
        nodeQueue (openGrid (Node3D.mk 4 0 0 0 0 none) 0)
        (Node3D.mk 0 0 0 0 0 none) (freshTables (fun _ => 0) (fun _ => 0)) = Outcome.found n :=
  (aStar_index_safe (⟨fun z => Real.sqrt z, fun _ _ _ _ _ _ => 0, fun _ _ _ _ _ => 0⟩ : Ext ℝ)
    nodeQueue (openGrid (Node3D.mk 4 0 0 0 0 none) 0)
    (Node3D.mk 0 0 0 0 0 none) (freshTables (fun _ => 0) (fun _ => 0))
    (by simp [Problem.inBounds, openGrid]) (by simp)).2.2.1

/-- C18: termination of `Node3D::aStar`.  For every grid with `width, height > 0`, every
start, goal and content of the arrays, the loop returns before the fuel of the embedding
runs out, and more fuel gives the same result; the passes that close a lattice index (and
go on to the goal test and the successor loop) are at most `width * height * 8`, and the
nodes pushed on the open list at most `1 + 3 * width * height * 8`.  From an in-bounds start
with heading in `[0, 360)` the result is a node or the null pointer. -/
theorem aStar_terminates {K : Type} [LinearOrderedField K] (E : Ext K)
    (PQ : PriorityQueue (Node3D K) CompareNodes) (P : Problem K) (start : Node3D K)
    (tb : Tables K) (hw : 0 < P.width) (hh : 0 < P.height) :
    aStar E PQ P start tb ≠ Outcome.running
      ∧ (∀ st, initial E PQ P start tb = some st → ∀ fuel, fuelFor P ≤ fuel →
          iterate E PQ P fuel st = aStar E PQ P start tb
            ∧ states E PQ P fuel st = aStarStates E PQ P start tb
            ∧ ∃ s r, (aStarStates E PQ P start tb).getLast? = some s
                ∧ loopBody E PQ P s = Step.done r ∧ aStar E PQ P start tb = r)
      ∧ (((aStarStates E PQ P start tb).filterMap (closes PQ P)).length : Int)
          ≤ P.width * P.height * 8
      ∧ (∀ s ∈ aStarStates E PQ.logged P start tb,
          ((PQ.pushed s.O).length : Int) ≤ 1 + 3 * (P.width * P.height * 8))
      ∧ (P.inBounds start.pose → 0 ≤ start.getT ∧ start.getT < 360 →
          aStar E PQ P start tb = Outcome.null
            ∨ ∃ n, aStar E PQ P start tb = Outcome.found n) := by
  have hN : 0 ≤ P.width * P.height * 8 := by positivity
  have hcast : (((P.width * P.height * 8).toNat : Nat) : Int) = P.width * P.height * 8 :=
    Int.toNat_of_nonneg hN
  refine ⟨aStar_ne_running E PQ P start tb, ?_, ?_, ?_,
    fun hb ht => aStar_found_or_null E PQ P start tb hb ht⟩
  · intro st hst fuel hfuel
    obtain ⟨_, hm⟩ := initial_measure E PQ P start tb st hst
    obtain ⟨e1, s, r, e2, e3, e4⟩ := states_fuel E PQ P (fuelFor P) fuel st hm (by omega)
    have ha : aStar E PQ P start tb = iterate E PQ P (fuelFor P) st := by
      unfold aStar; rw [hst]
    have hs : aStarStates E PQ P start tb = states E PQ P (fuelFor P) st := by
      unfold aStarStates; rw [hst]
    refine ⟨?_, ?_, s, r, ?_, e3, ?_⟩
    · rw [ha]; exact iterate_fuel E PQ P fuel (fuelFor P) st (by omega) hm
    · rw [hs, e1]
    · rw [hs]; exact e2
    · rw [ha]; exact e4
  · unfold aStarStates
    cases initial E PQ P start tb with
    | none => simpa using hN
    | some st =>
      have h1 := (closes_nodup E PQ P (fuelFor P) st).2.2
      have h2 := unclosed_le P PQ.Q st
      simp only
      omega
  · intro s hs
    have := aStarStates_pushed E PQ P start tb s hs
    omega

/-- Witness of C18: the run on the open `5 x 5` grid from `(0, 0, 0)` in real arithmetic
closes at most `5 * 5 * 8` lattice indices. -/
theorem aStar_terminates_witness :
    (((aStarStates (⟨fun z => Real.sqrt z, fun _ _ _ _ _ _ => 0, fun _ _ _ _ _ => 0⟩ : Ext ℝ)
        nodeQueue (openGrid (Node3D.mk 4 0 0 0 0 none) 0) (Node3D.mk 0 0 0 0 0 none)
        (freshTables (fun _ => 0) (fun _ => 0))).filterMap
          (closes nodeQueue (openGrid (Node3D.mk 4 0 0 0 0 none) 0))).length : Int)
      ≤ (openGrid (Node3D.mk 4 0 0 0 0 none : Node3D ℝ) 0).width
        * (openGrid (Node3D.mk 4 0 0 0 0 none : Node3D ℝ) 0).height * 8 :=
  (aStar_terminates (⟨fun z => Real.sqrt z, fun _ _ _ _ _ _ => 0, fun _ _ _ _ _ => 0⟩ : Ext ℝ)
    nodeQueue (openGrid (Node3D.mk 4 0 0 0 0 none) 0)
    (Node3D.mk 0 0 0 0 0 none) (freshTables (fun _ => 0) (fun _ => 0))
    (by decide) (by decide)).2.2.1

end RunClaims

end PathPlanner

namespace PathPlanner

/-! ## Consistency and the direction of the step -/

section Consistency

set_option linter.unusedSectionVars false

variable {K : Type} [LinearOrderedField K]

end Consistency

/-- C20: the displacement agrees with the successor's heading.  For every integer parent
heading `t` in `[0, 360)` and every candidate `i`, the displacement
`(dX[dT[t]][i], dY[dT[t]][i])` is `(dx[k], dy[k])` with `k = floor(tSucc / 45)` in `[0, 8)`,
where `tSucc` is the wrapped heading of the candidate; and when `t` is a multiple of 45 the
label `dt[k]` of that direction is the new heading `tSucc`. -/
theorem displacement_matches_heading (t : Int) (h0 : 0 ≤ t) (h360 : t < 360) (i : Fin 3) :
    ∃ j, dTat t = some j
      ∧ 0 ≤ ⌊((tSuccOf t i : Int) : ℚ) / 45⌋ ∧ ⌊((tSuccOf t i : Int) : ℚ) / 45⌋ < 8
      ∧ dXat j i = dx.getD ⌊((tSuccOf t i : Int) : ℚ) / 45⌋.toNat 0
      ∧ dYat j i = dy.getD ⌊((tSuccOf t i : Int) : ℚ) / 45⌋.toNat 0
      ∧ (t % 45 = 0 →
          dt.getD ⌊((tSuccOf t i : Int) : ℚ) / 45⌋.toNat 0 = ((tSuccOf t i : Int) : ℚ)) := by
  have hfl : ⌊((tSuccOf t i : Int) : ℚ) / 45⌋ = tSuccOf t i / 45 := by
    have := Rat.floor_intCast_div_natCast (tSuccOf t i) 45
    simpa using this
  obtain ⟨hs0, hs1, hs2⟩ := tSuccOf_range t h0 h360 i
  have hk := tSuccOf_div t h0 h360 i
  have hi : (i.val : Int) < 3 := by exact_mod_cast i.isLt
  have hi0 : (0 : Int) ≤ (i.val : Int) := Int.natCast_nonneg _
  have hj0 : 0 ≤ (t / 45 + 7) % 8 := by omega
  have hj8 : (t / 45 + 7) % 8 < 8 := by omega
  obtain ⟨hx, hy⟩ := dXat_dx ((t / 45 + 7) % 8) hj0 hj8 i
  have hidx : ((t / 45 + 7) % 8 + (i.val : Int)) % 8 = tSuccOf t i / 45 := by
    rw [hk]; omega
  rw [hidx] at hx hy
  refine ⟨_, dTat_mod t h0 h360, ?_, ?_, ?_, ?_, ?_⟩
  · rw [hfl]; omega
  · rw [hfl]; omega
  · rw [hfl]; exact hx
  · rw [hfl]; exact hy
  · intro hm
    rw [hfl, dt_getD _ (by omega) (by omega)]
    have : 45 * (tSuccOf t i / 45) = tSuccOf t i := by omega
    rw [this]

/-- Witness of C20: heading 315 turned by `+45` wraps to heading 0 and moves east. -/
theorem displacement_matches_heading_witness :
    ∃ j, dTat 315 = some j
      ∧ 0 ≤ ⌊((tSuccOf 315 2 : Int) : ℚ) / 45⌋ ∧ ⌊((tSuccOf 315 2 : Int) : ℚ) / 45⌋ < 8
      ∧ dXat j 2 = dx.getD ⌊((tSuccOf 315 2 : Int) : ℚ) / 45⌋.toNat 0
      ∧ dYat j 2 = dy.getD ⌊((tSuccOf 315 2 : Int) : ℚ) / 45⌋.toNat 0
      ∧ ((315 : Int) % 45 = 0 →
          dt.getD ⌊((tSuccOf 315 2 : Int) : ℚ) / 45⌋.toNat 0 = ((tSuccOf 315 2 : Int) : ℚ)) :=
  displacement_matches_heading 315 (by decide) (by decide) 2

end PathPlanner
